import Mathlib

/-!
Verification development for the chromium-bidi mapper sources.

Each TypeScript function relevant to the verified claims is translated
into an executable Lean definition ("shallow embedding"):

* pure functions become Lean functions over `String` / `List`;
* JavaScript `Set` / `Map` objects (which preserve insertion order and
  never hold duplicates) become duplicate-free lists built with
  order-preserving insertion;
* methods that mutate an object become functions from a state record to
  a new state record, returning emitted events / sent CDP commands
  alongside;
* methods that can throw return an explicit result type carrying the
  error message.

String predicates are implemented over `String.data` so that every
definition evaluates by `decide` on concrete inputs.
-/

namespace StrUtil

/-- JS `String.prototype.startsWith`. -/
def jsStartsWith (s pre : String) : Bool :=
  pre.data.isPrefixOf s.data

/-- JS `String.prototype.endsWith`. -/
def jsEndsWith (s suf : String) : Bool :=
  suf.data.reverse.isPrefixOf s.data.reverse

/-- Case-insensitive equality on header names.  The source uses
`localeCompare(_, undefined, {sensitivity: 'base'}) === 0`; for the ASCII
header names involved this is equality up to letter case. -/
def eqCaseInsensitive (a b : String) : Bool :=
  a.data.map Char.toLower == b.data.map Char.toLower

end StrUtil

namespace SubMgr

/-!
Model of `src/bidiMapper/modules/session/SubscriptionManager.ts`.

Event names and browsing-context ids are plain strings.  A channel
(`BidiPlusChannel`) is `string | null`, modelled as `Option String`.
JS `Set`s are modelled as duplicate-free lists built with `setInsert`,
which preserves the insertion order exactly as a JS `Set` does.
-/

/-- Insertion-ordered set insert: JS `Set.prototype.add`. -/
def setInsert (x : String) (l : List String) : List String :=
  if x ∈ l then l else l ++ [x]

/-- Collapse a list to a JS `Set` (first occurrence wins, order kept):
`new Set(list)`. -/
def dedup (l : List String) : List String :=
  l.foldl (fun acc x => setInsert x acc) []

/-- `intersection(setA, setB)` from SubscriptionManager.ts. -/
def inter (a b : List String) : List String :=
  a.filter (fun x => x ∈ b)

/-- `equal(setA, setB)` from SubscriptionManager.ts: same size and
`setA ⊆ setB`. -/
def setEqual (a b : List String) : Bool :=
  a.length == b.length && a.all (fun x => x ∈ b)

/-- `ChromiumBidi.Bluetooth.EventNames`.  The enum itself is part of the
generated protocol file that is not among the repository sources; the
event list is taken from the generated `bluetooth.requestDevicePromptUpdated`
event type. -/
def bluetoothEvents : List String :=
  ["bluetooth.requestDevicePromptUpdated"]

/-- `ChromiumBidi.BrowsingContext.EventNames` (protocol/chromium-bidi.ts). -/
def browsingContextEvents : List String :=
  ["browsingContext.contextCreated", "browsingContext.contextDestroyed",
   "browsingContext.domContentLoaded", "browsingContext.downloadWillBegin",
   "browsingContext.fragmentNavigated", "browsingContext.load",
   "browsingContext.navigationAborted", "browsingContext.navigationFailed",
   "browsingContext.navigationStarted", "browsingContext.userPromptClosed",
   "browsingContext.userPromptOpened"]

/-- `ChromiumBidi.Log.EventNames` (protocol/chromium-bidi.ts). -/
def logEvents : List String := ["log.entryAdded"]

/-- `ChromiumBidi.Network.EventNames` (protocol/chromium-bidi.ts). -/
def networkEvents : List String :=
  ["network.authRequired", "network.beforeRequestSent", "network.fetchError",
   "network.responseCompleted", "network.responseStarted"]

/-- `ChromiumBidi.Script.EventNames` (protocol/chromium-bidi.ts). -/
def scriptEvents : List String :=
  ["script.message", "script.realmCreated", "script.realmDestroyed"]

/-- The module cases of the `switch` in `unrollEvents`. -/
def moduleEvents (e : String) : Option (List String) :=
  if e = "bluetooth" then some bluetoothEvents
  else if e = "browsingContext" then some browsingContextEvents
  else if e = "log" then some logEvents
  else if e = "network" then some networkEvents
  else if e = "script" then some scriptEvents
  else none

/-- `unrollEvents`: expands module names into their atomic events,
accumulating into a `Set` (so the result is duplicate-free, in insertion
order). -/
def unrollEvents (events : List String) : List String :=
  events.foldl
    (fun acc e =>
      match moduleEvents e with
      | some evs => evs.foldl (fun a x => setInsert x a) acc
      | none => setInsert e acc)
    []

/-- One `Subscription` record. -/
structure Subscription where
  id : String
  /-- Empty list means a global subscription. -/
  topLevelTraversableIds : List String
  /-- Never empty for subscriptions created through `subscribe`. -/
  eventNames : List String
  channel : Option String
deriving DecidableEq

/-- The mutable `#subscriptions` field of the manager. -/
structure ManagerState where
  subscriptions : List Subscription
deriving DecidableEq

/-- Abstraction of the `BrowsingContextStorage` collaborator.
`known c` models `getContext` succeeding (the context is in the store);
`topLevelOf c` models `findTopLevelContextId c` for a non-null id, which
walks parent ids and is total (an unknown id resolves to itself). -/
structure ContextStore where
  known : String → Bool
  topLevelOf : String → String

inductive SubError
  | noSuchFrame (msg : String)
  | invalidArgument (msg : String)
deriving DecidableEq

/-- Result of an operation that either updates the manager or throws. -/
inductive SubRes
  | ok (st : ManagerState)
  | err (e : SubError)
deriving DecidableEq

/-- Result of `subscribe` (new state plus the created record). -/
inductive SubscribeRes
  | ok (st : ManagerState) (sub : Subscription)
  | err (e : SubError)
deriving DecidableEq

/-- `contextIds.map(contextId => { findTopLevelContextId; throw if falsy })`,
as used by both `subscribe` and `unsubscribe`. -/
def resolveTopLevels (env : ContextStore) : List String → Except SubError (List String)
  | [] => .ok []
  | c :: rest =>
    let t := env.topLevelOf c
    if t = "" then
      .error (.noSuchFrame ("Top-level navigable not found for context id " ++ c))
    else
      match resolveTopLevels env rest with
      | .ok ts => .ok (t :: ts)
      | .error e => .error e

/-- `SubscriptionManager.subscribe`.  `newId` stands for the fresh
`uuidv4()`. -/
def subscribe (env : ContextStore) (st : ManagerState)
    (eventNames contextIds : List String) (channel : Option String)
    (newId : String) : SubscribeRes :=
  match resolveTopLevels env contextIds with
  | .error e => .err e
  | .ok tops =>
    let sub : Subscription :=
      { id := newId
        eventNames := dedup (unrollEvents eventNames)
        topLevelTraversableIds := dedup tops
        channel := channel }
    .ok { subscriptions := st.subscriptions ++ [sub] } sub

/-- JS `Map.prototype.set` on an insertion-ordered association list. -/
def mapSet (k : String) (v : List String) (m : List (String × List String)) :
    List (String × List String) :=
  if m.any (fun q => q.1 = k) then m.map (fun q => if q.1 = k then (k, v) else q)
  else m ++ [(k, v)]

/-- The inner loop of the scoped branch: for a fixed requested event, walk
the requested top-level ids and delete the ones present in the
subscription's per-event context set, recording the matches. -/
def removeTops (topLevels : List String) (eventName : String)
    (ctxSet : List String) (evM ctxM : List String) :
    List String × List String × List String :=
  topLevels.foldl
    (fun (acc : List String × List String × List String) t =>
      let (cs, em, cm) := acc
      if t ∈ cs then (cs.filter (fun x => x ≠ t), setInsert eventName em, setInsert t cm)
      else (cs, em, cm))
    (ctxSet, evM, ctxM)

/-- The per-requested-event loop of the scoped branch, over the event map
(an insertion-ordered association list, as a JS `Map`). -/
def scopedLoop (topLevels : List String) (eventNames : List String)
    (eventMap : List (String × List String)) (evM ctxM : List String) :
    List (String × List String) × List String × List String :=
  eventNames.foldl
    (fun (acc : List (String × List String) × List String × List String) e =>
      let (m, em, cm) := acc
      match m.find? (fun p => p.1 = e) with
      | none => (m, em, cm)
      | some p =>
        let (cs, em2, cm2) := removeTops topLevels e p.2 em cm
        if cs.isEmpty then (m.filter (fun q => q.1 ≠ e), em2, cm2)
        else (m.map (fun q => if q.1 = e then (e, cs) else q), em2, cm2))
    (eventMap, evM, ctxM)

/-- One iteration of the main `for (const subscription of this.#subscriptions)`
loop of `unsubscribe`, acting on the accumulator
(new subscription list so far, matched events, matched contexts). -/
def unsubscribeStep (eventNames topLevels : List String)
    (channel : Option String) (isGlobal : Bool)
    (acc : List Subscription × List String × List String)
    (sub : Subscription) : List Subscription × List String × List String :=
  let (newSubs, evM, ctxM) := acc
  if sub.channel ≠ channel then (newSubs ++ [sub], evM, ctxM)
  else if (inter sub.eventNames eventNames).isEmpty then (newSubs ++ [sub], evM, ctxM)
  else if isGlobal then
    if ¬sub.topLevelTraversableIds.isEmpty then (newSubs ++ [sub], evM, ctxM)
    else
      -- delete each requested event from a copy of the subscription's events
      let evM2 := eventNames.foldl
        (fun em e => if e ∈ sub.eventNames then setInsert e em else em) evM
      let remaining := sub.eventNames.filter (fun e => e ∉ eventNames)
      if ¬remaining.isEmpty then
        (newSubs ++ [{ sub with eventNames := remaining }], evM2, ctxM)
      else (newSubs, evM2, ctxM)
  else
    if sub.topLevelTraversableIds.isEmpty then (newSubs ++ [sub], evM, ctxM)
    else
      let eventMap := sub.eventNames.foldl
        (fun m e => mapSet e sub.topLevelTraversableIds m) []
      let (m, evM2, ctxM2) := scopedLoop topLevels eventNames eventMap evM ctxM
      (newSubs ++ m.map (fun p =>
        { id := sub.id, channel := sub.channel,
          eventNames := [p.1], topLevelTraversableIds := p.2 }), evM2, ctxM2)

/-- `SubscriptionManager.unsubscribe` (the attribute-based legacy branch). -/
def unsubscribe (env : ContextStore) (st : ManagerState)
    (inputEventNames inputContextIds : List String)
    (channel : Option String) : SubRes :=
  let eventNames := dedup (unrollEvents inputEventNames)
  -- Validation that contexts exist (`getContext` throws on unknown ids).
  match inputContextIds.find? (fun c => ¬env.known c) with
  | some c => .err (.noSuchFrame ("Context " ++ c ++ " not found"))
  | none =>
    match resolveTopLevels env inputContextIds with
    | .error e => .err e
    | .ok tops =>
      let topLevels := dedup tops
      let isGlobal := topLevels.isEmpty
      let (newSubs, evM, ctxM) := st.subscriptions.foldl
        (unsubscribeStep eventNames topLevels channel isGlobal) ([], [], [])
      if ¬setEqual evM eventNames then
        .err (.invalidArgument "No subscription found")
      else if ¬isGlobal ∧ ¬setEqual ctxM topLevels then
        .err (.invalidArgument "No subscription found")
      else .ok { subscriptions := newSubs }

/-- The imperative effect of `unsubscribe` on the stored list: the
`this.#subscriptions = newSubscriptions` assignment only runs when no
exception was thrown, so the state is untouched on error. -/
def applyUnsubscribe (env : ContextStore) (st : ManagerState)
    (inputEventNames inputContextIds : List String)
    (channel : Option String) : ManagerState :=
  match unsubscribe env st inputEventNames inputContextIds channel with
  | .ok st2 => st2
  | .err _ => st

/-- `SubscriptionManager.unsubscribeById` — the body is a `TODO: implement.`
comment, so the call does nothing. -/
def unsubscribeById (st : ManagerState) (_subscription : String) : ManagerState :=
  st

/-- Spec-level reading of "event `e` matched at least one existing
subscription" for a global unsubscribe (no contexts given): some
subscription on the channel is itself global and contains `e`. -/
def specEventMatchedGlobal (subs : List Subscription) (channel : Option String)
    (e : String) : Prop :=
  ∃ sub ∈ subs, sub.channel = channel ∧ sub.topLevelTraversableIds = [] ∧
    e ∈ sub.eventNames

/-- Spec-level reading of "event `e` matched" for a scoped unsubscribe:
some non-global subscription on the channel contains `e` and holds at
least one of the requested top-level contexts. -/
def specEventMatchedScoped (subs : List Subscription) (channel : Option String)
    (topLevels : List String) (e : String) : Prop :=
  ∃ sub ∈ subs, sub.channel = channel ∧ sub.topLevelTraversableIds ≠ [] ∧
    e ∈ sub.eventNames ∧ ∃ t ∈ topLevels, t ∈ sub.topLevelTraversableIds

/-- Spec-level reading of "top-level context `t` matched" for a scoped
unsubscribe: some non-global subscription on the channel holds `t` and
contains at least one of the requested events. -/
def specContextMatched (subs : List Subscription) (channel : Option String)
    (eventNames : List String) (t : String) : Prop :=
  ∃ sub ∈ subs, sub.channel = channel ∧ sub.topLevelTraversableIds ≠ [] ∧
    t ∈ sub.topLevelTraversableIds ∧ ∃ e ∈ eventNames, e ∈ sub.eventNames

/-- The deduplicated resolved top-level contexts of an unsubscribe call
(`new Set(inputContextIds.map(findTopLevelContextId…))` when every
context resolves). -/
def resolvedTopLevels (env : ContextStore) (contextIds : List String) : List String :=
  dedup (contextIds.map env.topLevelOf)

/-- Spec-level reading of "event `e` matched at least one existing
subscription", dispatching on whether the unsubscribe is global. -/
def specEventMatched (subs : List Subscription) (channel : Option String)
    (topLevels : List String) (e : String) : Prop :=
  if topLevels = [] then specEventMatchedGlobal subs channel e
  else specEventMatchedScoped subs channel topLevels e

/-- Capability set of a subscription list, as in the C4 claim: one entry
`(eventName, some topLevelContext, channel)` per context of a scoped
subscription, and `(eventName, none, channel)` for a global one. -/
def capSet (subs : List Subscription) : List (String × Option String × Option String) :=
  subs.foldl
    (fun acc sub =>
      sub.eventNames.foldl
        (fun acc2 e =>
          if sub.topLevelTraversableIds.isEmpty then
            acc2 ++ [(e, none, sub.channel)]
          else
            acc2 ++ sub.topLevelTraversableIds.map (fun t => (e, some t, sub.channel)))
        acc)
    []

end SubMgr

namespace NetReq

/-!
Model of `src/bidiMapper/modules/network/NetworkRequest.ts` (the
per-request state machine) together with the `NetworkManager` dispatch of
`Network.requestWillBeSent` (redirect handling) and the pieces of
`NetworkUtils.ts` the claims touch.

Only the CDP payload fields that the translated logic reads are kept;
every kept field mirrors the corresponding TypeScript property.  Promise
plumbing (`waitNextPhase`, `void`-ed async calls) has no observable
effect on the verified state and is modelled by applying the eventual
state update in place.
-/

/-- The five BiDi network event names (`ChromiumBidi.Network.EventNames`). -/
inductive EvName
  | authRequired
  | beforeRequestSent
  | fetchError
  | responseCompleted
  | responseStarted
deriving DecidableEq

/-- `Network.InterceptPhase`. -/
inductive Phase
  | beforeRequestSent
  | responseStarted
  | authRequired
deriving DecidableEq

/-- A BiDi network header; the `value` field keeps the string payload of
the `{type: 'string', value}` BytesValue. -/
structure Header where
  name : String
  value : String
deriving DecidableEq

/-- A BiDi cookie header (`Network.CookieHeader`); `value` keeps the
string payload (the base64 re-encoding branch is value-level only). -/
structure CookieHeader where
  name : String
  value : String
deriving DecidableEq

/-- Modelled from the spec: `networkHeaderFromCookieHeaders` of
`NetworkUtils.ts` is not among the repository sources.  Per the spec it
synthesizes the single `cookie` header from the supplied cookie list
(`undefined` in, `undefined` out; the values are joined in order). -/
def networkHeaderFromCookieHeaders : Option (List CookieHeader) → Option Header
  | none => none
  | some cookies =>
    some { name := "Cookie"
           value := String.intercalate ";" (cookies.map (fun c => c.name ++ "=" ++ c.value)) }

/-- `NetworkRequest.#getOverrideHeader(headers, cookies)`.  The base
request headers (`this.#requestHeaders`) are passed explicitly.  Note the
source computes `overrideHeaders.filter(...)` for the `cookie` header but
discards the result of `filter`, so the line has no effect; the model
keeps the discarded computation as `_filtered`. -/
def getOverrideHeader (requestHeaders : List Header)
    (headers : Option (List Header)) (cookies : Option (List CookieHeader)) :
    Option (List Header) :=
  if headers = none ∧ cookies = none then some []
  else
    let overrideHeaders : Option (List Header) := headers
    let cookieHeader := networkHeaderFromCookieHeaders cookies
    let overrideHeaders : Option (List Header) :=
      match cookieHeader, overrideHeaders with
      | some _, none => some requestHeaders
      | _, _ => overrideHeaders
    match cookieHeader, overrideHeaders with
    | some ch, some hs =>
      let _filtered := hs.filter
        (fun h => ¬StrUtil.eqCaseInsensitive h.name "cookie")
      some (hs ++ [ch])
    | _, _ => overrideHeaders

/-- `Protocol.Network.Request` (fields read by the translated logic). -/
structure ReqData where
  url : String
  urlFragment : Option String := none
deriving DecidableEq

/-- `Protocol.Network.Response` (fields read by the translated logic). -/
structure RespInfo where
  url : String
  fromDiskCache : Bool := false
deriving DecidableEq

/-- `Protocol.Network.RequestWillBeSentEvent` (fields read). -/
structure RWBS where
  request : ReqData
  redirectResponse : Option RespInfo := none
deriving DecidableEq

/-- `Protocol.Network.RequestWillBeSentExtraInfoEvent`; only its presence
is read by the emission logic. -/
structure RWBSExtra where
deriving DecidableEq

/-- `Protocol.Network.ResponseReceivedEvent` (fields read). -/
structure RespReceived where
  response : RespInfo
  hasExtraInfo : Bool
deriving DecidableEq

/-- `Protocol.Network.ResponseReceivedExtraInfoEvent` (fields read):
`statusCode` and `headers['location']`. -/
structure RespExtra where
  statusCode : Int
  locationHeader : Option String := none
deriving DecidableEq

/-- `Protocol.Fetch.RequestPausedEvent` (fields read).  A CDP status code
of `0` and an absent error reason are both falsy in the source's
`event.responseStatusCode || event.responseErrorReason` test. -/
structure Paused where
  requestId : String
  request : ReqData
  responseStatusCode : Option Int := none
  responseErrorReason : Option String := none
deriving DecidableEq

/-- `Protocol.Fetch.AuthRequiredEvent` (fields read). -/
structure AuthReq where
  requestId : String
  request : ReqData
deriving DecidableEq

/-- `Protocol.Network.LoadingFailedEvent` (fields read). -/
structure LoadingFailed where
  errorText : String
deriving DecidableEq

/-- `network.continueRequest` / `continueResponse` / `provideResponse`
body payload (`Network.BytesValue`). -/
inductive BytesValue
  | str (value : String)
  | base64 (value : String)
deriving DecidableEq

/-- The `#requestOverrides` record stored by `continueRequest`.  The
`bodySize` field (which the source derives from the body via `atob`
length arithmetic) is not read by any verified claim and is left out. -/
structure Overrides where
  url : Option String := none
  method : Option String := none
  headers : Option (List Header) := none
  cookies : Option (List CookieHeader) := none
deriving DecidableEq

/-- The mutable state of one `NetworkRequest` instance. -/
structure NRState where
  id : String
  fetchId : Option String := none
  interceptPhase : Option Phase := none
  servedFromCache : Bool := false
  redirectCount : Nat := 0
  reqInfo : Option RWBS := none
  reqExtraInfo : Option RWBSExtra := none
  reqPaused : Option Paused := none
  reqAuth : Option AuthReq := none
  respHasExtraInfo : Option Bool := none
  respInfo : Option RespInfo := none
  respExtraInfo : Option RespExtra := none
  respPaused : Option Paused := none
  requestOverrides : Option Overrides := none
  emittedAuthRequired : Bool := false
  emittedBeforeRequestSent : Bool := false
  emittedFetchError : Bool := false
  emittedResponseCompleted : Bool := false
  emittedResponseStarted : Bool := false
deriving DecidableEq

/-- A fresh `new NetworkRequest(id, …, redirectCount)`. -/
def initState (id : String) (redirectCount : Nat) : NRState :=
  { id := id, redirectCount := redirectCount }

/-- Read of the `#emittedEvents` record. -/
def emitted (s : NRState) : EvName → Bool
  | .authRequired => s.emittedAuthRequired
  | .beforeRequestSent => s.emittedBeforeRequestSent
  | .fetchError => s.emittedFetchError
  | .responseCompleted => s.emittedResponseCompleted
  | .responseStarted => s.emittedResponseStarted

/-- Write of the `#emittedEvents` record. -/
def setEmitted (s : NRState) : EvName → NRState
  | .authRequired => { s with emittedAuthRequired := true }
  | .beforeRequestSent => { s with emittedBeforeRequestSent := true }
  | .fetchError => { s with emittedFetchError := true }
  | .responseCompleted => { s with emittedResponseCompleted := true }
  | .responseStarted => { s with emittedResponseStarted := true }

/-- The `url` getter: first defined of the chained optional reads, with
the request's URL fragment appended. -/
def NRState.url (s : NRState) : String :=
  let fragment :=
    ((s.reqInfo.bind (fun e => e.request.urlFragment)).orElse
      (fun _ => s.reqPaused.bind (fun e => e.request.urlFragment))).getD ""
  let url :=
    (((((s.respInfo.map (fun r => r.url)).orElse
      (fun _ => s.respPaused.map (fun e => e.request.url))).orElse
      (fun _ => s.requestOverrides.bind (fun o => o.url))).orElse
      (fun _ => s.reqAuth.map (fun e => e.request.url))).orElse
      (fun _ => s.reqInfo.map (fun e => e.request.url))).orElse
      (fun _ => s.reqPaused.map (fun e => e.request.url))
  (url.getD "UNKNOWN") ++ fragment

/-- `#isDataUrl`. -/
def isDataUrl (s : NRState) : Bool :=
  StrUtil.jsStartsWith s.url "data:"

/-- `#isIgnoredEvent`: the `??`-chain consults `request.paused` first and
falls through to `request.info` only when the former is absent. -/
def isIgnoredEvent (s : NRState) : Bool :=
  match s.reqPaused with
  | some p => StrUtil.jsEndsWith p.request.url "/favicon.ico"
  | none =>
    match s.reqInfo with
    | some i => StrUtil.jsEndsWith i.request.url "/favicon.ico"
    | none => false

/-- The interception oracle for one handler invocation: the combined
result of `#isBlockedInPhase` (subscription check plus
`getInterceptsForPhase` being non-empty) for each phase at that moment. -/
structure Env where
  blocked : Phase → Bool

/-- `#emitEvent(getEvent)`.  Building the payload runs first (the
`try { getEvent() }` call): for the events whose payload goes through
`#getResponseEventParams`, a disk-cached response clears
`#response.extraInfo` as a side effect.  Then favicon requests and
repeated events (except `authRequired`) are dropped; otherwise the event
is recorded and appended to the trace. -/
def emitCheck (name : EvName) (s : NRState) (out : List EvName) :
    NRState × List EvName :=
  if isIgnoredEvent s ∨ (emitted s name ∧ name ≠ .authRequired) then (s, out)
  else (setEmitted s name, out ++ [name])

def emitOne (name : EvName) (s : NRState) (out : List EvName) :
    NRState × List EvName :=
  emitCheck name
    (if (name = .responseStarted ∨ name = .responseCompleted ∨ name = .authRequired)
        ∧ (s.respInfo.map (fun r => r.fromDiskCache)).getD false then
      { s with respExtraInfo := none }
    else s) out

/-- One conditional `this.#emitEvent(...)` call inside
`#emitEventsIfReady`, threading the (state, trace) pair. -/
def condEmit (cond : Bool) (n : EvName) (p : NRState × List EvName) :
    NRState × List EvName :=
  if cond then emitOne n p.1 p.2 else p

/-- The three sequential conditional emissions of `#emitEventsIfReady`:
`beforeRequestSent`, then `responseStarted` (whose readiness test reads
the state after the first emission), then `responseCompleted` (whose
readiness test reads the states after the first and second emissions).
Returns the final state, the trace, and whether the third block ran. -/
def emitPipeline (c1 : Bool) (c2of : NRState → Bool)
    (c3of : NRState → NRState → Bool) (s : NRState) :
    NRState × List EvName × Bool :=
  let p1 := condEmit c1 .beforeRequestSent (s, [])
  let p2 := condEmit (c2of p1.1) .responseStarted p1
  let c3 := c3of p1.1 p2.1
  let p3 := condEmit c3 .responseCompleted p2
  (p3.1, p3.2, c3)

/-- `#emitEventsIfReady(options)`.  Returns the new state, the emitted
events in order, and whether the `responseCompleted` block ran (which in
the source also calls `networkStorage.deleteRequest`). -/
def emitEventsIfReady (env : Env) (wasRedirected hasFailed : Bool)
    (s0 : NRState) : NRState × List EvName × Bool :=
  let requestExtraInfoCompleted :=
    wasRedirected || hasFailed || isDataUrl s0 || s0.reqExtraInfo.isSome ||
    s0.servedFromCache ||
    (s0.respInfo.isSome && !(s0.respHasExtraInfo.getD false))
  let noInterceptionExpected := isDataUrl s0 || s0.servedFromCache
  let requestInterceptionExpected :=
    !noInterceptionExpected && env.blocked .beforeRequestSent
  let requestInterceptionCompleted :=
    !requestInterceptionExpected ||
    (requestInterceptionExpected && s0.reqPaused.isSome)
  let responseInterceptionExpected :=
    !noInterceptionExpected && env.blocked .responseStarted
  emitPipeline
    (s0.reqInfo.isSome &&
      (if requestInterceptionExpected then requestInterceptionCompleted
       else requestExtraInfoCompleted))
    (fun s1 =>
      s1.respInfo.isSome || (responseInterceptionExpected && s1.respPaused.isSome))
    (fun s1 s2 =>
      s2.respInfo.isSome &&
      (s1.respExtraInfo.isSome || s1.servedFromCache ||
        (s1.respInfo.isSome && !(s1.respHasExtraInfo.getD false))) &&
      (!responseInterceptionExpected ||
        (responseInterceptionExpected && s2.respPaused.isSome)))
    s0

/-- `onRequestWillBeSentEvent`. -/
def onRequestWillBeSent (env : Env) (e : RWBS) (s : NRState) :
    NRState × List EvName × Bool :=
  emitEventsIfReady env false false { s with reqInfo := some e }

/-- `onRequestWillBeSentExtraInfoEvent`. -/
def onRequestWillBeSentExtraInfo (env : Env) (e : RWBSExtra) (s : NRState) :
    NRState × List EvName × Bool :=
  emitEventsIfReady env false false { s with reqExtraInfo := some e }

/-- `onResponseReceivedExtraInfoEvent`: a 30x whose `location` header
equals the original request URL is discarded. -/
def onResponseReceivedExtraInfo (env : Env) (e : RespExtra) (s : NRState) :
    NRState × List EvName × Bool :=
  if 300 ≤ e.statusCode ∧ e.statusCode ≤ 399 ∧ s.reqInfo.isSome ∧
      e.locationHeader = s.reqInfo.map (fun i => i.request.url) then
    (s, [], false)
  else
    emitEventsIfReady env false false { s with respExtraInfo := some e }

/-- `onResponseReceivedEvent`. -/
def onResponseReceived (env : Env) (e : RespReceived) (s : NRState) :
    NRState × List EvName × Bool :=
  emitEventsIfReady env false false
    { s with respHasExtraInfo := some e.hasExtraInfo, respInfo := some e.response }

/-- `onServedFromCache`. -/
def onServedFromCache (env : Env) (s : NRState) : NRState × List EvName × Bool :=
  emitEventsIfReady env false false { s with servedFromCache := true }

/-- `onLoadingFailedEvent`: flush with `hasFailed`, then emit
`network.fetchError`. -/
def onLoadingFailed (env : Env) (_e : LoadingFailed) (s : NRState) :
    NRState × List EvName × Bool :=
  let (s1, out1, d1) := emitEventsIfReady env false true s
  let (s2, out2) := emitOne .fetchError s1 out1
  (s2, out2, d1)

/-- Truthiness of `event.responseStatusCode || event.responseErrorReason`. -/
def pausedAtResponseStage (e : Paused) : Bool :=
  (match e.responseStatusCode with | some n => n ≠ 0 | none => false) ||
  e.responseErrorReason.isSome

/-- The state update of `onRequestPaused` before the flush: `#fetchId` is
set first, so the `this.#fetchId !== this.id` guard compares the event's
request id with the network id.  The `void this.#continueRequest()` /
`void this.#continueResponse()` calls clear the intercept phase (their
CDP command is fire-and-forget and not part of this machine). -/
def pausedUpdate (env : Env) (e : Paused) (s : NRState) : NRState :=
  if pausedAtResponseStage e then
    if env.blocked .responseStarted && !s.emittedResponseStarted &&
        decide (e.requestId ≠ s.id) then
      { s with fetchId := some e.requestId, respPaused := some e,
               interceptPhase := some .responseStarted }
    else
      { s with fetchId := some e.requestId, respPaused := some e,
               interceptPhase := none }
  else
    if env.blocked .beforeRequestSent && !s.emittedBeforeRequestSent &&
        decide (e.requestId ≠ s.id) then
      { s with fetchId := some e.requestId, reqPaused := some e,
               interceptPhase := some .beforeRequestSent }
    else
      { s with fetchId := some e.requestId, reqPaused := some e,
               interceptPhase := none }

/-- `onRequestPaused`. -/
def onRequestPaused (env : Env) (e : Paused) (s : NRState) :
    NRState × List EvName × Bool :=
  emitEventsIfReady env false false (pausedUpdate env e s)

/-- The state update of `onAuthRequired` before the emission (as with
`pausedUpdate`, `#fetchId` holds the event's request id when the
`this.#fetchId !== this.id` guard runs). -/
def authUpdate (env : Env) (e : AuthReq) (s : NRState) : NRState :=
  if env.blocked .authRequired && decide (e.requestId ≠ s.id) then
    { s with fetchId := some e.requestId, reqAuth := some e,
             interceptPhase := some .authRequired }
  else
    { s with fetchId := some e.requestId, reqAuth := some e,
             interceptPhase := none }

/-- `onAuthRequired`: always emits `network.authRequired` (subject only to
the favicon suppression). -/
def onAuthRequired (env : Env) (e : AuthReq) (s : NRState) :
    NRState × List EvName × Bool :=
  ((emitOne .authRequired (authUpdate env e s) []).1,
    (emitOne .authRequired (authUpdate env e s) []).2, false)

/-- `handleRedirect(event)`: record the redirect response with
`hasExtraInfo` forced to `false` and flush. -/
def handleRedirect (env : Env) (e : RWBS) (s : NRState) :
    NRState × List EvName × Bool :=
  emitEventsIfReady env true false
    { s with respHasExtraInfo := some false, respInfo := e.redirectResponse }

/-- One CDP input event delivered to a `NetworkRequest` instance (the
`redirect` case is `handleRedirect`, reached via the Network Manager). -/
inductive Input
  | requestWillBeSent (e : RWBS)
  | requestWillBeSentExtraInfo (e : RWBSExtra)
  | responseReceived (e : RespReceived)
  | responseReceivedExtraInfo (e : RespExtra)
  | servedFromCache
  | loadingFailed (e : LoadingFailed)
  | requestPaused (e : Paused)
  | authRequired (e : AuthReq)
  | redirect (e : RWBS)

/-- Dispatch one input event. -/
def step (env : Env) (s : NRState) : Input → NRState × List EvName × Bool
  | .requestWillBeSent e => onRequestWillBeSent env e s
  | .requestWillBeSentExtraInfo e => onRequestWillBeSentExtraInfo env e s
  | .responseReceived e => onResponseReceived env e s
  | .responseReceivedExtraInfo e => onResponseReceivedExtraInfo env e s
  | .servedFromCache => onServedFromCache env s
  | .loadingFailed e => onLoadingFailed env e s
  | .requestPaused e => onRequestPaused env e s
  | .authRequired e => onAuthRequired env e s
  | .redirect e => handleRedirect env e s

/-- Run a sequence of input events (each with the interception oracle in
force at that moment), collecting the full emission trace. -/
def run (s : NRState) : List (Env × Input) → NRState × List EvName
  | [] => (s, [])
  | (env, i) :: rest =>
    let (s1, out1, _) := step env s i
    let (s2, out2) := run s1 rest
    (s2, out1 ++ out2)

/-- The state fields untouched by the emission machinery (everything
except the `#emittedEvents` flags and `#response.extraInfo`, which the
payload construction may clear). -/
def sameCore (a b : NRState) : Prop :=
  a.id = b.id ∧ a.fetchId = b.fetchId ∧ a.interceptPhase = b.interceptPhase ∧
  a.servedFromCache = b.servedFromCache ∧ a.redirectCount = b.redirectCount ∧
  a.reqInfo = b.reqInfo ∧ a.reqExtraInfo = b.reqExtraInfo ∧
  a.reqPaused = b.reqPaused ∧ a.reqAuth = b.reqAuth ∧
  a.respHasExtraInfo = b.respHasExtraInfo ∧ a.respInfo = b.respInfo ∧
  a.respPaused = b.respPaused ∧ a.requestOverrides = b.requestOverrides

/-- Helper for trace ordering: scans a trace carrying whether `gate` has
already been seen, and fails on an occurrence of `ev` with no prior
`gate`. -/
def onlyAfterGo (gate ev : EvName) (seen : Bool) : List EvName → Bool
  | [] => true
  | x :: xs =>
    if x == ev && !seen then false
    else onlyAfterGo gate ev (seen || x == gate) xs

/-- `ev` is never emitted before `gate` in the trace: every occurrence of
`ev` is preceded by an occurrence of `gate`. -/
def onlyAfter (gate ev : EvName) (tr : List EvName) : Bool :=
  onlyAfterGo gate ev false tr

/-- Whether `gate` occurs in a trace segment. -/
def seenIn (gate : EvName) (l : List EvName) : Bool :=
  l.any (fun x => x == gate)

/-- The `NetworkManager`'s `Network.requestWillBeSent` listener, restricted
to the storage slot of one request id: an existing redirecting request is
flushed via `handleRedirect`, deleted, and recreated with
`redirectCount + 1` before consuming the event. -/
def managerOnRequestWillBeSent (env : Env) (storage : Option NRState)
    (id : String) (e : RWBS) : Option NRState × List EvName :=
  match storage with
  | some req =>
    if req.reqInfo.isSome then
      let (_r1, out1, _d1) := handleRedirect env e req
      let fresh := initState id (req.redirectCount + 1)
      let (r2, out2, d2) := onRequestWillBeSent env e fresh
      ((if d2 then none else some r2), out1 ++ out2)
    else
      let (r1, out1, d1) := onRequestWillBeSent env e req
      ((if d1 then none else some r1), out1)
  | none =>
    let fresh := initState id 0
    let (r1, out1, d1) := onRequestWillBeSent env e fresh
    ((if d1 then none else some r1), out1)

/-- A `Fetch.*` CDP command sent by the interception API. -/
inductive CdpCmd
  | fetchFailRequest
  | fetchContinueRequest
  | fetchContinueResponse
  | fetchContinueWithAuth
  | fetchFulfillRequest
deriving DecidableEq

/-- Outcome of an interception API call: resolved with the new request
state and the CDP commands sent, or rejected with an error message
(`assert` throws a plain `Error`, surfaced as `unknown error`). -/
inductive ApiRes
  | ok (s : NRState) (cmds : List CdpCmd)
  | err (msg : String)
deriving DecidableEq

/-- The message of `assert(this.#fetchId, 'Network Interception not set-up.')`. -/
def interceptionError : String := "Network Interception not set-up."

/-- `failRequest(errorReason)`. -/
def failRequest (s : NRState) : ApiRes :=
  match s.fetchId with
  | none => .err interceptionError
  | some _ => .ok { s with interceptPhase := none } [.fetchFailRequest]

/-- `network.continueRequest` parameters (fields read by the model). -/
structure ContinueRequestParams where
  url : Option String := none
  method : Option String := none
  headers : Option (List Header) := none
  cookies : Option (List CookieHeader) := none
  body : Option BytesValue := none
deriving DecidableEq

/-- `continueRequest(overrides)` (public): prepares the override headers,
then `#continueRequest` asserts the `fetchId` before sending
`Fetch.continueRequest`; on success the overrides are stored. -/
def continueRequest (s : NRState) (o : ContinueRequestParams) : ApiRes :=
  let _overrideHeaders :=
    getOverrideHeader [] o.headers o.cookies
  match s.fetchId with
  | none => .err interceptionError
  | some _ =>
    .ok { s with interceptPhase := none
                 requestOverrides := some
                   { url := o.url, method := o.method,
                     headers := o.headers, cookies := o.cookies } }
      [.fetchContinueRequest]

/-- `network.continueResponse` parameters (fields read by the model). -/
structure ContinueResponseParams where
  credentials : Option (String × String) := none
  statusCode : Option Int := none
  reasonPhrase : Option String := none
  headers : Option (List Header) := none
  cookies : Option (List CookieHeader) := none
deriving DecidableEq

/-- `#continueWithAuth(authChallengeResponse)` (private). -/
def continueWithAuthPriv (s : NRState) : ApiRes :=
  match s.fetchId with
  | none => .err interceptionError
  | some _ => .ok { s with interceptPhase := none } [.fetchContinueWithAuth]

/-- `continueResponse(overrides)` (public).  In the `authRequired` phase it
maps to `Fetch.continueWithAuth`; in the `responseStarted` phase to
`Fetch.continueResponse`; with no intercept phase neither branch runs and
the call resolves without sending anything. -/
def continueResponse (s : NRState) (o : ContinueResponseParams) : ApiRes :=
  if s.interceptPhase = some .authRequired then
    match o.credentials with
    | some _ =>
      -- falls through to the `responseStarted` test after the auth reply
      match continueWithAuthPriv s with
      | .err m => .err m
      | .ok s2 cmds =>
        if s2.interceptPhase = some .responseStarted then
          match s2.fetchId with
          | none => .err interceptionError
          | some _ => .ok { s2 with interceptPhase := none } (cmds ++ [.fetchContinueResponse])
        else .ok s2 cmds
    | none => continueWithAuthPriv s
  else if s.interceptPhase = some .responseStarted then
    let _overrideHeaders := getOverrideHeader [] o.headers o.cookies
    match s.fetchId with
    | none => .err interceptionError
    | some _ => .ok { s with interceptPhase := none } [.fetchContinueResponse]
  else .ok s []

/-- `continueWithAuth(authChallenge)` (public): translates the BiDi action
and delegates to `#continueWithAuth`. -/
def continueWithAuth (s : NRState) : ApiRes :=
  continueWithAuthPriv s

/-- `network.provideResponse` parameters (fields read by the model). -/
structure ProvideResponseParams where
  statusCode : Option Int := none
  reasonPhrase : Option String := none
  headers : Option (List Header) := none
  cookies : Option (List CookieHeader) := none
  body : Option BytesValue := none
deriving DecidableEq

/-- `provideResponse(overrides)`: asserts `fetchId` up front; delegates to
`Fetch.continueWithAuth` in the auth phase, to `Fetch.continueRequest`
when neither body nor headers are overridden, else sends
`Fetch.fulfillRequest`. -/
def provideResponse (s : NRState) (o : ProvideResponseParams) : ApiRes :=
  match s.fetchId with
  | none => .err interceptionError
  | some _ =>
    if s.interceptPhase = some .authRequired then
      continueWithAuthPriv s
    else if o.body = none ∧ o.headers = none then
      .ok { s with interceptPhase := none } [.fetchContinueRequest]
    else
      .ok { s with interceptPhase := none } [.fetchFulfillRequest]

end NetReq

namespace SharedId

/-!
Model of `src/bidiMapper/domains/script/SharedIdParser.ts`.

Strings are handled as `List Char`.  The two regular expressions
`/(.*)_element_(.*)/` and `/f\.(.*)\.d\.(.*)\.e\.([0-9]*)/` are modelled
by their JS match semantics on a fixed pattern: the match starts at the
leftmost viable position and each greedy `(.*)` takes the longest span
that still lets the remainder of the pattern match (there is no end
anchor, so trailing characters are allowed, and `[0-9]*` may be empty).
For `(.*)_element_(.*)` this picks the last occurrence of `_element_`;
for the sharedId pattern, group one ends at the last occurrence of `.d.`
that is still followed by some occurrence of `.e.`, and group two ends at
the last occurrence of `.e.` after it, followed by the maximal digit run.
-/

/-- `pat` occurs in `s` at position `i`. -/
def occurs (pat s : List Char) (i : Nat) : Bool :=
  pat.isPrefixOf (s.drop i)

/-- Largest `i < n` with `P i`, scanning left to right. -/
def lastSuch (n : Nat) (P : Nat → Bool) : Option Nat :=
  (List.range n).foldl (fun acc i => if P i then some i else acc) none

def elemPat : List Char := ['_', 'e', 'l', 'e', 'm', 'e', 'n', 't', '_']

def fDot : List Char := ['f', '.']

def dotD : List Char := ['.', 'd', '.']

def dotE : List Char := ['.', 'e', '.']

/-- JS line terminators (LF, CR, LS, PS), which `.` in a regular
expression without the `s` flag does not match. -/
def isLineTerm (c : Char) : Bool :=
  c = '\n' || c = '\r' || c.toNat = 0x2028 || c.toNat = 0x2029

/-- No line terminator among the characters of `s` at positions
`[a, b)` — the span a `(.*)` capture group may cover. -/
def noLT (s : List Char) (a b : Nat) : Bool :=
  ((s.take b).drop a).all (fun c => !isLineTerm c)

/-- Is a character one of the whitespace or line-terminator characters
`parseInt` skips (ECMA-262 WhiteSpace ∪ LineTerminator). -/
def isJsSpace (c : Char) : Bool :=
  c = ' ' || c = '\t' || c = '\n' || c = '\r' ||
  c.toNat = 11 || c.toNat = 12 || c.toNat = 160 ||
  c.toNat = 0x1680 || (0x2000 ≤ c.toNat && c.toNat ≤ 0x200A) ||
  c.toNat = 0x2028 || c.toNat = 0x2029 || c.toNat = 0x202F ||
  c.toNat = 0x205F || c.toNat = 0x3000 || c.toNat = 0xFEFF

def digitVal (c : Char) : Nat := c.toNat - 48

def parseDigits (l : List Char) : Nat :=
  l.foldl (fun a c => a * 10 + digitVal c) 0

def isHexDigit (c : Char) : Bool :=
  c.isDigit || ('a' ≤ c && c ≤ 'f') || ('A' ≤ c && c ≤ 'F')

def hexVal (c : Char) : Nat :=
  if c.isDigit then c.toNat - 48
  else if 'a' ≤ c && c ≤ 'f' then c.toNat - 87
  else c.toNat - 55

def parseHexDigits (l : List Char) : Nat :=
  l.foldl (fun a c => a * 16 + hexVal c) 0

/-- The digit-run parse of `parseInt` after sign handling: `0x`/`0X`
selects hexadecimal, otherwise the maximal leading run of decimal digits
is taken; no digits means `NaN` (`none`). -/
def parseUnsigned (l : List Char) : Option Nat :=
  match l with
  | '0' :: c :: rest =>
    if c = 'x' || c = 'X' then
      let hs := rest.takeWhile isHexDigit
      if hs.isEmpty then none else some (parseHexDigits hs)
    else
      let ds := l.takeWhile Char.isDigit
      if ds.isEmpty then none else some (parseDigits ds)
  | _ =>
    let ds := l.takeWhile Char.isDigit
    if ds.isEmpty then none else some (parseDigits ds)

/-- JS `parseInt` with no radix argument; `none` models `NaN`. -/
def parseIntJS (l : List Char) : Option Int :=
  let l1 := l.dropWhile isJsSpace
  match l1 with
  | '-' :: rest => (parseUnsigned rest).map (fun n => -(n : Int))
  | '+' :: rest => (parseUnsigned rest).map (fun n => (n : Int))
  | _ => (parseUnsigned l1).map (fun n => (n : Int))

def digitChar (n : Nat) : Char :=
  match n with
  | 0 => '0' | 1 => '1' | 2 => '2' | 3 => '3' | 4 => '4'
  | 5 => '5' | 6 => '6' | 7 => '7' | 8 => '8' | _ => '9'

/-- Decimal digits of a natural number, with explicit structural fuel
(any fuel above the number itself is enough). -/
def natCharsAux (fuel n : Nat) : List Char :=
  match fuel with
  | 0 => []
  | fuel + 1 =>
    if n < 10 then [digitChar n]
    else natCharsAux fuel (n / 10) ++ [digitChar (n % 10)]

/-- Decimal digits of a natural number (JS number-to-string for
non-negative integers). -/
def natChars (n : Nat) : List Char :=
  natCharsAux (n + 1) n

/-- JS template stringification of an integer. -/
def intChars (b : Int) : List Char :=
  if b < 0 then '-' :: natChars b.natAbs else natChars b.toNat

/-- `SharedIdParser.getSharedId`: the template
`f.<frameId>.d.<documentId>.e.<backendNodeId>`. -/
def getSharedId (frameId documentId : List Char) (backendNodeId : Int) : List Char :=
  fDot ++ frameId ++ dotD ++ documentId ++ dotE ++ intChars backendNodeId

/-- A `.e.` occurrence exists at or past position `j` reachable by the
greedy group two (which, as `(.*)`, cannot span a line terminator): the
tail of the sharedId pattern can still match after group one ends. -/
def eAfter (s : List Char) (j : Nat) : Bool :=
  (List.range (s.length + 1)).any (fun k => j ≤ k && occurs dotE s k && noLT s j k)

/-- Position `j` can end group one of the sharedId pattern for a match
starting at `i`: `.d.` occurs there, group one spans no line terminator,
and `.e.` occurs later within reach of group two. -/
def dCandidate (s : List Char) (i j : Nat) : Bool :=
  decide (i + 2 ≤ j) && occurs dotD s j && noLT s (i + 2) j && eAfter s (j + 3)

/-- A sharedId-pattern match can start at `i`. -/
def startViable (s : List Char) (i : Nat) : Bool :=
  occurs fDot s i && (List.range (s.length + 1)).any (fun j => dCandidate s i j)

/-- JS match of `/f\.(.*)\.d\.(.*)\.e\.([0-9]*)/` on `s`: the three
capture groups, or `none` if the pattern does not match. -/
def newFormatMatch (s : List Char) : Option (List Char × List Char × List Char) :=
  match (List.range (s.length + 1)).find? (startViable s) with
  | none => none
  | some i =>
    match lastSuch (s.length + 1) (dCandidate s i) with
    | none => none
    | some j =>
      match lastSuch (s.length + 1)
          (fun k => decide (j + 3 ≤ k) && occurs dotE s k && noLT s (j + 3) k) with
      | none => none
      | some k =>
        some ((s.take j).drop (i + 2), (s.take k).drop (j + 3),
          (s.drop (k + 3)).takeWhile Char.isDigit)

/-- A match of `(.*)_element_(.*)` can start at position `i`: some
occurrence of `_element_` lies at `m ≥ i` with no line terminator in the
group-one span `[i, m)`. -/
def legacyStartViable (s : List Char) (i : Nat) : Bool :=
  (List.range (s.length + 1)).any
    (fun m => decide (i ≤ m) && occurs elemPat s m && noLT s i m)

/-- `SharedIdParser.#parseLegacySharedId`: JS match of
`(.*)_element_(.*)` (leftmost viable start, greedy group one up to the
last reachable `_element_`, greedy group two up to the next line
terminator) followed by `parseInt` on the second group. -/
def parseLegacySharedId (s : List Char) : Option (List Char × Int) :=
  match (List.range (s.length + 1)).find? (legacyStartViable s) with
  | none => none
  | some i =>
    match lastSuch (s.length + 1)
        (fun m => decide (i ≤ m) && occurs elemPat s m && noLT s i m) with
    | none => none
    | some m =>
      match parseIntJS
          ((s.drop (m + elemPat.length)).takeWhile (fun c => !isLineTerm c)) with
      | none => none
      | some b => some ((s.take m).drop i, b)

structure ParsedSharedId where
  frameId : Option (List Char)
  documentId : List Char
  backendNodeId : Int
deriving DecidableEq

/-- `SharedIdParser.parseSharedId`: legacy format first, then the new
format; `none` models the "no match" null. -/
def parseSharedId (s : List Char) : Option ParsedSharedId :=
  match parseLegacySharedId s with
  | some (doc, b) => some { frameId := none, documentId := doc, backendNodeId := b }
  | none =>
    match newFormatMatch s with
    | none => none
    | some (fr, doc, ds) =>
      match parseIntJS ds with
      | none => none
      | some b => some { frameId := some fr, documentId := doc, backendNodeId := b }

/-- `pat` occurs somewhere in `s` (a match can only start at a position
within the string, so the starting index is bounded). -/
def occursIn (pat s : List Char) : Prop :=
  ∃ i < s.length + 1, occurs pat s i = true

end SharedId

namespace WsServer

/-!
Model of `WebSocketServer.#getErrorResponse` (the WebSocket front end).
`JSON.parse` of the raw payload is an external function, abstracted as an
oracle returning the parsed JSON value or `none` when parsing throws.
-/

/-- A parsed JSON value. -/
inductive JsVal
  | obj (fields : List (String × JsVal))
  | arr (elems : List JsVal)
  | jstr (s : String)
  | jnum (n : Int)
  | jbool (b : Bool)
  | jnull

/-- JS property read `fields.id` on a parsed object (JSON objects carry
no duplicate keys). -/
def lookupField (k : String) (fs : List (String × JsVal)) : Option JsVal :=
  (fs.find? (fun p => p.1 = k)).map (fun p => p.2)

/-- The error frame built by `#getErrorResponse`; its `type` field is the
constant `'error'`. -/
structure ErrorResponse where
  id : Option JsVal
  error : String
  message : String

/-- `#getErrorResponse(plainCommandData, errorCode, errorMessage)`: the
payload is re-parsed inside a `try`; the id is copied only when the
parsed value is an object with an `id` property (on a primitive the
`'id' in …` test itself throws and is swallowed by the same `catch`, and
a parse failure is swallowed too — either way the id stays undefined). -/
def getErrorResponse (jsonParse : String → Option JsVal)
    (plainCommandData : String) (errorCode errorMessage : String) : ErrorResponse :=
  let commandId : Option JsVal :=
    match jsonParse plainCommandData with
    | some (.obj fields) => lookupField "id" fields
    | _ => none
  { id := commandId, error := errorCode, message := errorMessage }

/-- `#respondWithError` sends exactly the frame built by
`#getErrorResponse`. -/
def respondWithError (jsonParse : String → Option JsVal)
    (plainCommandData : String) (errorCode errorMessage : String) : ErrorResponse :=
  getErrorResponse jsonParse plainCommandData errorCode errorMessage

end WsServer

namespace SessionProc

/-!
Model of `SessionProcessor` (`#mergeCapabilities`,
`#getUnhandledPromptBehavior`, `new`).
-/

/-- A capability value, as far as the `typeof` dispatch reads it. -/
inductive CapVal
  | str (s : String)
  | obj
  | other
deriving DecidableEq

/-- Normalized `unhandledPromptBehavior` (`Session.UserPromptHandler`). -/
inductive PromptNorm
  | passthrough
  | defaultAccept
  | defaultDismiss
  | defaultIgnore
deriving DecidableEq

/-- `Session.CapabilitiesRequest` (`alwaysMatch` / `firstMatch`). -/
structure CapabilitiesRequest where
  alwaysMatch : Option (List (String × CapVal)) := none
  firstMatch : Option (List (List (String × CapVal))) := none

/-- Errors thrown while processing a session command. -/
inductive SessErr
  | invalidArgument (msg : String)
deriving DecidableEq

/-- The inner key-copy loop of `#mergeCapabilities`: each `firstMatch` key
must not be defined in the accumulated result. -/
def addKeys (acc : List (String × CapVal)) :
    List (String × CapVal) → Except SessErr (List (String × CapVal))
  | [] => .ok acc
  | (k, v) :: rest =>
    if (acc.find? (fun p => p.1 = k)).isSome then
      .error (.invalidArgument
        ("Capability " ++ k ++ " in firstMatch is already defined in alwaysMatch"))
    else addKeys (acc ++ [(k, v)]) rest

/-- Merge every `firstMatch` candidate with `alwaysMatch`. -/
def mergeAll (always : List (String × CapVal)) :
    List (List (String × CapVal)) → Except SessErr (List (List (String × CapVal)))
  | [] => .ok []
  | first :: rest =>
    match addKeys always first with
    | .error e => .error e
    | .ok merged =>
      match mergeAll always rest with
      | .error e => .error e
      | .ok others => .ok (merged :: others)

/-- `#getUnhandledPromptBehavior`. -/
def getUnhandledPromptBehavior : Option CapVal → Except SessErr (Option PromptNorm)
  | none => .ok none
  | some .obj => .ok (some .passthrough)
  | some (.str s) =>
    if s = "accept" || s = "accept and notify" then .ok (some .defaultAccept)
    else if s = "dismiss" || s = "dismiss and notify" then .ok (some .defaultDismiss)
    else if s = "ignore" then .ok (some .defaultIgnore)
    else .error (.invalidArgument ("Unexpected unhandledPromptBehavior value: " ++ s))
  | some .other => .error (.invalidArgument "Unexpected unhandledPromptBehavior type")

/-- The result of `#mergeCapabilities`: the selected candidate plus its
normalized `unhandledPromptBehavior`. -/
structure MergedCaps where
  caps : List (String × CapVal)
  unhandledPromptBehavior : Option PromptNorm
deriving DecidableEq

/-- `#mergeCapabilities(capabilitiesRequest)`. -/
def mergeCapabilities (req : CapabilitiesRequest) : Except SessErr MergedCaps :=
  let always := req.alwaysMatch.getD []
  match mergeAll always (req.firstMatch.getD [[]]) with
  | .error e => .error e
  | .ok merged =>
    let chosen :=
      match merged.find? (fun c =>
        (c.find? (fun p => p.1 = "browserName")).map (fun p => p.2) =
          some (.str "chrome")) with
      | some c => c
      | none => merged.headD []
    match getUnhandledPromptBehavior
        ((chosen.find? (fun p => p.1 = "unhandledPromptBehavior")).map (fun p => p.2)) with
    | .error e => .error e
    | .ok prompt => .ok { caps := chosen, unhandledPromptBehavior := prompt }

/-- The session processor's only mutable field. -/
structure SessionState where
  created : Bool
deriving DecidableEq

/-- Observable outcome of one `SessionProcessor.new` call. -/
inductive NewRes
  | ok (caps : MergedCaps)
  | thrown (msg : String)
deriving DecidableEq

/-- The message of the guard throw in `SessionProcessor.new`. -/
def alreadyCreated : String := "Session has been already created."

/-- `SessionProcessor.new(params)`: guard on `#created`, set the flag
(before any `await`), merge capabilities, then initialize the connection
and query `Browser.getVersion`.  Returns the state after the call,
whether `#initConnection` was invoked, and the outcome.  Merge errors
propagate (`InvalidArgumentException` messages), leaving the flag set. -/
def newCommand (s : SessionState) (params : CapabilitiesRequest) :
    SessionState × Bool × NewRes :=
  if s.created then (s, false, .thrown alreadyCreated)
  else
    let s2 : SessionState := { created := true }
    match mergeCapabilities params with
    | .error (.invalidArgument m) => (s2, false, .thrown m)
    | .ok caps => (s2, true, .ok caps)

end SessionProc

namespace SubMgr

/-- The condition under which one iteration of the `unsubscribe`
subscription loop records event `x` as matched against `sub`
(dispatching on whether the unsubscribe is global). -/
def subEvMatch (isGlobal : Bool) (channel : Option String) (topLevels : List String)
    (sub : Subscription) (x : String) : Prop :=
  sub.channel = channel ∧
    (if isGlobal then sub.topLevelTraversableIds = []
     else sub.topLevelTraversableIds ≠ [] ∧
       ∃ t ∈ topLevels, t ∈ sub.topLevelTraversableIds) ∧
    x ∈ sub.eventNames

/-- The condition under which one iteration of the `unsubscribe`
subscription loop records top-level context `y` as matched against
`sub` (scoped branch only). -/
def subCtxMatch (channel : Option String) (eventNames : List String)
    (sub : Subscription) (y : String) : Prop :=
  sub.channel = channel ∧ sub.topLevelTraversableIds ≠ [] ∧
    y ∈ sub.topLevelTraversableIds ∧ ∃ e ∈ eventNames, e ∈ sub.eventNames

end SubMgr

/-!
Theorems.  Each claim of the specification review is settled below; helper
lemmas precede the claim theorems they support.
-/

namespace SubMgr

/-- C9: `unsubscribeById` is a TODO stub — it returns normally and leaves
the manager state (hence the stored subscription list) unchanged for every
argument and every state. -/
theorem c9_unsubscribeById_noop (st : ManagerState) (id : String) :
    unsubscribeById st id = st := rfl

end SubMgr

namespace WsServer

/-- C8: the error response built for an incoming frame re-parses the raw
payload; a parsed object's `id` property is copied into the response, and
on a parse failure or a parsed value without an `id` property the `id`
field is left undefined — for every payload and every parse outcome. -/
theorem c8_error_response_id (jsonParse : String → Option JsVal)
    (payload errorCode errorMessage : String) :
    (∀ fields, jsonParse payload = some (.obj fields) →
      (getErrorResponse jsonParse payload errorCode errorMessage).id =
        lookupField "id" fields) ∧
    (jsonParse payload = none →
      (getErrorResponse jsonParse payload errorCode errorMessage).id = none) ∧
    (∀ v, jsonParse payload = some v → (∀ fields, v ≠ .obj fields) →
      (getErrorResponse jsonParse payload errorCode errorMessage).id = none) := by
  refine ⟨fun fields h => ?_, fun h => ?_, fun v h hv => ?_⟩
  · simp [getErrorResponse, h]
  · simp [getErrorResponse, h]
  · cases v with
    | obj fields => exact absurd rfl (hv fields)
    | arr l => simp [getErrorResponse, h]
    | jstr s => simp [getErrorResponse, h]
    | jnum n => simp [getErrorResponse, h]
    | jbool b => simp [getErrorResponse, h]
    | jnull => simp [getErrorResponse, h]

/-- Witness for C8 at a concrete parse function and payload. -/
theorem c8_error_response_id_witness :
    (getErrorResponse (fun _ => some (.obj [("id", .jnum 7)])) "x" "invalid argument" "m").id =
      lookupField "id" [("id", .jnum 7)] :=
  (c8_error_response_id (fun _ => some (.obj [("id", .jnum 7)]))
    "x" "invalid argument" "m").1 [("id", .jnum 7)] rfl

end WsServer

namespace SessionProc

/-- C10: `SessionProcessor.new` succeeds at most once per instance.  The
`#created` flag is raised before any awaited work (so it is `true` after
any first call, whatever the outcome of capability merging), and a call
on an already-created processor throws `Session has been already
created.` without invoking `#initConnection` and without touching the
state. -/
theorem c10_session_new_once (s : SessionState) (p : CapabilitiesRequest) :
    (s.created = true →
      newCommand s p = (s, false, .thrown alreadyCreated)) ∧
    (newCommand s p).1.created = true := by
  constructor
  · intro h
    simp [newCommand, h]
  · by_cases h : s.created = true
    · simp [newCommand, h]
    · simp only [Bool.not_eq_true] at h
      cases h2 : mergeCapabilities p with
      | error e =>
        cases e with
        | invalidArgument m => simp [newCommand, h, h2]
      | ok caps => simp [newCommand, h, h2]

/-- Witness for C10 at a concrete created state. -/
theorem c10_session_new_once_witness :
    newCommand ⟨true⟩ {} = (⟨true⟩, false, .thrown alreadyCreated) :=
  (c10_session_new_once ⟨true⟩ {}).1 rfl

end SessionProc

namespace NetReq

/-- C5: evaluation of `#getOverrideHeader` at the failing inputs.  With
only a cookies override the base headers keep their existing `cookie`
header and the synthesized one is appended after it (nothing is
replaced); with both headers and cookies the supplied `cookie` header
likewise survives.  The `filter` call whose result the source discards
was meant to remove it. -/
theorem c5_override_header_keeps_cookie :
    getOverrideHeader [⟨"cookie", "a=b"⟩, ⟨"x", "y"⟩] none (some [⟨"foo", "bar"⟩]) =
      some [⟨"cookie", "a=b"⟩, ⟨"x", "y"⟩, ⟨"Cookie", "foo=bar"⟩] ∧
    getOverrideHeader [] (some [⟨"cookie", "a=b"⟩]) (some [⟨"foo", "bar"⟩]) =
      some [⟨"cookie", "a=b"⟩, ⟨"Cookie", "foo=bar"⟩] := by
  constructor <;> rfl

end NetReq

namespace NetReq

theorem sameCore_refl (a : NRState) : sameCore a a := by
  unfold sameCore; repeat (first | constructor | rfl)

theorem sameCore_trans {a b c : NRState} (h1 : sameCore a b) (h2 : sameCore b c) :
    sameCore a c := by
  unfold sameCore at *
  obtain ⟨a1, a2, a3, a4, a5, a6, a7, a8, a9, a10, a11, a12, a13⟩ := h1
  obtain ⟨b1, b2, b3, b4, b5, b6, b7, b8, b9, b10, b11, b12, b13⟩ := h2
  simp_all

theorem isIgnored_of_sameCore {a b : NRState} (h : sameCore a b) :
    isIgnoredEvent a = isIgnoredEvent b := by
  obtain ⟨_, _, _, _, _, h6, _, h8, _, _, _, _, _⟩ := h
  unfold isIgnoredEvent
  rw [h6, h8]

theorem url_of_sameCore {a b : NRState} (h : sameCore a b) : a.url = b.url := by
  obtain ⟨_, _, _, _, _, h6, _, h8, h9, _, h11, h12, h13⟩ := h
  unfold NRState.url
  rw [h6, h8, h9, h11, h12, h13]

theorem emitted_setEmitted (s : NRState) (n m : EvName) :
    emitted (setEmitted s n) m = ((m == n) || emitted s m) := by
  cases n <;> cases m <;> simp [emitted, setEmitted]

theorem emitted_clearExtra (s : NRState) (m : EvName) :
    emitted { s with respExtraInfo := none } m = emitted s m := by
  cases m <;> rfl

theorem sameCore_clearExtra (s : NRState) :
    sameCore { s with respExtraInfo := none } s := by
  unfold sameCore; repeat (first | constructor | rfl)

theorem sameCore_setEmitted (s : NRState) (n : EvName) :
    sameCore (setEmitted s n) s := by
  cases n <;> (unfold setEmitted sameCore; repeat (first | constructor | rfl))

theorem emitCheck_sameCore (n : EvName) (s : NRState) (out : List EvName) :
    sameCore (emitCheck n s out).1 s := by
  unfold emitCheck
  split
  · exact sameCore_refl _
  · exact sameCore_setEmitted s n

theorem emitOne_sameCore (n : EvName) (s : NRState) (out : List EvName) :
    sameCore (emitOne n s out).1 s := by
  unfold emitOne
  split
  · exact sameCore_trans (emitCheck_sameCore n _ out) (sameCore_clearExtra s)
  · exact emitCheck_sameCore n s out

theorem emitCheck_spec (n : EvName) (s : NRState) (out : List EvName) :
    ((emitCheck n s out).2 = out ∧
      (isIgnoredEvent s = true ∨ (emitted s n = true ∧ n ≠ .authRequired)) ∧
      (∀ m, emitted (emitCheck n s out).1 m = emitted s m)) ∨
    ((emitCheck n s out).2 = out ++ [n] ∧ isIgnoredEvent s = false ∧
      (emitted s n = false ∨ n = .authRequired) ∧
      (∀ m, emitted (emitCheck n s out).1 m = (emitted s m || (m == n)))) := by
  unfold emitCheck
  by_cases hskip : isIgnoredEvent s ∨ (emitted s n ∧ n ≠ .authRequired)
  · left
    rw [if_pos hskip]
    refine ⟨rfl, ?_, fun _ => rfl⟩
    rcases hskip with h | ⟨h, h2⟩
    · exact .inl h
    · exact .inr ⟨h, h2⟩
  · right
    rw [if_neg hskip]
    push_neg at hskip
    obtain ⟨hig0, hfl⟩ := hskip
    refine ⟨rfl, by simpa using hig0, ?_, ?_⟩
    · by_cases he : emitted s n = true
      · exact .inr (hfl he)
      · exact .inl (by simpa using he)
    · intro m
      rw [emitted_setEmitted, Bool.or_comm]

theorem emitOne_spec (n : EvName) (s : NRState) (out : List EvName) :
    ((emitOne n s out).2 = out ∧
      (isIgnoredEvent s = true ∨ (emitted s n = true ∧ n ≠ .authRequired)) ∧
      (∀ m, emitted (emitOne n s out).1 m = emitted s m)) ∨
    ((emitOne n s out).2 = out ++ [n] ∧ isIgnoredEvent s = false ∧
      (emitted s n = false ∨ n = .authRequired) ∧
      (∀ m, emitted (emitOne n s out).1 m = (emitted s m || (m == n)))) := by
  unfold emitOne
  split
  · have hem : ∀ m, emitted { s with respExtraInfo := none } m = emitted s m :=
      emitted_clearExtra s
    have hig : isIgnoredEvent { s with respExtraInfo := none } = isIgnoredEvent s :=
      isIgnored_of_sameCore (sameCore_clearExtra s)
    rcases emitCheck_spec n { s with respExtraInfo := none } out with
      ⟨h1, h2, h3⟩ | ⟨h1, h2, h3, h4⟩
    · refine .inl ⟨h1, ?_, fun m => (h3 m).trans (hem m)⟩
      rcases h2 with h | ⟨h, h2b⟩
      · exact .inl (hig ▸ h)
      · exact .inr ⟨(hem n) ▸ h, h2b⟩
    · refine .inr ⟨h1, hig ▸ h2, ?_, fun m => by rw [h4 m, hem m]⟩
      rcases h3 with h | h
      · exact .inl ((hem n) ▸ h)
      · exact .inr h
  · exact emitCheck_spec n s out

theorem condEmit_spec (c : Bool) (n : EvName) (p : NRState × List EvName) :
    sameCore (condEmit c n p).1 p.1 ∧
    ( ((condEmit c n p).2 = p.2 ∧
        (c = true → (isIgnoredEvent p.1 = true ∨ (emitted p.1 n = true ∧ n ≠ .authRequired))) ∧
        (∀ m, emitted (condEmit c n p).1 m = emitted p.1 m)) ∨
      ((condEmit c n p).2 = p.2 ++ [n] ∧ c = true ∧ isIgnoredEvent p.1 = false ∧
        (emitted p.1 n = false ∨ n = .authRequired) ∧
        (∀ m, emitted (condEmit c n p).1 m = (emitted p.1 m || (m == n)))) ) := by
  unfold condEmit
  split
  · rename_i hc
    refine ⟨emitOne_sameCore n p.1 p.2, ?_⟩
    rcases emitOne_spec n p.1 p.2 with ⟨h1, h2, h3⟩ | ⟨h1, h2, h3, h4⟩
    · exact .inl ⟨h1, fun _ => h2, h3⟩
    · exact .inr ⟨h1, hc, h2, h3, h4⟩
  · exact ⟨sameCore_refl _, .inl ⟨rfl, by simp_all, fun _ => rfl⟩⟩

end NetReq


namespace NetReq

theorem seenIn_true_iff (g : EvName) (l : List EvName) :
    seenIn g l = true ↔ g ∈ l := by
  simp only [seenIn, List.any_eq_true, beq_iff_eq]
  constructor
  · rintro ⟨x, hx, rfl⟩; exact hx
  · intro h; exact ⟨g, h, rfl⟩

theorem onlyAfterGo_append (gate ev : EvName) (l1 l2 : List EvName) (seen : Bool) :
    onlyAfterGo gate ev seen (l1 ++ l2) =
      (onlyAfterGo gate ev seen l1 &&
        onlyAfterGo gate ev (seen || seenIn gate l1) l2) := by
  induction l1 generalizing seen with
  | nil => simp [onlyAfterGo, seenIn]
  | cons x xs ih =>
    simp only [List.cons_append, onlyAfterGo]
    by_cases hx : (x == ev && !seen) = true
    · rw [if_pos hx, if_pos hx]
      simp
    · rw [if_neg hx, if_neg hx]
      simp only [List.append_eq]
      rw [ih]
      have harg : ((seen || x == gate) || seenIn gate xs) = (seen || seenIn gate (x :: xs)) := by
        simp [seenIn, List.any_cons, Bool.or_assoc]
      rw [harg]

/-- Transport of the per-request emission invariants across one
conditional emission of the pipeline. -/
theorem condEmit_inv (s0 : NRState) (c : Bool) (n : EvName) (p : NRState × List EvName)
    (hn : n = .beforeRequestSent ∨ n = .responseStarted ∨ n = .responseCompleted)
    (hflags : ∀ m, emitted p.1 m = true ↔ (emitted s0 m = true ∨ m ∈ p.2))
    (hcount : ∀ m, p.2.count m ≤ 1)
    (hmem : ∀ m, m ∈ p.2 → emitted s0 m = false ∧
      (m = .beforeRequestSent ∨ m = .responseStarted ∨ m = .responseCompleted))
    (horder : onlyAfterGo .responseStarted .responseCompleted
      (emitted s0 .responseStarted) p.2 = true)
    (hgate : n = .responseCompleted → (condEmit c n p).2 = p.2 ++ [n] →
      emitted p.1 .responseStarted = true) :
    (∀ m, emitted (condEmit c n p).1 m = true ↔
      (emitted s0 m = true ∨ m ∈ (condEmit c n p).2)) ∧
    (∀ m, (condEmit c n p).2.count m ≤ 1) ∧
    (∀ m, m ∈ (condEmit c n p).2 → emitted s0 m = false ∧
      (m = .beforeRequestSent ∨ m = .responseStarted ∨ m = .responseCompleted)) ∧
    onlyAfterGo .responseStarted .responseCompleted
      (emitted s0 .responseStarted) (condEmit c n p).2 = true := by
  rcases condEmit_spec c n p with ⟨_sc, ⟨ho, _, hf⟩ | ⟨ho, _, hig, hfl, hf⟩⟩
  · rw [ho]
    refine ⟨fun m => ?_, hcount, hmem, horder⟩
    rw [hf m]
    exact hflags m
  · have hnotauth : n ≠ .authRequired := by
      rcases hn with rfl | rfl | rfl <;> decide
    have hplfalse : emitted p.1 n = false := by
      rcases hfl with h | h
      · exact h
      · exact absurd h hnotauth
    have hs0false : emitted s0 n = false ∧ n ∉ p.2 := by
      have := hflags n
      rw [hplfalse] at this
      constructor
      · by_cases h : emitted s0 n = true
        · exact absurd (this.mpr (.inl h)) (by simp)
        · simpa using h
      · intro hmemn
        exact absurd (this.mpr (.inr hmemn)) (by simp)
    rw [ho]
    refine ⟨fun m => ?_, fun m => ?_, fun m hm => ?_, ?_⟩
    · rw [hf m]
      simp only [Bool.or_eq_true, beq_iff_eq, List.mem_append, List.mem_singleton]
      rw [hflags m]
      tauto
    · rw [List.count_append]
      by_cases hmn : m = n
      · subst hmn
        have h0 : p.2.count m = 0 := List.count_eq_zero.mpr hs0false.2
        simp [h0, List.count_singleton]
      · have h1 : List.count m [n] = 0 := by
          rw [List.count_eq_zero]
          simp [hmn]
        have := hcount m
        omega
    · rcases List.mem_append.mp hm with h | h
      · exact hmem m h
      · rw [List.mem_singleton] at h
        subst h
        exact ⟨hs0false.1, hn⟩
    · rw [onlyAfterGo_append, horder, Bool.true_and]
      rcases hn with rfl | rfl | rfl
      · simp [onlyAfterGo]
      · simp [onlyAfterGo]
      · have hrs := hgate rfl ho
        rw [hflags _] at hrs
        have hseen : (emitted s0 EvName.responseStarted || seenIn .responseStarted p.2) = true := by
          rcases hrs with h | h
          · simp [h]
          · simp [(seenIn_true_iff _ _).mpr h]
        rw [hseen]
        simp [onlyAfterGo]

end NetReq

namespace NetReq

theorem emitPipeline_spec (c1 : Bool) (c2of : NRState → Bool)
    (c3of : NRState → NRState → Bool) (s : NRState)
    (h23 : ∀ a b, sameCore b a → c3of a b = true → c2of a = true) :
    sameCore (emitPipeline c1 c2of c3of s).1 s ∧
    (∀ m, emitted (emitPipeline c1 c2of c3of s).1 m = true ↔
      (emitted s m = true ∨ m ∈ (emitPipeline c1 c2of c3of s).2.1)) ∧
    (∀ m, (emitPipeline c1 c2of c3of s).2.1.count m ≤ 1) ∧
    (∀ m, m ∈ (emitPipeline c1 c2of c3of s).2.1 → emitted s m = false ∧
      (m = .beforeRequestSent ∨ m = .responseStarted ∨ m = .responseCompleted)) ∧
    onlyAfterGo .responseStarted .responseCompleted (emitted s .responseStarted)
      (emitPipeline c1 c2of c3of s).2.1 = true := by
  simp only [emitPipeline]
  set p1 := condEmit c1 .beforeRequestSent (s, []) with hp1
  set c2 := c2of p1.1 with hc2
  set p2 := condEmit c2 .responseStarted p1 with hp2
  set c3 := c3of p1.1 p2.1 with hc3
  set p3 := condEmit c3 .responseCompleted p2 with hp3
  obtain ⟨sc1, d1⟩ := condEmit_spec c1 .beforeRequestSent (s, [])
  obtain ⟨sc2, d2⟩ := condEmit_spec c2 .responseStarted p1
  obtain ⟨sc3, _d3⟩ := condEmit_spec c3 .responseCompleted p2
  rw [← hp1] at sc1 d1
  rw [← hp2] at sc2 d2
  rw [← hp3] at sc3
  have base1 : ∀ m, emitted (s, ([] : List EvName)).1 m = true ↔
      (emitted s m = true ∨ m ∈ (s, ([] : List EvName)).2) := by
    simp
  have inv1 := condEmit_inv s c1 .beforeRequestSent (s, []) (.inl rfl) base1
    (by simp) (by simp)
    (by simp [onlyAfterGo])
    (fun h => absurd h (by decide))
  rw [← hp1] at inv1
  have inv2 := condEmit_inv s c2 .responseStarted p1 (.inr (.inl rfl))
    inv1.1 inv1.2.1 inv1.2.2.1 inv1.2.2.2
    (fun h => absurd h (by decide))
  rw [← hp2] at inv2
  have hgate3 : EvName.responseCompleted = EvName.responseCompleted →
      (condEmit c3 .responseCompleted p2).2 = p2.2 ++ [.responseCompleted] →
      emitted p2.1 .responseStarted = true := by
    intro _ ho3
    rcases condEmit_spec c3 .responseCompleted p2 with ⟨_, ⟨ho, _, _⟩ | ⟨_, hcc, hig, _, _⟩⟩
    · rw [ho] at ho3
      exact absurd (congrArg List.length ho3) (by simp)
    · have hcc2 : c2 = true := h23 p1.1 p2.1 sc2 (hc3 ▸ hcc)
      rcases d2 with ⟨_, hreason, hf2⟩ | ⟨_, _, _, _, hf2⟩
      · rcases hreason hcc2 with hi | ⟨hfl, _⟩
        · rw [← isIgnored_of_sameCore sc2] at hi
          rw [hi] at hig
          cases hig
        · rw [hf2]
          exact hfl
      · rw [hf2]
        simp
  have inv3 := condEmit_inv s c3 .responseCompleted p2 (.inr (.inr rfl))
    inv2.1 inv2.2.1 inv2.2.2.1 inv2.2.2.2 hgate3
  rw [← hp3] at inv3
  exact ⟨sameCore_trans sc3 (sameCore_trans sc2 sc1),
    inv3.1, inv3.2.1, inv3.2.2.1, inv3.2.2.2⟩

end NetReq

namespace NetReq

theorem emitReady_spec (env : Env) (wr hf : Bool) (s : NRState) :
    sameCore (emitEventsIfReady env wr hf s).1 s ∧
    (∀ m, emitted (emitEventsIfReady env wr hf s).1 m = true ↔
      (emitted s m = true ∨ m ∈ (emitEventsIfReady env wr hf s).2.1)) ∧
    (∀ m, (emitEventsIfReady env wr hf s).2.1.count m ≤ 1) ∧
    (∀ m, m ∈ (emitEventsIfReady env wr hf s).2.1 → emitted s m = false ∧
      (m = .beforeRequestSent ∨ m = .responseStarted ∨ m = .responseCompleted)) ∧
    onlyAfterGo .responseStarted .responseCompleted (emitted s .responseStarted)
      (emitEventsIfReady env wr hf s).2.1 = true := by
  simp only [emitEventsIfReady]
  refine emitPipeline_spec _ _ _ s ?_
  intro a b hsc hc3
  obtain ⟨_, _, _, _, _, _, _, _, _, _, h11, _, _⟩ := hsc
  simp only [Bool.and_eq_true] at hc3
  rw [h11] at hc3
  simp [hc3.1.1]

/-- The invariants of one handler call, for a handler that first applies a
flag-preserving state update and then runs `#emitEventsIfReady`. -/
theorem emitReady_inv (env : Env) (wr hf : Bool) (u s : NRState)
    (hu : ∀ m, emitted u m = emitted s m) :
    (∀ m, emitted (emitEventsIfReady env wr hf u).1 m = true ↔
      (emitted s m = true ∨ m ∈ (emitEventsIfReady env wr hf u).2.1)) ∧
    (∀ m, (emitEventsIfReady env wr hf u).2.1.count m ≤ 1) ∧
    (∀ m, m ∈ (emitEventsIfReady env wr hf u).2.1 → emitted s m = false ∧ m ≠ .authRequired) ∧
    onlyAfterGo .responseStarted .responseCompleted (emitted s .responseStarted)
      (emitEventsIfReady env wr hf u).2.1 = true := by
  obtain ⟨_, hfl, hcnt, hmem, hord⟩ := emitReady_spec env wr hf u
  refine ⟨fun m => ?_, hcnt, fun m hm => ?_, ?_⟩
  · rw [hfl m, hu m]
  · obtain ⟨h1, h2⟩ := hmem m hm
    rw [hu m] at h1
    refine ⟨h1, ?_⟩
    rcases h2 with rfl | rfl | rfl <;> decide
  · rw [hu .responseStarted] at hord
    exact hord

theorem step_spec (env : Env) (i : Input) (s : NRState) :
    (∀ m, emitted (step env s i).1 m = true ↔
      (emitted s m = true ∨ m ∈ (step env s i).2.1)) ∧
    (∀ m, m ≠ .authRequired → (step env s i).2.1.count m ≤ 1) ∧
    (∀ m, m ∈ (step env s i).2.1 → m ≠ .authRequired → emitted s m = false) ∧
    onlyAfterGo .responseStarted .responseCompleted (emitted s .responseStarted)
      (step env s i).2.1 = true := by
  have weaken : ∀ (u : NRState) (wr hf : Bool), (∀ m, emitted u m = emitted s m) →
      (∀ m, emitted (emitEventsIfReady env wr hf u).1 m = true ↔
        (emitted s m = true ∨ m ∈ (emitEventsIfReady env wr hf u).2.1)) ∧
      (∀ m, m ≠ .authRequired → (emitEventsIfReady env wr hf u).2.1.count m ≤ 1) ∧
      (∀ m, m ∈ (emitEventsIfReady env wr hf u).2.1 → m ≠ .authRequired →
        emitted s m = false) ∧
      onlyAfterGo .responseStarted .responseCompleted (emitted s .responseStarted)
        (emitEventsIfReady env wr hf u).2.1 = true := by
    intro u wr hf hu
    obtain ⟨h1, h2, h3, h4⟩ := emitReady_inv env wr hf u s hu
    exact ⟨h1, fun m _ => h2 m, fun m hm _ => (h3 m hm).1, h4⟩
  cases i with
  | requestWillBeSent e =>
    exact weaken _ false false (fun m => by cases m <;> rfl)
  | requestWillBeSentExtraInfo e =>
    exact weaken _ false false (fun m => by cases m <;> rfl)
  | responseReceived e =>
    exact weaken _ false false (fun m => by cases m <;> rfl)
  | responseReceivedExtraInfo e =>
    simp only [step, onResponseReceivedExtraInfo]
    split
    · simp [onlyAfterGo]
    · exact weaken _ false false (fun m => by cases m <;> rfl)
  | servedFromCache =>
    exact weaken _ false false (fun m => by cases m <;> rfl)
  | loadingFailed e =>
    simp only [step, onLoadingFailed]
    rcases hr : emitEventsIfReady env false true s with ⟨s1, out1, d1⟩
    obtain ⟨_sc, hfl, hcnt, hmem, hord⟩ := emitReady_spec env false true s
    rw [hr] at hfl hcnt hmem hord
    simp only at hfl hcnt hmem hord
    have hfe1 : EvName.fetchError ∉ out1 := by
      intro hm
      rcases (hmem _ hm).2 with h | h | h <;> simp at h
    rcases emitOne_spec .fetchError s1 out1 with ⟨ho, _, hf⟩ | ⟨ho, _, hflag, hf⟩
    · simp only [ho]
      refine ⟨fun m => ?_, fun m _ => hcnt m, fun m hm _ => (hmem m hm).1, hord⟩
      rw [hf m]
      exact hfl m
    · simp only [ho]
      have hfe0 : emitted s .fetchError = false := by
        rcases hflag with h | h
        · have := hfl .fetchError
          rw [h] at this
          by_cases hs : emitted s .fetchError = true
          · exact absurd (this.mpr (.inl hs)) (by simp)
          · simpa using hs
        · cases h
      refine ⟨fun m => ?_, fun m _ => ?_, fun m hm _ => ?_, ?_⟩
      · rw [hf m]
        simp only [Bool.or_eq_true, beq_iff_eq, List.mem_append, List.mem_singleton]
        rw [hfl m]
        tauto
      · rw [List.count_append]
        by_cases hmf : m = .fetchError
        · subst hmf
          have h0 : out1.count EvName.fetchError = 0 := List.count_eq_zero.mpr hfe1
          simp [h0, List.count_singleton]
        · have h1 : List.count m [EvName.fetchError] = 0 := by
            rw [List.count_eq_zero]
            simp [hmf]
          have := hcnt m
          omega
      · rcases List.mem_append.mp hm with h | h
        · exact (hmem m h).1
        · rw [List.mem_singleton] at h
          subst h
          exact hfe0
      · rw [onlyAfterGo_append, hord, Bool.true_and]
        simp [onlyAfterGo]
  | requestPaused e =>
    refine weaken (pausedUpdate env e s) false false ?_
    intro m
    unfold pausedUpdate
    split <;> split <;> cases m <;> rfl
  | authRequired e =>
    simp only [step, onAuthRequired]
    have hu : ∀ m, emitted (authUpdate env e s) m = emitted s m := by
      intro m
      unfold authUpdate
      split <;> cases m <;> rfl
    rcases emitOne_spec .authRequired (authUpdate env e s) [] with
      ⟨ho, _, hf⟩ | ⟨ho, _, _, hf⟩
    · refine ⟨fun m => ?_, fun m _ => ?_, fun m hm _ => ?_, ?_⟩
      · rw [hf m, hu m, ho]
        simp
      · rw [ho]
        simp
      · rw [ho] at hm
        simp at hm
      · rw [ho]
        simp [onlyAfterGo]
    · refine ⟨fun m => ?_, fun m hma => ?_, fun m hm hma => ?_, ?_⟩
      · rw [hf m, hu m, ho]
        simp only [Bool.or_eq_true, beq_iff_eq, List.nil_append, List.mem_singleton]
      · rw [ho]
        have h0 : List.count m ([] ++ [EvName.authRequired]) = 0 :=
          List.count_eq_zero.mpr (by simp [hma])
        omega
      · rw [ho] at hm
        simp at hm
        exact absurd hm hma
      · rw [ho]
        simp [onlyAfterGo]
  | redirect e =>
    exact weaken _ true false (fun m => by cases m <;> rfl)

end NetReq

namespace NetReq

theorem run_spec (l : List (Env × Input)) (s : NRState) :
    (∀ m, m ≠ .authRequired →
      (run s l).2.count m ≤ (if emitted s m = true then 0 else 1)) ∧
    onlyAfterGo .responseStarted .responseCompleted (emitted s .responseStarted)
      (run s l).2 = true := by
  induction l generalizing s with
  | nil => simp [run, onlyAfterGo]
  | cons p rest ih =>
    obtain ⟨env, i⟩ := p
    rcases hstep : step env s i with ⟨s1, out1, d1⟩
    rcases hrun : run s1 rest with ⟨s2, out2⟩
    have hout : (run s ((env, i) :: rest)).2 = out1 ++ out2 := by
      simp [run, hstep, hrun]
    obtain ⟨hfl, hcnt, hmem, hord⟩ := step_spec env i s
    rw [hstep] at hfl hcnt hmem hord
    simp only at hfl hcnt hmem hord
    obtain ⟨ihc, iho⟩ := ih s1
    rw [hrun] at ihc iho
    simp only at ihc iho
    constructor
    · intro m hma
      rw [hout, List.count_append]
      have h1 := hcnt m hma
      have h2 := ihc m hma
      by_cases hm1 : m ∈ out1
      · have hs1 : emitted s1 m = true := (hfl m).mpr (.inr hm1)
        rw [hs1] at h2
        simp only [if_true] at h2
        have hs0 : emitted s m = false := hmem m hm1 hma
        rw [hs0]
        simp only [Bool.false_eq_true, if_false]
        omega
      · have h0 : out1.count m = 0 := List.count_eq_zero.mpr hm1
        by_cases hs0 : emitted s m = true
        · have hs1 : emitted s1 m = true := (hfl m).mpr (.inl hs0)
          rw [hs1] at h2
          rw [hs0]
          simp only [if_true] at h2 ⊢
          omega
        · simp only [Bool.not_eq_true] at hs0
          rw [hs0]
          simp only [Bool.false_eq_true, if_false]
          have h2b : out2.count m ≤ 1 := le_trans h2 (by split <;> omega)
          omega
    · rw [hout, onlyAfterGo_append, hord, Bool.true_and]
      have hseen : (emitted s EvName.responseStarted ||
          seenIn .responseStarted out1) = emitted s1 .responseStarted := by
        cases hb : emitted s1 .responseStarted
        · have := (hfl EvName.responseStarted)
          rw [hb] at this
          have hno : ¬(emitted s EvName.responseStarted = true ∨
              EvName.responseStarted ∈ out1) := fun h =>
            absurd (this.mpr h) (by simp)
          push_neg at hno
          obtain ⟨ha, hbm⟩ := hno
          simp only [Bool.not_eq_true] at ha
          rw [ha]
          simp only [Bool.false_or]
          by_cases hsi : seenIn .responseStarted out1 = true
          · exact absurd ((seenIn_true_iff _ _).mp hsi) hbm
          · simpa using hsi
        · rcases (hfl EvName.responseStarted).mp hb with h | h
          · rw [h]
            rfl
          · rw [(seenIn_true_iff EvName.responseStarted out1).mpr h]
            simp
      rw [hseen]
      exact iho

/-- C1 (amended): starting from a fresh `NetworkRequest`, for every
sequence of CDP input events (each delivered under an arbitrary
interception oracle) the BiDi events `beforeRequestSent`,
`responseStarted`, `responseCompleted` and `fetchError` are each emitted
at most once, `authRequired` is exempt from the once-only guard, and
`responseCompleted` is never emitted before `responseStarted`.  (The
claim's further conjunct that `responseStarted` is never emitted before
`beforeRequestSent` is refuted by `c1_order_counterexample`.) -/
theorem c1_emission_bounds_and_order (id : String) (inputs : List (Env × Input)) :
    (run (initState id 0) inputs).2.count .beforeRequestSent ≤ 1 ∧
    (run (initState id 0) inputs).2.count .responseStarted ≤ 1 ∧
    (run (initState id 0) inputs).2.count .responseCompleted ≤ 1 ∧
    (run (initState id 0) inputs).2.count .fetchError ≤ 1 ∧
    onlyAfter .responseStarted .responseCompleted (run (initState id 0) inputs).2 = true := by
  obtain ⟨hc, ho⟩ := run_spec inputs (initState id 0)
  have hinit : ∀ m, emitted (initState id 0) m = false := by
    intro m
    cases m <;> rfl
  refine ⟨?_, ?_, ?_, ?_, ?_⟩
  · have := hc .beforeRequestSent (by decide)
    rw [hinit] at this
    simpa using this
  · have := hc .responseStarted (by decide)
    rw [hinit] at this
    simpa using this
  · have := hc .responseCompleted (by decide)
    rw [hinit] at this
    simpa using this
  · have := hc .fetchError (by decide)
    rw [hinit] at this
    simpa using this
  · unfold onlyAfter
    rw [← hinit .responseStarted]
    exact ho

/-- C1 counterexample: when `Network.responseReceived` reaches the request
before `Network.requestWillBeSent` (the streams have no relative order
guarantee and the Network Manager creates the request on either), the
machine emits `responseStarted` and `responseCompleted` first and
`beforeRequestSent` after them, so the claimed
`beforeRequestSent ≺ responseStarted` monotonicity is violated. -/
theorem c1_order_counterexample :
    (run (initState "r" 0)
      [(⟨fun _ => false⟩, .responseReceived ⟨⟨"u", false⟩, false⟩),
       (⟨fun _ => false⟩, .requestWillBeSent ⟨⟨"u", none⟩, none⟩)]).2 =
      [.responseStarted, .responseCompleted, .beforeRequestSent] ∧
    onlyAfter .beforeRequestSent .responseStarted
      (run (initState "r" 0)
        [(⟨fun _ => false⟩, .responseReceived ⟨⟨"u", false⟩, false⟩),
         (⟨fun _ => false⟩, .requestWillBeSent ⟨⟨"u", none⟩, none⟩)]).2 = false := by
  constructor <;> rfl

end NetReq

namespace NetReq

theorem step_core (env : Env) (i : Input) (s : NRState) :
    (step env s i).1.fetchId = s.fetchId ∧
      (step env s i).1.interceptPhase = s.interceptPhase ∨
    (∃ fid, (step env s i).1.fetchId = some fid) := by
  have ready : ∀ (u : NRState) (wr hf : Bool),
      (emitEventsIfReady env wr hf u).1.fetchId = u.fetchId ∧
      (emitEventsIfReady env wr hf u).1.interceptPhase = u.interceptPhase := by
    intro u wr hf
    obtain ⟨sc, _⟩ := emitReady_spec env wr hf u
    exact ⟨sc.2.1, sc.2.2.1⟩
  cases i with
  | requestWillBeSent e => exact .inl (ready _ false false)
  | requestWillBeSentExtraInfo e => exact .inl (ready _ false false)
  | responseReceived e => exact .inl (ready _ false false)
  | responseReceivedExtraInfo e =>
    simp only [step, onResponseReceivedExtraInfo]
    split
    · exact .inl ⟨rfl, rfl⟩
    · exact .inl (ready _ false false)
  | servedFromCache => exact .inl (ready _ false false)
  | loadingFailed e =>
    simp only [step, onLoadingFailed]
    rcases hr : emitEventsIfReady env false true s with ⟨s1, out1, d1⟩
    have h1 := ready s false true
    rw [hr] at h1
    have h2 := emitOne_sameCore .fetchError s1 out1
    exact .inl ⟨h2.2.1.trans h1.1, h2.2.2.1.trans h1.2⟩
  | requestPaused e =>
    refine .inr ⟨e.requestId, ?_⟩
    have h1 := (ready (pausedUpdate env e s) false false).1
    have h2 : (pausedUpdate env e s).fetchId = some e.requestId := by
      unfold pausedUpdate
      split <;> split <;> rfl
    simp only [step, onRequestPaused]
    rw [h1, h2]
  | authRequired e =>
    refine .inr ⟨e.requestId, ?_⟩
    have h1 := (emitOne_sameCore .authRequired (authUpdate env e s) []).2.1
    have h2 : (authUpdate env e s).fetchId = some e.requestId := by
      unfold authUpdate
      split <;> rfl
    simp only [step, onAuthRequired]
    rw [h1, h2]
  | redirect e => exact .inl (ready _ true false)

theorem run_phase_inv (l : List (Env × Input)) (s : NRState)
    (h : s.fetchId = none → s.interceptPhase = none) :
    (run s l).1.fetchId = none → (run s l).1.interceptPhase = none := by
  induction l generalizing s with
  | nil => exact h
  | cons p rest ih =>
    obtain ⟨env, i⟩ := p
    rcases hstep : step env s i with ⟨s1, out1, d1⟩
    rcases hrun : run s1 rest with ⟨s2, out2⟩
    have hres : (run s ((env, i) :: rest)).1 = s2 := by
      simp [run, hstep, hrun]
    rw [hres]
    have hr2 := ih s1 ?_
    · rw [hrun] at hr2
      exact hr2
    · rcases step_core env i s with ⟨hf, hp⟩ | ⟨fid, hf⟩
      · rw [hstep] at hf hp
        simp only at hf hp
        rw [hf, hp]
        exact h
      · rw [hstep] at hf
        simp only at hf
        rw [hf]
        intro hc
        cases hc

/-- C6 (amended): with no `fetchId` set, `failRequest`, `continueRequest`,
`continueWithAuth` and `provideResponse` all reject with the unknown
error `Network Interception not set-up.` and send no `Fetch.*` command,
while `continueResponse` — whose intercept phase is necessarily unset
whenever `fetchId` is unset, as the second conjunct shows for every
reachable state — resolves successfully without sending any command
(rather than failing as the claim states; see
`c6_continueResponse_counterexample`). -/
theorem c6_interception_requires_fetchId :
    (∀ (s : NRState) (o : ContinueRequestParams) (o2 : ProvideResponseParams)
        (o3 : ContinueResponseParams),
      s.fetchId = none → s.interceptPhase = none →
      failRequest s = .err interceptionError ∧
      continueRequest s o = .err interceptionError ∧
      continueWithAuth s = .err interceptionError ∧
      provideResponse s o2 = .err interceptionError ∧
      continueResponse s o3 = .ok s []) ∧
    (∀ (id : String) (l : List (Env × Input)),
      (run (initState id 0) l).1.fetchId = none →
      (run (initState id 0) l).1.interceptPhase = none) := by
  constructor
  · intro s o o2 o3 hf hp
    refine ⟨?_, ?_, ?_, ?_, ?_⟩
    · simp [failRequest, hf]
    · simp [continueRequest, hf]
    · simp [continueWithAuth, continueWithAuthPriv, hf]
    · simp [provideResponse, hf]
    · simp [continueResponse, hp]
  · intro id l
    exact run_phase_inv l (initState id 0) (fun _ => rfl)

/-- Witness for C6 at a fresh request and the empty run. -/
theorem c6_interception_requires_fetchId_witness :
    failRequest (initState "w" 0) = .err interceptionError ∧
    continueResponse (initState "w" 0) {} = .ok (initState "w" 0) [] ∧
    (run (initState "w" 0) []).1.interceptPhase = none :=
  ⟨(c6_interception_requires_fetchId.1 (initState "w" 0) {} {} {} rfl rfl).1,
   (c6_interception_requires_fetchId.1 (initState "w" 0) {} {} {} rfl rfl).2.2.2.2,
   c6_interception_requires_fetchId.2 "w" [] rfl⟩

/-- C6 counterexample: `continueResponse` on a request whose `fetchId` is
unset resolves successfully (sending nothing) instead of failing with the
`Network Interception not set-up.` error the claim asserts for every
interception operation. -/
theorem c6_continueResponse_counterexample :
    (initState "r" 0).fetchId = none ∧
    continueResponse (initState "r" 0) {} = .ok (initState "r" 0) [] :=
  ⟨rfl, rfl⟩

end NetReq

namespace NetReq

theorem emitPipeline_rc (c1 : Bool) (c2of : NRState → Bool)
    (c3of : NRState → NRState → Bool) (s : NRState)
    (hc3 : ∀ a b, sameCore a s → sameCore b a → c3of a b = true)
    (hig : isIgnoredEvent s = false)
    (hflag : emitted s .responseCompleted = false) :
    EvName.responseCompleted ∈ (emitPipeline c1 c2of c3of s).2.1 := by
  simp only [emitPipeline]
  set p1 := condEmit c1 .beforeRequestSent (s, []) with hp1
  set c2 := c2of p1.1 with hc2
  set p2 := condEmit c2 .responseStarted p1 with hp2
  set c3 := c3of p1.1 p2.1 with hc3v
  obtain ⟨sc1, d1⟩ := condEmit_spec c1 .beforeRequestSent (s, [])
  obtain ⟨sc2, d2⟩ := condEmit_spec c2 .responseStarted p1
  rw [← hp1] at sc1 d1
  rw [← hp2] at sc2 d2
  have hcond : c3 = true := hc3v ▸ hc3 p1.1 p2.1 sc1 sc2
  have hrc1 : emitted p1.1 .responseCompleted = false := by
    rcases d1 with ⟨_, _, hf⟩ | ⟨_, _, _, _, hf⟩ <;> rw [hf] <;> simp [hflag]
  have hrc2 : emitted p2.1 .responseCompleted = false := by
    rcases d2 with ⟨_, _, hf⟩ | ⟨_, _, _, _, hf⟩ <;> rw [hf] <;> simp [hrc1]
  have hig2 : isIgnoredEvent p2.1 = false := by
    rw [isIgnored_of_sameCore (sameCore_trans sc2 sc1)]
    exact hig
  rcases condEmit_spec c3 .responseCompleted p2 with ⟨_, ⟨_, hreason, _⟩ | ⟨ho, _, _, _, _⟩⟩
  · exfalso
    rcases hreason hcond with h | ⟨h, _⟩
    · rw [hig2] at h
      cases h
    · rw [hrc2] at h
      cases h
  · rw [ho]
    simp

theorem emitReady_rc (env : Env) (wr hf : Bool) (s : NRState)
    (hri : s.respInfo.isSome = true)
    (hhei : s.respHasExtraInfo = some false)
    (hic : env.blocked .responseStarted = true → s.respPaused.isSome = true)
    (hig : isIgnoredEvent s = false)
    (hflag : emitted s .responseCompleted = false) :
    EvName.responseCompleted ∈ (emitEventsIfReady env wr hf s).2.1 := by
  simp only [emitEventsIfReady]
  refine emitPipeline_rc _ _ _ s ?_ hig hflag
  intro a b hsa hsb
  obtain ⟨_, _, _, ha4, _, _, _, _, _, ha10, ha11, ha12, _⟩ := hsa
  obtain ⟨_, _, _, _, _, _, _, _, _, _, hb11, hb12, _⟩ := hsb
  simp only [Bool.and_eq_true]
  refine ⟨⟨?_, ?_⟩, ?_⟩
  · rw [hb11, ha11, hri]
  · rw [ha11, ha10, hri, hhei]
    simp
  · by_cases hbl : env.blocked .responseStarted = true
    · have hp := hic hbl
      rw [hb12, ha12, hp]
      rcases (isDataUrl s).eq_false_or_eq_true with h1 | h1 <;>
        rcases (s.servedFromCache).eq_false_or_eq_true with h2 | h2 <;>
          simp [h1, h2, hbl]
    · simp only [Bool.not_eq_true] at hbl
      rw [hbl]
      simp

theorem emitPipeline_no_delete (c1 : Bool) (c2of : NRState → Bool)
    (c3of : NRState → NRState → Bool) (u : NRState)
    (h : ∀ a b, sameCore a u → sameCore b a → c3of a b = false) :
    (emitPipeline c1 c2of c3of u).2.2 = false := by
  simp only [emitPipeline]
  exact h _ _ (condEmit_spec c1 .beforeRequestSent (u, [])).1
    (condEmit_spec _ .responseStarted _).1

theorem emitReady_no_delete (env : Env) (wr hf : Bool) (u : NRState)
    (h : u.respInfo = none) :
    (emitEventsIfReady env wr hf u).2.2 = false := by
  simp only [emitEventsIfReady]
  refine emitPipeline_no_delete _ _ _ u ?_
  intro a b hsa hsb
  obtain ⟨_, _, _, _, _, _, _, _, _, _, ha11, _, _⟩ := hsa
  obtain ⟨_, _, _, _, _, _, _, _, _, _, hb11, _, _⟩ := hsb
  have hbn : b.respInfo = none := by rw [hb11, ha11, h]
  simp [hbn]

end NetReq

namespace NetReq

/-- C2 (amended): when `Network.requestWillBeSent` carries a
`redirectResponse` and the stored request already has `request.info`, the
current request unconditionally records the redirect response with
`hasExtraInfo` forced to `false`, and the Network Manager unconditionally
replaces the stored request with a fresh one under the same id whose
`redirectCount` is one higher and which has consumed the new event; the
flush is a `responseCompleted` emission exactly under the provisos that
the request is not favicon-suppressed, has not already emitted
`responseCompleted`, and no response-phase interception is pending
without its `Fetch.requestPaused` event.  (Without those provisos the
emission conjunct of the original claim fails; see
`c2_redirect_counterexample`.) -/
theorem c2_redirect_flush (env : Env) (req : NRState) (id : String) (e : RWBS)
    (rr : RespInfo) (i : RWBS)
    (hreq : req.reqInfo = some i)
    (hrr : e.redirectResponse = some rr) :
    (handleRedirect env e req).1.respInfo = some rr ∧
    (handleRedirect env e req).1.respHasExtraInfo = some false ∧
    (managerOnRequestWillBeSent env (some req) id e).1.map
      (fun s2 => (s2.redirectCount, s2.reqInfo)) =
      some (req.redirectCount + 1, some e) ∧
    (isIgnoredEvent req = false →
      req.emittedResponseCompleted = false →
      (env.blocked .responseStarted = true → req.respPaused.isSome = true) →
      EvName.responseCompleted ∈ (handleRedirect env e req).2.1 ∧
      EvName.responseCompleted ∈ (managerOnRequestWillBeSent env (some req) id e).2) := by
  have hr0i :
      ({ req with respHasExtraInfo := some false, respInfo := e.redirectResponse } : NRState).respInfo
        = some rr := by
    simp [hrr]
  have hsc := (emitReady_spec env true false
    { req with respHasExtraInfo := some false, respInfo := e.redirectResponse }).1
  refine ⟨?_, ?_, ?_, ?_⟩
  · exact (hsc.2.2.2.2.2.2.2.2.2.2.1).trans hr0i
  · exact hsc.2.2.2.2.2.2.2.2.2.1
  · rcases hh : handleRedirect env e req with ⟨r1, hout1⟩
    rcases ho2 : onRequestWillBeSent env e (initState id (req.redirectCount + 1))
      with ⟨r2, hout2⟩
    obtain ⟨out1, d1⟩ := hout1
    obtain ⟨out2, d2⟩ := hout2
    have hd2 : d2 = false := by
      have hnd := emitReady_no_delete env false false
        { initState id (req.redirectCount + 1) with reqInfo := some e } rfl
      have : (onRequestWillBeSent env e (initState id (req.redirectCount + 1))).2.2
          = false := hnd
      rw [ho2] at this
      exact this
    subst hd2
    have hmgr : (managerOnRequestWillBeSent env (some req) id e).1 = some r2 := by
      simp [managerOnRequestWillBeSent, hreq, hh, ho2]
    rw [hmgr]
    have hsc2 := (emitReady_spec env false false
      { initState id (req.redirectCount + 1) with reqInfo := some e }).1
    have hr2 : (onRequestWillBeSent env e (initState id (req.redirectCount + 1))).1
        = r2 := by rw [ho2]
    rw [← hr2]
    have hcnt : (onRequestWillBeSent env e (initState id (req.redirectCount + 1))).1.redirectCount
        = req.redirectCount + 1 := hsc2.2.2.2.2.1
    have hinf : (onRequestWillBeSent env e (initState id (req.redirectCount + 1))).1.reqInfo
        = some e := hsc2.2.2.2.2.2.1
    simp [hcnt, hinf]
  · intro hfav hrc hint
    have hmem : EvName.responseCompleted ∈ (handleRedirect env e req).2.1 := by
      show EvName.responseCompleted ∈ (emitEventsIfReady env true false
        { req with respHasExtraInfo := some false, respInfo := e.redirectResponse }).2.1
      refine emitReady_rc env true false _ ?_ rfl ?_ ?_ ?_
      · rw [hr0i]
        rfl
      · intro hb
        exact hint hb
      · exact hfav
      · exact hrc
    refine ⟨hmem, ?_⟩
    rcases hh : handleRedirect env e req with ⟨r1, hout1⟩
    rcases ho2 : onRequestWillBeSent env e (initState id (req.redirectCount + 1))
      with ⟨r2, hout2⟩
    obtain ⟨out1, d1⟩ := hout1
    obtain ⟨out2, d2⟩ := hout2
    have hmgr : (managerOnRequestWillBeSent env (some req) id e).2 = out1 ++ out2 := by
      simp [managerOnRequestWillBeSent, hreq, hh, ho2]
    rw [hmgr]
    rw [hh] at hmem
    exact List.mem_append.mpr (.inl hmem)

/-- C2 counterexample: for a favicon request every emission is suppressed,
so the redirect flush produces no `responseCompleted` at all even though
the claim's premises (a stored request with `request.info` receiving a
`requestWillBeSent` with a `redirectResponse`) hold. -/
theorem c2_redirect_counterexample :
    ({ initState "r" 0 with
        reqInfo := some ⟨⟨"http://x/favicon.ico", none⟩, none⟩ } : NRState).reqInfo.isSome
      = true ∧
    (managerOnRequestWillBeSent ⟨fun _ => false⟩
      (some { initState "r" 0 with
        reqInfo := some ⟨⟨"http://x/favicon.ico", none⟩, none⟩ }) "r"
      ⟨⟨"http://x/2", none⟩, some ⟨"http://x/favicon.ico", false⟩⟩).2 = [] := by
  constructor <;> rfl

/-- Witness for C2 at a concrete redirecting request. -/
theorem c2_redirect_flush_witness :
    EvName.responseCompleted ∈
      (managerOnRequestWillBeSent ⟨fun _ => false⟩
        (some { initState "r" 0 with reqInfo := some ⟨⟨"http://x/1", none⟩, none⟩ }) "r"
        ⟨⟨"http://x/2", none⟩, some ⟨"http://x/1", false⟩⟩).2 :=
  ((c2_redirect_flush ⟨fun _ => false⟩
    { initState "r" 0 with reqInfo := some ⟨⟨"http://x/1", none⟩, none⟩ } "r"
    ⟨⟨"http://x/2", none⟩, some ⟨"http://x/1", false⟩⟩
    ⟨"http://x/1", false⟩ ⟨⟨"http://x/1", none⟩, none⟩
    rfl rfl).2.2.2 rfl rfl (fun h => absurd h (by decide))).2

end NetReq

namespace SubMgr

theorem mem_setInsert (x y : String) (l : List String) :
    x ∈ setInsert y l ↔ x = y ∨ x ∈ l := by
  unfold setInsert
  split
  · rename_i h
    constructor
    · exact fun hm => .inr hm
    · rintro (rfl | hm)
      · exact h
      · exact hm
  · simp [or_comm]

theorem nodup_setInsert (y : String) (l : List String) (h : l.Nodup) :
    (setInsert y l).Nodup := by
  unfold setInsert
  split
  · exact h
  · rename_i hy
    simpa [List.nodup_append] using ⟨h, hy⟩

theorem mem_dedup_aux (l acc : List String) (x : String) :
    x ∈ l.foldl (fun a y => setInsert y a) acc ↔ x ∈ acc ∨ x ∈ l := by
  induction l generalizing acc with
  | nil => simp
  | cons y ys ih =>
    simp only [List.foldl_cons, ih, mem_setInsert, List.mem_cons]
    tauto

theorem mem_dedup (l : List String) (x : String) : x ∈ dedup l ↔ x ∈ l := by
  unfold dedup
  rw [mem_dedup_aux]
  simp

theorem nodup_dedup (l : List String) : (dedup l).Nodup := by
  unfold dedup
  suffices h : ∀ acc : List String, acc.Nodup →
      (l.foldl (fun a y => setInsert y a) acc).Nodup by
    exact h [] List.nodup_nil
  induction l with
  | nil => exact fun acc h => h
  | cons y ys ih =>
    intro acc hacc
    exact ih _ (nodup_setInsert y acc hacc)

theorem resolveTopLevels_ok (env : ContextStore) (ctxs : List String)
    (h : ∀ c ∈ ctxs, env.topLevelOf c ≠ "") :
    resolveTopLevels env ctxs = .ok (ctxs.map env.topLevelOf) := by
  induction ctxs with
  | nil => rfl
  | cons c rest ih =>
    have hc : env.topLevelOf c ≠ "" := h c (by simp)
    simp only [resolveTopLevels, if_neg hc]
    rw [ih (fun d hd => h d (by simp [hd]))]
    rfl

theorem setEqual_true_iff (a b : List String) (ha : a.Nodup) (hb : b.Nodup) :
    setEqual a b = true ↔ (∀ x, x ∈ a ↔ x ∈ b) := by
  unfold setEqual
  simp only [Bool.and_eq_true, beq_iff_eq, List.all_eq_true, decide_eq_true_eq]
  constructor
  · rintro ⟨hlen, hsub⟩
    have hsp : List.Subperm a b := List.subperm_of_subset ha (fun x hx => hsub x hx)
    obtain ⟨l, hperm, hsl⟩ := hsp
    have hleq : l = b := hsl.eq_of_length (by rw [hperm.length_eq, hlen])
    subst hleq
    exact fun x => (hperm.mem_iff).symm
  · intro hiff
    have hperm : List.Perm a b := (List.perm_ext_iff_of_nodup ha hb).mpr hiff
    exact ⟨hperm.length_eq, fun x hx => (hiff x).mp hx⟩

end SubMgr

namespace SubMgr

theorem removeTops_spec (T : List String) (e : String) (cs em cm : List String) :
    (∀ x, x ∈ (removeTops T e cs em cm).2.1 ↔
      x ∈ em ∨ (x = e ∧ ∃ t ∈ T, t ∈ cs)) ∧
    (∀ x, x ∈ (removeTops T e cs em cm).2.2 ↔
      x ∈ cm ∨ (x ∈ T ∧ x ∈ cs)) ∧
    (removeTops T e cs em cm).1 = cs.filter (fun x => x ∉ T) := by
  induction T generalizing cs em cm with
  | nil =>
    refine ⟨fun x => by simp [removeTops], fun x => by simp [removeTops], ?_⟩
    simp [removeTops]
  | cons t T2 ih =>
    by_cases ht : t ∈ cs
    · have hstep : removeTops (t :: T2) e cs em cm =
          removeTops T2 e (cs.filter (fun x => x ≠ t)) (setInsert e em) (setInsert t cm) := by
        simp [removeTops, ht]
      obtain ⟨ih1, ih2, ih3⟩ := ih (cs.filter (fun x => x ≠ t)) (setInsert e em) (setInsert t cm)
      rw [hstep]
      refine ⟨fun x => ?_, fun x => ?_, ?_⟩
      · rw [ih1 x]
        simp only [mem_setInsert, List.mem_filter, List.mem_cons, decide_eq_true_eq]
        constructor
        · rintro ((rfl | hm) | ⟨rfl, u, ⟨hu1, hu2⟩⟩)
          · exact .inr ⟨rfl, t, .inl rfl, ht⟩
          · exact .inl hm
          · exact .inr ⟨rfl, u, .inr hu1, hu2.1⟩
        · rintro (hm | ⟨rfl, _, _⟩)
          · exact .inl (.inr hm)
          · exact .inl (.inl rfl)
      · rw [ih2 x]
        simp only [mem_setInsert, List.mem_filter, List.mem_cons, decide_eq_true_eq]
        constructor
        · rintro ((rfl | hm) | ⟨hT, hcs, _⟩)
          · exact .inr ⟨.inl rfl, ht⟩
          · exact .inl hm
          · exact .inr ⟨.inr hT, hcs⟩
        · rintro (hm | ⟨rfl | hT, hcs⟩)
          · exact .inl (.inr hm)
          · exact .inl (.inl rfl)
          · by_cases hxt : x = t
            · exact .inl (.inl hxt)
            · exact .inr ⟨hT, hcs, by simpa using hxt⟩
      · rw [ih3, List.filter_filter]
        apply List.filter_congr
        intro x _
        by_cases h1 : x = t <;> by_cases h2 : x ∈ T2 <;>
          simp [List.mem_cons, h1, h2]
    · have hstep : removeTops (t :: T2) e cs em cm = removeTops T2 e cs em cm := by
        simp [removeTops, ht]
      obtain ⟨ih1, ih2, ih3⟩ := ih cs em cm
      rw [hstep]
      refine ⟨fun x => ?_, fun x => ?_, ?_⟩
      · rw [ih1 x]
        simp only [List.mem_cons]
        constructor
        · rintro (hm | ⟨rfl, u, hu1, hu2⟩)
          · exact .inl hm
          · exact .inr ⟨rfl, u, .inr hu1, hu2⟩
        · rintro (hm | ⟨rfl, u, rfl | hu1, hu2⟩)
          · exact .inl hm
          · exact absurd hu2 ht
          · exact .inr ⟨rfl, u, hu1, hu2⟩
      · rw [ih2 x]
        simp only [List.mem_cons]
        constructor
        · rintro (hm | ⟨hT, hcs⟩)
          · exact .inl hm
          · exact .inr ⟨.inr hT, hcs⟩
        · rintro (hm | ⟨rfl | hT, hcs⟩)
          · exact .inl hm
          · exact absurd hcs ht
          · exact .inr ⟨hT, hcs⟩
      · rw [ih3]
        apply List.filter_congr
        intro x hx
        have hxt : x ≠ t := fun h => ht (h ▸ hx)
        simp [List.mem_cons, hxt]

end SubMgr

namespace SubMgr

theorem keys_nodup_unique {m : List (String × List String)}
    (h : (m.map Prod.fst).Nodup) {p q : String × List String}
    (hp : p ∈ m) (hq : q ∈ m) (he : p.1 = q.1) : p = q := by
  induction m with
  | nil => cases hp
  | cons a m ih =>
    simp only [List.map_cons, List.nodup_cons] at h
    rcases List.mem_cons.mp hp with rfl | hp2
    · rcases List.mem_cons.mp hq with rfl | hq2
      · rfl
      · exfalso
        apply h.1
        rw [he]
        exact List.mem_map_of_mem Prod.fst hq2
    · rcases List.mem_cons.mp hq with rfl | hq2
      · exfalso
        apply h.1
        rw [← he]
        exact List.mem_map_of_mem Prod.fst hp2
      · exact ih h.2 hp2 hq2

theorem mapSet_mem (k : String) (v : List String) (m : List (String × List String))
    (p : String × List String) :
    p ∈ mapSet k v m ↔ p = (k, v) ∨ (p ∈ m ∧ p.1 ≠ k) := by
  unfold mapSet
  split
  · rename_i hany
    rw [List.any_eq_true] at hany
    obtain ⟨q, hq, hqk⟩ := hany
    rw [decide_eq_true_eq] at hqk
    simp only [List.mem_map]
    constructor
    · rintro ⟨r, hr, rfl⟩
      by_cases hrk : r.1 = k
      · rw [if_pos hrk]
        exact Or.inl rfl
      · rw [if_neg hrk]
        exact Or.inr ⟨hr, hrk⟩
    · rintro (rfl | ⟨hp, hpk⟩)
      · exact ⟨q, hq, by rw [if_pos hqk]⟩
      · exact ⟨p, hp, by rw [if_neg hpk]⟩
  · rename_i hany
    simp only [List.mem_append, List.mem_singleton]
    constructor
    · rintro (hp | rfl)
      · refine Or.inr ⟨hp, fun hk => ?_⟩
        exact hany (List.any_eq_true.mpr ⟨p, hp, decide_eq_true hk⟩)
      · exact Or.inl rfl
    · rintro (rfl | ⟨hp, _⟩)
      · exact Or.inr rfl
      · exact Or.inl hp

theorem mapSet_keys_nodup (k : String) (v : List String)
    (m : List (String × List String)) (h : (m.map Prod.fst).Nodup) :
    ((mapSet k v m).map Prod.fst).Nodup := by
  unfold mapSet
  split
  · rename_i hany
    have heq : (m.map (fun q => if q.1 = k then (k, v) else q)).map Prod.fst =
        m.map Prod.fst := by
      rw [List.map_map]
      apply List.map_congr_left
      intro q hq
      by_cases hqk : q.1 = k <;> simp [hqk, Function.comp]
    rw [heq]
    exact h
  · rename_i hany
    rw [List.map_append, List.nodup_append]
    refine ⟨h, by simp, ?_⟩
    intro x hx hxk
    simp only [List.map_cons, List.map_nil, List.mem_singleton] at hxk
    subst hxk
    obtain ⟨q, hq, hqk⟩ := List.mem_map.mp hx
    exact hany (List.any_eq_true.mpr ⟨q, hq, decide_eq_true hqk⟩)

theorem buildMap_aux (V : List String) (l : List String)
    (m0 : List (String × List String))
    (h1 : (m0.map Prod.fst).Nodup) (h2 : ∀ p ∈ m0, p.2 = V) :
    ((l.foldl (fun m e => mapSet e V m) m0).map Prod.fst).Nodup ∧
    (∀ p ∈ l.foldl (fun m e => mapSet e V m) m0, p.2 = V) ∧
    (∀ x, (∃ p ∈ l.foldl (fun m e => mapSet e V m) m0, p.1 = x) ↔
      (∃ p ∈ m0, p.1 = x) ∨ x ∈ l) := by
  induction l generalizing m0 with
  | nil => exact ⟨h1, h2, fun x => by simp⟩
  | cons e l ih =>
    simp only [List.foldl_cons]
    have hk := mapSet_keys_nodup e V m0 h1
    have hv : ∀ p ∈ mapSet e V m0, p.2 = V := by
      intro p hp
      rcases (mapSet_mem e V m0 p).mp hp with rfl | ⟨hp2, _⟩
      · rfl
      · exact h2 p hp2
    obtain ⟨ih1, ih2, ih3⟩ := ih (mapSet e V m0) hk hv
    refine ⟨ih1, ih2, fun x => ?_⟩
    rw [ih3 x]
    simp only [List.mem_cons]
    constructor
    · rintro (⟨p, hp, rfl⟩ | hx)
      · rcases (mapSet_mem e V m0 p).mp hp with rfl | ⟨hp2, _⟩
        · exact Or.inr (Or.inl rfl)
        · exact Or.inl ⟨p, hp2, rfl⟩
      · exact Or.inr (Or.inr hx)
    · rintro (⟨p, hp, rfl⟩ | rfl | hx)
      · by_cases hpk : p.1 = e
        · exact Or.inl ⟨(e, V), (mapSet_mem e V m0 (e, V)).mpr (Or.inl rfl), hpk.symm⟩
        · exact Or.inl ⟨p, (mapSet_mem e V m0 p).mpr (Or.inr ⟨hp, hpk⟩), rfl⟩
      · exact Or.inl ⟨(x, V), (mapSet_mem x V m0 (x, V)).mpr (Or.inl rfl), rfl⟩
      · exact Or.inr hx

theorem inter_isEmpty_iff (a b : List String) :
    (inter a b).isEmpty = true ↔ ∀ x ∈ a, x ∉ b := by
  unfold inter
  rw [List.isEmpty_iff, List.filter_eq_nil_iff]
  simp

theorem foldl_insertIf_mem (s l em : List String) (x : String) :
    x ∈ l.foldl (fun em e => if e ∈ s then setInsert e em else em) em ↔
      x ∈ em ∨ (x ∈ l ∧ x ∈ s) := by
  induction l generalizing em with
  | nil => simp
  | cons e l ih =>
    simp only [List.foldl_cons]
    by_cases he : e ∈ s
    · rw [if_pos he, ih]
      simp only [mem_setInsert, List.mem_cons]
      constructor
      · rintro ((rfl | h) | ⟨h1, h2⟩)
        · exact Or.inr ⟨Or.inl rfl, he⟩
        · exact Or.inl h
        · exact Or.inr ⟨Or.inr h1, h2⟩
      · rintro (h | ⟨rfl | h1, h2⟩)
        · exact Or.inl (Or.inr h)
        · exact Or.inl (Or.inl rfl)
        · exact Or.inr ⟨h1, h2⟩
    · rw [if_neg he, ih]
      constructor
      · rintro (h | ⟨h1, h2⟩)
        · exact Or.inl h
        · exact Or.inr ⟨List.mem_cons_of_mem e h1, h2⟩
      · rintro (h | ⟨h1, h2⟩)
        · exact Or.inl h
        · rcases List.mem_cons.mp h1 with rfl | h1
          · exact absurd h2 he
          · exact Or.inr ⟨h1, h2⟩

theorem foldl_insertIf_nodup (s l em : List String) (h : em.Nodup) :
    (l.foldl (fun em e => if e ∈ s then setInsert e em else em) em).Nodup := by
  induction l generalizing em with
  | nil => exact h
  | cons e l ih =>
    simp only [List.foldl_cons]
    by_cases he : e ∈ s
    · rw [if_pos he]
      exact ih _ (nodup_setInsert e em h)
    · rw [if_neg he]
      exact ih _ h

theorem removeTops_nodup (T : List String) (e : String) (cs em cm : List String)
    (h1 : em.Nodup) (h2 : cm.Nodup) :
    (removeTops T e cs em cm).2.1.Nodup ∧ (removeTops T e cs em cm).2.2.Nodup := by
  induction T generalizing cs em cm with
  | nil => exact ⟨h1, h2⟩
  | cons t T ih =>
    by_cases ht : t ∈ cs
    · have hstep : removeTops (t :: T) e cs em cm =
          removeTops T e (cs.filter (fun x => x ≠ t)) (setInsert e em) (setInsert t cm) := by
        simp [removeTops, ht]
      rw [hstep]
      exact ih _ _ _ (nodup_setInsert e em h1) (nodup_setInsert t cm h2)
    · have hstep : removeTops (t :: T) e cs em cm = removeTops T e cs em cm := by
        simp [removeTops, ht]
      rw [hstep]
      exact ih _ _ _ h1 h2

end SubMgr

namespace SubMgr

theorem exists_entry_update (m : List (String × List String)) (e : String)
    (cs2 : List String) (P : String → Prop) (C : List String → Prop) (hP : ¬P e) :
    (∃ p ∈ m.map (fun q => if q.1 = e then (e, cs2) else q), P p.1 ∧ C p.2) ↔
      (∃ p ∈ m, P p.1 ∧ C p.2) := by
  simp only [List.mem_map]
  constructor
  · rintro ⟨p, ⟨q, hq, rfl⟩, hPp, hCp⟩
    by_cases hqe : q.1 = e
    · rw [if_pos hqe] at hPp hCp
      exact absurd hPp hP
    · rw [if_neg hqe] at hPp hCp
      exact ⟨q, hq, hPp, hCp⟩
  · rintro ⟨p, hp, hPp, hCp⟩
    have hpe : p.1 ≠ e := fun h => hP (h ▸ hPp)
    exact ⟨p, ⟨p, hp, by rw [if_neg hpe]⟩, hPp, hCp⟩

theorem keys_nodup_update (m : List (String × List String)) (e : String)
    (cs2 : List String) (h : (m.map Prod.fst).Nodup) :
    ((m.map (fun q => if q.1 = e then (e, cs2) else q)).map Prod.fst).Nodup := by
  have heq : (m.map (fun q => if q.1 = e then (e, cs2) else q)).map Prod.fst =
      m.map Prod.fst := by
    rw [List.map_map]
    apply List.map_congr_left
    intro q hq
    by_cases hqe : q.1 = e <;> simp [hqe, Function.comp]
  rw [heq]
  exact h

theorem keys_nodup_filter (m : List (String × List String))
    (f : String × List String → Bool) (h : (m.map Prod.fst).Nodup) :
    ((m.filter f).map Prod.fst).Nodup :=
  List.Nodup.sublist (List.Sublist.map Prod.fst (List.filter_sublist m)) h

theorem scopedLoop_cons_none (T : List String) (e : String) (U : List String)
    (m : List (String × List String)) (em cm : List String)
    (hfind : m.find? (fun p => p.1 = e) = none) :
    scopedLoop T (e :: U) m em cm = scopedLoop T U m em cm := by
  simp only [scopedLoop, List.foldl_cons, hfind]

theorem scopedLoop_cons_some (T : List String) (e : String) (U : List String)
    (m : List (String × List String)) (em cm : List String)
    (p0 : String × List String)
    (hfind : m.find? (fun p => p.1 = e) = some p0) :
    scopedLoop T (e :: U) m em cm =
      (if (removeTops T e p0.2 em cm).1.isEmpty then
        scopedLoop T U (m.filter (fun q => q.1 ≠ e))
          (removeTops T e p0.2 em cm).2.1 (removeTops T e p0.2 em cm).2.2
      else
        scopedLoop T U
          (m.map (fun q => if q.1 = e then (e, (removeTops T e p0.2 em cm).1) else q))
          (removeTops T e p0.2 em cm).2.1 (removeTops T e p0.2 em cm).2.2) := by
  simp only [scopedLoop, List.foldl_cons, hfind]
  by_cases hcs : (removeTops T e p0.2 em cm).1.isEmpty
  · simp only [if_pos hcs]
  · simp only [if_neg hcs]

end SubMgr

namespace SubMgr

theorem scopedLoop_spec (T : List String) (U : List String)
    (m : List (String × List String)) (em cm : List String)
    (hU : U.Nodup) (hm : (m.map Prod.fst).Nodup) :
    (∀ x, x ∈ (scopedLoop T U m em cm).2.1 ↔
      x ∈ em ∨ (x ∈ U ∧ ∃ p ∈ m, p.1 = x ∧ ∃ t ∈ T, t ∈ p.2)) ∧
    (∀ y, y ∈ (scopedLoop T U m em cm).2.2 ↔
      y ∈ cm ∨ (y ∈ T ∧ ∃ p ∈ m, p.1 ∈ U ∧ y ∈ p.2)) := by
  induction U generalizing m em cm with
  | nil =>
    exact ⟨fun x => by simp [scopedLoop], fun y => by simp [scopedLoop]⟩
  | cons e U ih =>
    have hU2 : U.Nodup := (List.nodup_cons.mp hU).2
    have heU : e ∉ U := (List.nodup_cons.mp hU).1
    cases hfind : m.find? (fun p => p.1 = e) with
    | none =>
      have hnone : ∀ p ∈ m, p.1 ≠ e := by
        intro p hp
        have h3 := List.find?_eq_none.mp hfind p hp
        simpa using h3
      rw [scopedLoop_cons_none T e U m em cm hfind]
      obtain ⟨ih1, ih2⟩ := ih m em cm hU2 hm
      refine ⟨fun x => ?_, fun y => ?_⟩
      · rw [ih1 x]
        simp only [List.mem_cons]
        constructor
        · rintro (h | ⟨h1, p, hp, h2, h3⟩)
          · exact Or.inl h
          · exact Or.inr ⟨Or.inr h1, p, hp, h2, h3⟩
        · rintro (h | ⟨rfl | h1, p, hp, h2, h3⟩)
          · exact Or.inl h
          · exact absurd h2 (hnone p hp)
          · exact Or.inr ⟨h1, p, hp, h2, h3⟩
      · rw [ih2 y]
        simp only [List.mem_cons]
        constructor
        · rintro (h | ⟨h1, p, hp, h2, h3⟩)
          · exact Or.inl h
          · exact Or.inr ⟨h1, p, hp, Or.inr h2, h3⟩
        · rintro (h | ⟨h1, p, hp, h2 | h2, h3⟩)
          · exact Or.inl h
          · exact absurd h2 (hnone p hp)
          · exact Or.inr ⟨h1, p, hp, h2, h3⟩
    | some p0 =>
      have hp0m : p0 ∈ m := List.mem_of_find?_eq_some hfind
      have hp0e : p0.1 = e := by
        have h3 := List.find?_some hfind
        simpa using h3
      have hkey : ∀ (C : List String → Prop),
          (∃ p ∈ m, p.1 = e ∧ C p.2) ↔ C p0.2 := by
        intro C
        constructor
        · rintro ⟨p, hp, hpe, hC⟩
          have hpp0 : p = p0 := keys_nodup_unique hm hp hp0m (by rw [hpe, hp0e])
          rw [← hpp0]
          exact hC
        · intro hC
          exact ⟨p0, hp0m, hp0e, hC⟩
      obtain ⟨hrem1, hrem2, hrem3⟩ := removeTops_spec T e p0.2 em cm
      rw [scopedLoop_cons_some T e U m em cm p0 hfind]
      by_cases hcs : (removeTops T e p0.2 em cm).1.isEmpty
      · rw [if_pos hcs]
        obtain ⟨ih1, ih2⟩ := ih (m.filter (fun q => q.1 ≠ e)) _ _ hU2
          (keys_nodup_filter m _ hm)
        refine ⟨fun x => ?_, fun y => ?_⟩
        · rw [ih1 x, hrem1 x]
          simp only [List.mem_cons]
          constructor
          · rintro ((hx | ⟨rfl, ht⟩) | ⟨hxU, p, hp, hpx, hpT⟩)
            · exact Or.inl hx
            · exact Or.inr ⟨Or.inl rfl, (hkey (fun v => ∃ t ∈ T, t ∈ v)).mpr ht⟩
            · exact Or.inr ⟨Or.inr hxU, p, (List.mem_filter.mp hp).1, hpx, hpT⟩
          · rintro (hx | ⟨rfl | hxU, p, hp, hpx, hpT⟩)
            · exact Or.inl (Or.inl hx)
            · exact Or.inl (Or.inr ⟨rfl,
                (hkey (fun v => ∃ t ∈ T, t ∈ v)).mp ⟨p, hp, hpx, hpT⟩⟩)
            · have hpxe : p.1 ≠ e := by
                rw [hpx]
                intro h
                exact heU (h ▸ hxU)
              exact Or.inr ⟨hxU, p,
                List.mem_filter.mpr ⟨hp, by simpa using hpxe⟩, hpx, hpT⟩
        · rw [ih2 y, hrem2 y]
          simp only [List.mem_cons]
          constructor
          · rintro ((hy | ⟨hyT, hyp⟩) | ⟨hyT, p, hp, hpU, hyp⟩)
            · exact Or.inl hy
            · exact Or.inr ⟨hyT, p0, hp0m, Or.inl hp0e, hyp⟩
            · exact Or.inr ⟨hyT, p, (List.mem_filter.mp hp).1, Or.inr hpU, hyp⟩
          · rintro (hy | ⟨hyT, p, hp, hpe | hpU, hyp⟩)
            · exact Or.inl (Or.inl hy)
            · have hpp0 : p = p0 := keys_nodup_unique hm hp hp0m (by rw [hpe, hp0e])
              exact Or.inl (Or.inr ⟨hyT, hpp0 ▸ hyp⟩)
            · have hpe2 : p.1 ≠ e := fun h => heU (h ▸ hpU)
              exact Or.inr ⟨hyT, p,
                List.mem_filter.mpr ⟨hp, by simpa using hpe2⟩, hpU, hyp⟩
      · rw [if_neg hcs]
        obtain ⟨ih1, ih2⟩ := ih
          (m.map (fun q => if q.1 = e then (e, (removeTops T e p0.2 em cm).1) else q))
          _ _ hU2 (keys_nodup_update m e _ hm)
        refine ⟨fun x => ?_, fun y => ?_⟩
        · rw [ih1 x, hrem1 x]
          simp only [List.mem_cons]
          constructor
          · rintro ((hx | ⟨rfl, ht⟩) | ⟨hxU, hex⟩)
            · exact Or.inl hx
            · exact Or.inr ⟨Or.inl rfl, (hkey (fun v => ∃ t ∈ T, t ∈ v)).mpr ht⟩
            · have hxe : ¬((e : String) = x) := fun h => heU (h ▸ hxU)
              obtain ⟨p, hp, hpx, hpT⟩ := (exists_entry_update m e _
                (fun s => s = x) (fun v => ∃ t ∈ T, t ∈ v) hxe).mp hex
              exact Or.inr ⟨Or.inr hxU, p, hp, hpx, hpT⟩
          · rintro (hx | ⟨rfl | hxU, p, hp, hpx, hpT⟩)
            · exact Or.inl (Or.inl hx)
            · exact Or.inl (Or.inr ⟨rfl,
                (hkey (fun v => ∃ t ∈ T, t ∈ v)).mp ⟨p, hp, hpx, hpT⟩⟩)
            · have hxe : ¬((e : String) = x) := fun h => heU (h ▸ hxU)
              exact Or.inr ⟨hxU, (exists_entry_update m e _
                (fun s => s = x) (fun v => ∃ t ∈ T, t ∈ v) hxe).mpr ⟨p, hp, hpx, hpT⟩⟩
        · rw [ih2 y, hrem2 y]
          simp only [List.mem_cons]
          constructor
          · rintro ((hy | ⟨hyT, hyp⟩) | ⟨hyT, hex⟩)
            · exact Or.inl hy
            · exact Or.inr ⟨hyT, p0, hp0m, Or.inl hp0e, hyp⟩
            · obtain ⟨p, hp, hpU, hyp⟩ := (exists_entry_update m e _
                (fun s => s ∈ U) (fun v => y ∈ v) heU).mp hex
              exact Or.inr ⟨hyT, p, hp, Or.inr hpU, hyp⟩
          · rintro (hy | ⟨hyT, p, hp, hpe | hpU, hyp⟩)
            · exact Or.inl (Or.inl hy)
            · have hpp0 : p = p0 := keys_nodup_unique hm hp hp0m (by rw [hpe, hp0e])
              exact Or.inl (Or.inr ⟨hyT, hpp0 ▸ hyp⟩)
            · exact Or.inr ⟨hyT, (exists_entry_update m e _
                (fun s => s ∈ U) (fun v => y ∈ v) heU).mpr ⟨p, hp, hpU, hyp⟩⟩

theorem scopedLoop_nodup (T U : List String) (m : List (String × List String))
    (em cm : List String) (h1 : em.Nodup) (h2 : cm.Nodup) :
    (scopedLoop T U m em cm).2.1.Nodup ∧ (scopedLoop T U m em cm).2.2.Nodup := by
  induction U generalizing m em cm with
  | nil => exact ⟨h1, h2⟩
  | cons e U ih =>
    cases hfind : m.find? (fun p => p.1 = e) with
    | none =>
      rw [scopedLoop_cons_none T e U m em cm hfind]
      exact ih m em cm h1 h2
    | some p0 =>
      rw [scopedLoop_cons_some T e U m em cm p0 hfind]
      have hrn := removeTops_nodup T e p0.2 em cm h1 h2
      by_cases hcs : (removeTops T e p0.2 em cm).1.isEmpty
      · rw [if_pos hcs]
        exact ih _ _ _ hrn.1 hrn.2
      · rw [if_neg hcs]
        exact ih _ _ _ hrn.1 hrn.2

theorem scopedLoop_map_nil (T U : List String) (m : List (String × List String))
    (em cm : List String)
    (hkeys : ∀ p ∈ m, p.1 ∈ U)
    (hvals : ∀ p ∈ m, p.2.filter (fun x => x ∉ T) = []) :
    (scopedLoop T U m em cm).1 = [] := by
  induction U generalizing m em cm with
  | nil =>
    cases m with
    | nil => rfl
    | cons p m => exact absurd (hkeys p (List.mem_cons_self p m)) (List.not_mem_nil p.1)
  | cons e U ih =>
    cases hfind : m.find? (fun p => p.1 = e) with
    | none =>
      rw [scopedLoop_cons_none T e U m em cm hfind]
      apply ih
      · intro p hp
        have h3 := List.find?_eq_none.mp hfind p hp
        have hpe : p.1 ≠ e := by simpa using h3
        rcases List.mem_cons.mp (hkeys p hp) with h | h
        · exact absurd h hpe
        · exact h
      · exact hvals
    | some p0 =>
      have hcs : (removeTops T e p0.2 em cm).1.isEmpty = true := by
        obtain ⟨_, _, h3⟩ := removeTops_spec T e p0.2 em cm
        rw [h3, hvals p0 (List.mem_of_find?_eq_some hfind)]
        rfl
      rw [scopedLoop_cons_some T e U m em cm p0 hfind, if_pos hcs]
      apply ih
      · intro p hp
        have hp2 := List.mem_filter.mp hp
        have hpe : p.1 ≠ e := by simpa using hp2.2
        rcases List.mem_cons.mp (hkeys p hp2.1) with h | h
        · exact absurd h hpe
        · exact h
      · intro p hp
        exact hvals p (List.mem_filter.mp hp).1

end SubMgr

namespace SubMgr

theorem unsubscribeStep_mem (U T : List String) (ch : Option String) (g : Bool)
    (hU : U.Nodup) (ns : List Subscription) (em cm : List String)
    (sub : Subscription) :
    (∀ x, x ∈ (unsubscribeStep U T ch g (ns, em, cm) sub).2.1 ↔
      x ∈ em ∨ (x ∈ U ∧ subEvMatch g ch T sub x)) ∧
    (∀ y, y ∈ (unsubscribeStep U T ch g (ns, em, cm) sub).2.2 ↔
      y ∈ cm ∨ (g = false ∧ y ∈ T ∧ subCtxMatch ch U sub y)) := by
  by_cases hch : sub.channel = ch
  · by_cases hint : (inter sub.eventNames U).isEmpty = true
    · have hemp : ∀ x ∈ sub.eventNames, x ∉ U := (inter_isEmpty_iff _ _).mp hint
      have hstep : unsubscribeStep U T ch g (ns, em, cm) sub = (ns ++ [sub], em, cm) := by
        simp [unsubscribeStep, hch, hint]
      rw [hstep]
      refine ⟨fun x => ?_, fun y => ?_⟩
      · constructor
        · exact fun h => Or.inl h
        · rintro (h | ⟨hxU, _, _, hxe⟩)
          · exact h
          · exact absurd hxU (hemp x hxe)
      · constructor
        · exact fun h => Or.inl h
        · rintro (h | ⟨_, _, _, _, _, e2, he2U, he2s⟩)
          · exact h
          · exact absurd he2U (hemp e2 he2s)
    · cases g with
      | true =>
        by_cases htop : sub.topLevelTraversableIds.isEmpty = true
        · have htopnil : sub.topLevelTraversableIds = [] := List.isEmpty_iff.mp htop
          have hstep : (unsubscribeStep U T ch true (ns, em, cm) sub).2 =
              (U.foldl (fun em2 e => if e ∈ sub.eventNames then setInsert e em2 else em2)
                em, cm) := by
            simp [unsubscribeStep, hch, hint, htop]
            split <;> rfl
          refine ⟨fun x => ?_, fun y => ?_⟩
          · have hstep1 := congrArg Prod.fst hstep
            simp only at hstep1
            rw [show (unsubscribeStep U T ch true (ns, em, cm) sub).2.1 =
              U.foldl (fun em2 e => if e ∈ sub.eventNames then setInsert e em2 else em2)
                em from hstep1]
            rw [foldl_insertIf_mem]
            constructor
            · rintro (h | ⟨h1, h2⟩)
              · exact Or.inl h
              · exact Or.inr ⟨h1, hch, by simp [htopnil], h2⟩
            · rintro (h | ⟨h1, _, _, hxe⟩)
              · exact Or.inl h
              · exact Or.inr ⟨h1, hxe⟩
          · have hstep2 := congrArg Prod.snd hstep
            simp only at hstep2
            rw [show (unsubscribeStep U T ch true (ns, em, cm) sub).2.2 = cm from hstep2]
            constructor
            · exact fun h => Or.inl h
            · rintro (h | ⟨hg, _⟩)
              · exact h
              · exact Bool.noConfusion hg
        · have hstep : unsubscribeStep U T ch true (ns, em, cm) sub =
              (ns ++ [sub], em, cm) := by
            simp [unsubscribeStep, hch, hint, htop]
          rw [hstep]
          refine ⟨fun x => ?_, fun y => ?_⟩
          · constructor
            · exact fun h => Or.inl h
            · rintro (h | ⟨_, _, hcond, _⟩)
              · exact h
              · rw [if_pos rfl] at hcond
                exact (htop (by rw [hcond]; rfl)).elim
          · constructor
            · exact fun h => Or.inl h
            · rintro (h | ⟨hg, _⟩)
              · exact h
              · exact Bool.noConfusion hg
      | false =>
        by_cases htop : sub.topLevelTraversableIds.isEmpty = true
        · have htopnil : sub.topLevelTraversableIds = [] := List.isEmpty_iff.mp htop
          have hstep : unsubscribeStep U T ch false (ns, em, cm) sub =
              (ns ++ [sub], em, cm) := by
            simp [unsubscribeStep, hch, hint, htop]
          rw [hstep]
          refine ⟨fun x => ?_, fun y => ?_⟩
          · constructor
            · exact fun h => Or.inl h
            · rintro (h | ⟨_, _, hcond, _⟩)
              · exact h
              · rw [if_neg (by simp)] at hcond
                exact (hcond.1 htopnil).elim
          · constructor
            · exact fun h => Or.inl h
            · rintro (h | ⟨_, _, _, htne, _⟩)
              · exact h
              · exact (htne htopnil).elim
        · have htopne : sub.topLevelTraversableIds ≠ [] := by
            intro hnil
            exact htop (by rw [hnil]; rfl)
          have hstep : (unsubscribeStep U T ch false (ns, em, cm) sub).2 =
              (scopedLoop T U
                (sub.eventNames.foldl
                  (fun m e => mapSet e sub.topLevelTraversableIds m) []) em cm).2 := by
            simp [unsubscribeStep, hch, hint, htop]
          obtain ⟨hb1, hb2, hb3⟩ := buildMap_aux sub.topLevelTraversableIds
            sub.eventNames [] (by simp) (by simp)
          obtain ⟨hs1, hs2⟩ := scopedLoop_spec T U
            (sub.eventNames.foldl
              (fun m e => mapSet e sub.topLevelTraversableIds m) []) em cm hU hb1
          refine ⟨fun x => ?_, fun y => ?_⟩
          · have hstep1 := congrArg Prod.fst hstep
            simp only at hstep1
            rw [show (unsubscribeStep U T ch false (ns, em, cm) sub).2.1 =
              (scopedLoop T U
                (sub.eventNames.foldl
                  (fun m e => mapSet e sub.topLevelTraversableIds m) []) em cm).2.1
              from hstep1]
            rw [hs1 x]
            constructor
            · rintro (h | ⟨hxU, p, hp, hpx, hpT⟩)
              · exact Or.inl h
              · refine Or.inr ⟨hxU, hch, ⟨htopne, ?_⟩, ?_⟩
                · rw [← hb2 p hp]
                  exact hpT
                · have h3 := (hb3 x).mp ⟨p, hp, hpx⟩
                  simpa using h3
            · rintro (h | ⟨hxU, _, hcond, hxe⟩)
              · exact Or.inl h
              · rw [if_neg (by simp)] at hcond
                obtain ⟨p, hp, hpx⟩ := (hb3 x).mpr (Or.inr hxe)
                refine Or.inr ⟨hxU, p, hp, hpx, ?_⟩
                rw [hb2 p hp]
                exact hcond.2
          · have hstep2 := congrArg Prod.snd hstep
            simp only at hstep2
            rw [show (unsubscribeStep U T ch false (ns, em, cm) sub).2.2 =
              (scopedLoop T U
                (sub.eventNames.foldl
                  (fun m e => mapSet e sub.topLevelTraversableIds m) []) em cm).2.2
              from hstep2]
            rw [hs2 y]
            constructor
            · rintro (h | ⟨hyT, p, hp, hpU, hyp⟩)
              · exact Or.inl h
              · refine Or.inr ⟨rfl, hyT, hch, htopne, ?_, p.1, hpU, ?_⟩
                · rw [← hb2 p hp]
                  exact hyp
                · have h3 := (hb3 p.1).mp ⟨p, hp, rfl⟩
                  simpa using h3
            · rintro (h | ⟨_, hyT, _, _, hyt, e2, he2U, he2s⟩)
              · exact Or.inl h
              · obtain ⟨p, hp, hpe2⟩ := (hb3 e2).mpr (Or.inr he2s)
                refine Or.inr ⟨hyT, p, hp, ?_, ?_⟩
                · rw [hpe2]
                  exact he2U
                · rw [hb2 p hp]
                  exact hyt
  · have hstep : unsubscribeStep U T ch g (ns, em, cm) sub = (ns ++ [sub], em, cm) := by
      simp [unsubscribeStep, hch]
    rw [hstep]
    refine ⟨fun x => ?_, fun y => ?_⟩
    · constructor
      · exact fun h => Or.inl h
      · rintro (h | ⟨_, hc, _⟩)
        · exact h
        · exact (hch hc).elim
    · constructor
      · exact fun h => Or.inl h
      · rintro (h | ⟨_, _, hc, _⟩)
        · exact h
        · exact (hch hc).elim

end SubMgr

namespace SubMgr

theorem unsubscribeStep_nodup (U T : List String) (ch : Option String) (g : Bool)
    (acc : List Subscription × List String × List String) (sub : Subscription)
    (h1 : acc.2.1.Nodup) (h2 : acc.2.2.Nodup) :
    (unsubscribeStep U T ch g acc sub).2.1.Nodup ∧
    (unsubscribeStep U T ch g acc sub).2.2.Nodup := by
  obtain ⟨ns, em, cm⟩ := acc
  simp only [unsubscribeStep]
  split
  · exact ⟨h1, h2⟩
  · split
    · exact ⟨h1, h2⟩
    · split
      · split
        · exact ⟨h1, h2⟩
        · split
          · exact ⟨foldl_insertIf_nodup _ _ _ h1, h2⟩
          · exact ⟨foldl_insertIf_nodup _ _ _ h1, h2⟩
      · split
        · exact ⟨h1, h2⟩
        · exact scopedLoop_nodup T U _ em cm h1 h2

theorem unsubscribeFold_mem (U T : List String) (ch : Option String) (g : Bool)
    (hU : U.Nodup) (subs : List Subscription) :
    ∀ acc : List Subscription × List String × List String,
    (∀ x, x ∈ (subs.foldl (unsubscribeStep U T ch g) acc).2.1 ↔
      x ∈ acc.2.1 ∨ (x ∈ U ∧ ∃ sub ∈ subs, subEvMatch g ch T sub x)) ∧
    (∀ y, y ∈ (subs.foldl (unsubscribeStep U T ch g) acc).2.2 ↔
      y ∈ acc.2.2 ∨ (g = false ∧ y ∈ T ∧ ∃ sub ∈ subs, subCtxMatch ch U sub y)) := by
  induction subs with
  | nil => exact fun acc => ⟨fun x => by simp, fun y => by simp⟩
  | cons sub subs ih =>
    intro acc
    obtain ⟨ns, em, cm⟩ := acc
    simp only [List.foldl_cons]
    obtain ⟨ihx, ihy⟩ := ih (unsubscribeStep U T ch g (ns, em, cm) sub)
    obtain ⟨hsx, hsy⟩ := unsubscribeStep_mem U T ch g hU ns em cm sub
    refine ⟨fun x => ?_, fun y => ?_⟩
    · rw [ihx x, hsx x]
      simp only [List.mem_cons]
      constructor
      · rintro ((h | ⟨h1, h2⟩) | ⟨h1, s, hs, h2⟩)
        · exact Or.inl h
        · exact Or.inr ⟨h1, sub, Or.inl rfl, h2⟩
        · exact Or.inr ⟨h1, s, Or.inr hs, h2⟩
      · rintro (h | ⟨h1, s, hs | hs, h2⟩)
        · exact Or.inl (Or.inl h)
        · exact Or.inl (Or.inr ⟨h1, hs ▸ h2⟩)
        · exact Or.inr ⟨h1, s, hs, h2⟩
    · rw [ihy y, hsy y]
      simp only [List.mem_cons]
      constructor
      · rintro ((h | ⟨hg, h1, h2⟩) | ⟨hg, h1, s, hs, h2⟩)
        · exact Or.inl h
        · exact Or.inr ⟨hg, h1, sub, Or.inl rfl, h2⟩
        · exact Or.inr ⟨hg, h1, s, Or.inr hs, h2⟩
      · rintro (h | ⟨hg, h1, s, hs | hs, h2⟩)
        · exact Or.inl (Or.inl h)
        · exact Or.inl (Or.inr ⟨hg, h1, hs ▸ h2⟩)
        · exact Or.inr ⟨hg, h1, s, hs, h2⟩

theorem unsubscribeFold_nodup (U T : List String) (ch : Option String) (g : Bool)
    (subs : List Subscription) :
    ∀ acc : List Subscription × List String × List String,
    acc.2.1.Nodup → acc.2.2.Nodup →
    (subs.foldl (unsubscribeStep U T ch g) acc).2.1.Nodup ∧
    (subs.foldl (unsubscribeStep U T ch g) acc).2.2.Nodup := by
  induction subs with
  | nil => exact fun acc h1 h2 => ⟨h1, h2⟩
  | cons sub subs ih =>
    intro acc h1 h2
    simp only [List.foldl_cons]
    have hs := unsubscribeStep_nodup U T ch g acc sub h1 h2
    exact ih _ hs.1 hs.2

theorem subEvMatch_spec (subs : List Subscription) (ch : Option String)
    (T : List String) (x : String) :
    (∃ sub ∈ subs, subEvMatch T.isEmpty ch T sub x) ↔
      specEventMatched subs ch T x := by
  by_cases hT : T = []
  · subst hT
    simp only [specEventMatched, if_pos rfl, List.isEmpty_nil]
    unfold specEventMatchedGlobal subEvMatch
    constructor
    · rintro ⟨s, hs, h1, h2, h3⟩
      rw [if_pos rfl] at h2
      exact ⟨s, hs, h1, h2, h3⟩
    · rintro ⟨s, hs, h1, h2, h3⟩
      exact ⟨s, hs, h1, by rw [if_pos rfl]; exact h2, h3⟩
  · have hTe : T.isEmpty = false := by
      cases T with
      | nil => exact absurd rfl hT
      | cons a l => rfl
    rw [hTe]
    simp only [specEventMatched, if_neg hT]
    unfold specEventMatchedScoped subEvMatch
    constructor
    · rintro ⟨s, hs, h1, h2, h3⟩
      rw [if_neg (by simp)] at h2
      exact ⟨s, hs, h1, h2.1, h3, h2.2⟩
    · rintro ⟨s, hs, h1, h2, h3, h4⟩
      exact ⟨s, hs, h1, by rw [if_neg (by simp)]; exact ⟨h2, h4⟩, h3⟩

theorem subCtxMatch_spec (subs : List Subscription) (ch : Option String)
    (U : List String) (y : String) :
    (∃ sub ∈ subs, subCtxMatch ch U sub y) ↔ specContextMatched subs ch U y :=
  Iff.rfl

theorem unsubscribe_reduce (env : ContextStore) (st : ManagerState)
    (evs ctxs : List String) (ch : Option String)
    (hfind : ctxs.find? (fun c => ¬env.known c) = none)
    (tops : List String) (hres : resolveTopLevels env ctxs = .ok tops) :
    unsubscribe env st evs ctxs ch =
      (if ¬setEqual (st.subscriptions.foldl
            (unsubscribeStep (dedup (unrollEvents evs)) (dedup tops) ch
              (dedup tops).isEmpty) ([], [], [])).2.1 (dedup (unrollEvents evs)) then
        .err (.invalidArgument "No subscription found")
      else if ¬(dedup tops).isEmpty = true ∧
          ¬setEqual (st.subscriptions.foldl
            (unsubscribeStep (dedup (unrollEvents evs)) (dedup tops) ch
              (dedup tops).isEmpty) ([], [], [])).2.2 (dedup tops) then
        .err (.invalidArgument "No subscription found")
      else .ok { subscriptions := (st.subscriptions.foldl
            (unsubscribeStep (dedup (unrollEvents evs)) (dedup tops) ch
              (dedup tops).isEmpty) ([], [], [])).1 }) := by
  simp only [unsubscribe, hfind, hres]

end SubMgr

namespace SubMgr

theorem unsubscribe_checks (subs : List Subscription) (ch : Option String)
    (U T : List String) (hU : U.Nodup) (hT : T.Nodup) :
    (setEqual (subs.foldl (unsubscribeStep U T ch T.isEmpty) ([], [], [])).2.1 U = true ↔
      ∀ e ∈ U, specEventMatched subs ch T e) ∧
    (T.isEmpty = false →
      (setEqual (subs.foldl (unsubscribeStep U T ch T.isEmpty) ([], [], [])).2.2 T = true ↔
        ∀ t ∈ T, specContextMatched subs ch U t)) := by
  obtain ⟨hfx, hfy⟩ := unsubscribeFold_mem U T ch T.isEmpty hU subs ([], [], [])
  obtain ⟨hnx, hny⟩ := unsubscribeFold_nodup U T ch T.isEmpty subs ([], [], [])
    (by simp) (by simp)
  constructor
  · rw [setEqual_true_iff _ _ hnx hU]
    constructor
    · intro h e he
      rcases (hfx e).mp ((h e).mpr he) with h0 | ⟨_, hex⟩
      · exact absurd h0 (List.not_mem_nil e)
      · exact (subEvMatch_spec subs ch T e).mp hex
    · intro h e
      rw [hfx e]
      constructor
      · rintro (h0 | ⟨he, _⟩)
        · exact absurd h0 (List.not_mem_nil e)
        · exact he
      · intro he
        exact Or.inr ⟨he, (subEvMatch_spec subs ch T e).mpr (h e he)⟩
  · intro hg
    rw [setEqual_true_iff _ _ hny hT]
    constructor
    · intro h t ht
      rcases (hfy t).mp ((h t).mpr ht) with h0 | ⟨_, _, hex⟩
      · exact absurd h0 (List.not_mem_nil t)
      · exact (subCtxMatch_spec subs ch U t).mp hex
    · intro h t
      rw [hfy t]
      constructor
      · rintro (h0 | ⟨_, ht, _⟩)
        · exact absurd h0 (List.not_mem_nil t)
        · exact ht
      · intro ht
        exact Or.inr ⟨hg, ht, (subCtxMatch_spec subs ch U t).mpr (h t ht)⟩

/-- C3: when every requested context id is known and resolves to a non-empty
top-level id, `unsubscribe` throws `invalid argument: No subscription found`
exactly when some requested (module-unrolled) event, or — for a scoped
unsubscribe — some requested resolved top-level context, matches no stored
subscription on the channel; and whenever it throws, the error is that
invalid-argument error and the stored subscription list is left unchanged
(the rebuilt list is committed only when both match checks pass). -/
theorem c3_unsubscribe_atomic_validation (env : ContextStore) (st : ManagerState)
    (evs ctxs : List String) (ch : Option String)
    (hknown : ∀ c ∈ ctxs, env.known c = true)
    (htop : ∀ c ∈ ctxs, env.topLevelOf c ≠ "") :
    (unsubscribe env st evs ctxs ch =
        .err (.invalidArgument "No subscription found") ↔
      (∃ e ∈ dedup (unrollEvents evs),
        ¬specEventMatched st.subscriptions ch (resolvedTopLevels env ctxs) e) ∨
      (resolvedTopLevels env ctxs ≠ [] ∧
        ∃ t ∈ resolvedTopLevels env ctxs,
          ¬specContextMatched st.subscriptions ch (dedup (unrollEvents evs)) t)) ∧
    (∀ er, unsubscribe env st evs ctxs ch = .err er →
      er = .invalidArgument "No subscription found" ∧
      applyUnsubscribe env st evs ctxs ch = st) := by
  have hfind : ctxs.find? (fun c => ¬env.known c) = none := by
    rw [List.find?_eq_none]
    intro c hc
    simp [hknown c hc]
  have hres := resolveTopLevels_ok env ctxs htop
  have hred := unsubscribe_reduce env st evs ctxs ch hfind (ctxs.map env.topLevelOf) hres
  obtain ⟨hA, hB⟩ := unsubscribe_checks st.subscriptions ch (dedup (unrollEvents evs))
    (dedup (ctxs.map env.topLevelOf)) (nodup_dedup _) (nodup_dedup _)
  constructor
  · rw [hred]
    simp only [resolvedTopLevels]
    generalize hF : st.subscriptions.foldl
      (unsubscribeStep (dedup (unrollEvents evs)) (dedup (ctxs.map env.topLevelOf)) ch
        (dedup (ctxs.map env.topLevelOf)).isEmpty) ([], [], []) = F
    rw [hF] at hA hB
    by_cases hev : setEqual F.2.1 (dedup (unrollEvents evs)) = true
    · rw [if_neg (not_not_intro hev)]
      cases hgb : (dedup (ctxs.map env.topLevelOf)).isEmpty with
      | true =>
        rw [if_neg (fun h => h.1 rfl)]
        constructor
        · intro h
          exact SubRes.noConfusion h
        · rintro (⟨e, he, hne⟩ | ⟨hTne, _⟩)
          · exact absurd (hA.mp hev e he) hne
          · exact absurd (List.isEmpty_iff.mp hgb) hTne
      | false =>
        by_cases hctx : setEqual F.2.2 (dedup (ctxs.map env.topLevelOf)) = true
        · rw [if_neg (fun h => h.2 hctx)]
          constructor
          · intro h
            exact SubRes.noConfusion h
          · rintro (⟨e, he, hne⟩ | ⟨_, t, ht, hnt⟩)
            · exact absurd (hA.mp hev e he) hne
            · exact absurd ((hB hgb).mp hctx t ht) hnt
        · rw [if_pos ⟨fun h => Bool.noConfusion h, hctx⟩]
          constructor
          · intro _
            refine Or.inr ⟨?_, ?_⟩
            · intro hnil
              rw [hnil] at hgb
              exact Bool.noConfusion hgb
            · have h2 : ¬∀ t ∈ dedup (ctxs.map env.topLevelOf),
                  specContextMatched st.subscriptions ch (dedup (unrollEvents evs)) t :=
                fun hall => hctx ((hB hgb).mpr hall)
              push_neg at h2
              exact h2
          · intro _
            rfl
    · rw [if_pos hev]
      constructor
      · intro _
        refine Or.inl ?_
        have h2 : ¬∀ e ∈ dedup (unrollEvents evs),
            specEventMatched st.subscriptions ch (dedup (ctxs.map env.topLevelOf)) e :=
          fun hall => hev (hA.mpr hall)
        push_neg at h2
        exact h2
      · intro _
        rfl
  · intro er her
    constructor
    · rw [hred] at her
      split at her
      · injection her with h
        exact h.symm
      · split at her
        · injection her with h
          exact h.symm
        · cases her
    · unfold applyUnsubscribe
      rw [her]

/-- Witness for C3: an empty manager, one requested event, no contexts —
the event matches nothing, so `unsubscribe` throws invalid argument. -/
theorem c3_unsubscribe_atomic_validation_witness :
    unsubscribe ⟨fun _ => true, fun c => c⟩ ⟨[]⟩ ["log.entryAdded"] [] none =
      .err (.invalidArgument "No subscription found") :=
  ((c3_unsubscribe_atomic_validation ⟨fun _ => true, fun c => c⟩ ⟨[]⟩
      ["log.entryAdded"] [] none (by simp) (by simp)).1).mpr
    (Or.inl ⟨"log.entryAdded", by decide,
      by simp [specEventMatched, resolvedTopLevels, dedup, specEventMatchedGlobal]⟩)

end SubMgr

namespace SubMgr

theorem unsubscribeStep_copy (U T : List String) (ch : Option String) (g : Bool)
    (ns : List Subscription) (em cm : List String) (sub : Subscription)
    (h : sub.channel ≠ ch ∨ (inter sub.eventNames U).isEmpty = true) :
    unsubscribeStep U T ch g (ns, em, cm) sub = (ns ++ [sub], em, cm) := by
  rcases h with h | h
  · simp [unsubscribeStep, h]
  · by_cases hch : sub.channel = ch
    · simp [unsubscribeStep, hch, h]
    · simp [unsubscribeStep, hch]

theorem unsubscribeFold_copy (U T : List String) (ch : Option String) (g : Bool)
    (subs : List Subscription)
    (h : ∀ sub ∈ subs, sub.channel ≠ ch ∨ (inter sub.eventNames U).isEmpty = true) :
    ∀ ns em cm, subs.foldl (unsubscribeStep U T ch g) (ns, em, cm) =
      (ns ++ subs, em, cm) := by
  induction subs with
  | nil =>
    intro ns em cm
    simp
  | cons sub subs ih =>
    intro ns em cm
    simp only [List.foldl_cons]
    rw [unsubscribeStep_copy U T ch g ns em cm sub (h sub (by simp))]
    rw [ih (fun s hs => h s (by simp [hs])) (ns ++ [sub]) em cm]
    simp

theorem unsubscribe_after_new (old : List Subscription) (ch : Option String)
    (U T : List String) (newId : String)
    (hU : U.Nodup) (hUne : U ≠ []) (hT : T.Nodup)
    (hcopy : ∀ sub ∈ old, sub.channel = ch → (inter sub.eventNames U).isEmpty = true) :
    ((old ++ [Subscription.mk newId T U ch]).foldl
      (unsubscribeStep U T ch T.isEmpty) ([], [], [])).1 = old ∧
    setEqual ((old ++ [Subscription.mk newId T U ch]).foldl
      (unsubscribeStep U T ch T.isEmpty) ([], [], [])).2.1 U = true ∧
    setEqual ((old ++ [Subscription.mk newId T U ch]).foldl
      (unsubscribeStep U T ch T.isEmpty) ([], [], [])).2.2 T = true := by
  have hcopy2 : ∀ sub ∈ old,
      sub.channel ≠ ch ∨ (inter sub.eventNames U).isEmpty = true := by
    intro s hs
    by_cases hsc : s.channel = ch
    · exact Or.inr (hcopy s hs hsc)
    · exact Or.inl hsc
  rw [List.foldl_append, unsubscribeFold_copy U T ch T.isEmpty old hcopy2 [] [] []]
  simp only [List.nil_append, List.foldl_cons, List.foldl_nil]
  have hintne : ¬((inter U U).isEmpty = true) := by
    rw [inter_isEmpty_iff]
    intro hall
    cases U with
    | nil => exact hUne rfl
    | cons u U2 => exact hall u (List.mem_cons_self u U2) (List.mem_cons_self u U2)
  cases T with
  | nil =>
    have hrem : U.filter (fun e => e ∉ U) = [] := by
      rw [List.filter_eq_nil_iff]
      simp
    have hstep : unsubscribeStep U [] ch ([] : List String).isEmpty (old, [], [])
        (Subscription.mk newId [] U ch) =
        (old, U.foldl (fun em e => if e ∈ U then setInsert e em else em) [], []) := by
      simp [unsubscribeStep, hintne, hrem]
    rw [hstep]
    refine ⟨rfl, ?_, rfl⟩
    rw [setEqual_true_iff _ _ (foldl_insertIf_nodup U U [] (by simp)) hU]
    intro x
    rw [foldl_insertIf_mem]
    simp
  | cons t T2 =>
    obtain ⟨hb1, hb2, hb3⟩ := buildMap_aux (t :: T2) U [] (by simp) (by simp)
    have hkeys : ∀ p ∈ U.foldl (fun m e => mapSet e (t :: T2) m) [], p.1 ∈ U := by
      intro p hp
      have h5 := (hb3 p.1).mp ⟨p, hp, rfl⟩
      simpa using h5
    have hvals : ∀ p ∈ U.foldl (fun m e => mapSet e (t :: T2) m) [],
        p.2.filter (fun x => x ∉ (t :: T2)) = [] := by
      intro p hp
      rw [hb2 p hp, List.filter_eq_nil_iff]
      simp
      exact fun a ha _ => ha
    have hM := scopedLoop_map_nil (t :: T2) U
      (U.foldl (fun m e => mapSet e (t :: T2) m) []) [] [] hkeys hvals
    obtain ⟨hs1, hs2⟩ := scopedLoop_spec (t :: T2) U
      (U.foldl (fun m e => mapSet e (t :: T2) m) []) [] [] hU hb1
    obtain ⟨hn1, hn2⟩ := scopedLoop_nodup (t :: T2) U
      (U.foldl (fun m e => mapSet e (t :: T2) m) []) [] [] (by simp) (by simp)
    have hstep : unsubscribeStep U (t :: T2) ch (t :: T2).isEmpty (old, [], [])
        (Subscription.mk newId (t :: T2) U ch) =
        (old ++ (scopedLoop (t :: T2) U
            (U.foldl (fun m e => mapSet e (t :: T2) m) []) [] []).1.map
          (fun p => Subscription.mk newId p.2 [p.1] ch),
         (scopedLoop (t :: T2) U
            (U.foldl (fun m e => mapSet e (t :: T2) m) []) [] []).2.1,
         (scopedLoop (t :: T2) U
            (U.foldl (fun m e => mapSet e (t :: T2) m) []) [] []).2.2) := by
      simp [unsubscribeStep, hintne]
    rw [hstep, hM]
    refine ⟨by simp, ?_, ?_⟩
    · rw [setEqual_true_iff _ _ hn1 hU]
      intro x
      rw [hs1 x]
      constructor
      · rintro (h0 | ⟨hxU, _⟩)
        · exact absurd h0 (List.not_mem_nil x)
        · exact hxU
      · intro hxU
        obtain ⟨p, hp, hpx⟩ := (hb3 x).mpr (Or.inr hxU)
        refine Or.inr ⟨hxU, p, hp, hpx, t, List.mem_cons_self t T2, ?_⟩
        rw [hb2 p hp]
        exact List.mem_cons_self t T2
    · rw [setEqual_true_iff _ _ hn2 hT]
      intro y
      rw [hs2 y]
      constructor
      · rintro (h0 | ⟨hyT, _⟩)
        · exact absurd h0 (List.not_mem_nil y)
        · exact hyT
      · intro hyT
        cases U with
        | nil => exact absurd rfl hUne
        | cons u U2 =>
          obtain ⟨p, hp, hpu⟩ := (hb3 u).mpr (Or.inr (List.mem_cons_self u U2))
          refine Or.inr ⟨hyT, p, hp, ?_, ?_⟩
          · rw [hpu]
            exact List.mem_cons_self u U2
          · rw [hb2 p hp]
            exact hyT

end SubMgr

namespace SubMgr

/-- C4 (amended): a subscribe/unsubscribe pair with identical arguments
restores the exact previous subscription list, provided the requested
event set is non-empty, the context ids pass validation, and no existing
subscription on the same channel shares any of the requested unrolled
events (otherwise `unsubscribe` also strips those events from the older
subscriptions and the capability set shrinks). -/
theorem c4_subscribe_unsubscribe_roundtrip (env : ContextStore) (st : ManagerState)
    (evs ctxs : List String) (ch : Option String) (newId : String)
    (h1 : dedup (unrollEvents evs) ≠ [])
    (h2 : ∀ c ∈ ctxs, env.known c = true)
    (h3 : ∀ c ∈ ctxs, env.topLevelOf c ≠ "")
    (h4 : ∀ sub ∈ st.subscriptions, sub.channel = ch →
      (inter sub.eventNames (dedup (unrollEvents evs))).isEmpty = true) :
    ∀ st2 newSub, subscribe env st evs ctxs ch newId = .ok st2 newSub →
      unsubscribe env st2 evs ctxs ch = .ok st := by
  intro st2 newSub hsub
  have hres := resolveTopLevels_ok env ctxs h3
  have hfind : ctxs.find? (fun c => ¬env.known c) = none := by
    rw [List.find?_eq_none]
    intro c hc
    simp [h2 c hc]
  simp only [subscribe, hres] at hsub
  injection hsub with hst hnew
  have hst2sub : st2.subscriptions = st.subscriptions ++
      [Subscription.mk newId (dedup (ctxs.map env.topLevelOf))
        (dedup (unrollEvents evs)) ch] :=
    congrArg ManagerState.subscriptions hst.symm
  have hred := unsubscribe_reduce env st2 evs ctxs ch hfind (ctxs.map env.topLevelOf) hres
  rw [hred, hst2sub]
  obtain ⟨hm1, hm2, hm3⟩ := unsubscribe_after_new st.subscriptions ch
    (dedup (unrollEvents evs)) (dedup (ctxs.map env.topLevelOf)) newId
    (nodup_dedup _) h1 (nodup_dedup _) h4
  rw [if_neg (not_not_intro hm2), if_neg (fun h => h.2 hm3), hm1]

/-- C4 counterexample to the original claim: with an existing subscription
for the same event on the same channel, subscribing again and then
unsubscribing with identical arguments wipes both subscriptions, so the
final capability set is empty while the initial one was not. -/
theorem c4_subscribe_unsubscribe_counterexample :
    subscribe ⟨fun _ => false, fun c => c⟩
        ⟨[Subscription.mk "A" [] ["log.entryAdded"] (some "ch")]⟩
        ["log.entryAdded"] [] (some "ch") "B" =
      .ok ⟨[Subscription.mk "A" [] ["log.entryAdded"] (some "ch"),
            Subscription.mk "B" [] ["log.entryAdded"] (some "ch")]⟩
        (Subscription.mk "B" [] ["log.entryAdded"] (some "ch")) ∧
    unsubscribe ⟨fun _ => false, fun c => c⟩
        ⟨[Subscription.mk "A" [] ["log.entryAdded"] (some "ch"),
          Subscription.mk "B" [] ["log.entryAdded"] (some "ch")]⟩
        ["log.entryAdded"] [] (some "ch") = .ok ⟨[]⟩ ∧
    capSet ([] : List Subscription) ≠
      capSet [Subscription.mk "A" [] ["log.entryAdded"] (some "ch")] :=
  ⟨rfl, rfl, by decide⟩

/-- Witness for the amended C4 at a concrete state: the older subscription
is on the same channel but for a disjoint event, so the round trip
restores it exactly. -/
theorem c4_subscribe_unsubscribe_roundtrip_witness :
    unsubscribe ⟨fun _ => true, fun c => c⟩
        ⟨[Subscription.mk "A" [] ["script.message"] (some "ch"),
          Subscription.mk "B" ["c1"] ["log.entryAdded"] (some "ch")]⟩
        ["log.entryAdded"] ["c1"] (some "ch") =
      .ok ⟨[Subscription.mk "A" [] ["script.message"] (some "ch")]⟩ :=
  c4_subscribe_unsubscribe_roundtrip ⟨fun _ => true, fun c => c⟩
    ⟨[Subscription.mk "A" [] ["script.message"] (some "ch")]⟩ ["log.entryAdded"]
    ["c1"] (some "ch") "B" (by decide) (by decide) (by decide) (by decide)
    ⟨[Subscription.mk "A" [] ["script.message"] (some "ch"),
      Subscription.mk "B" ["c1"] ["log.entryAdded"] (some "ch")]⟩
    (Subscription.mk "B" ["c1"] ["log.entryAdded"] (some "ch")) rfl

end SubMgr

namespace SharedId

theorem digitVal_digitChar (n : Nat) (h : n < 10) : digitVal (digitChar n) = n := by
  interval_cases n <;> rfl

theorem digitChar_isDigit (n : Nat) : (digitChar n).isDigit = true := by
  unfold digitChar
  split <;> rfl

theorem natCharsAux_digits (fuel : Nat) :
    ∀ n, n < fuel → ∀ c ∈ natCharsAux fuel n, c.isDigit = true := by
  induction fuel with
  | zero => intro n h; omega
  | succ fuel ih =>
    intro n h c hc
    unfold natCharsAux at hc
    by_cases h10 : n < 10
    · rw [if_pos h10] at hc
      rcases List.mem_singleton.mp hc with rfl
      exact digitChar_isDigit n
    · rw [if_neg h10] at hc
      rcases List.mem_append.mp hc with hc | hc
      · exact ih (n / 10) (by omega) c hc
      · rcases List.mem_singleton.mp hc with rfl
        exact digitChar_isDigit (n % 10)

theorem natCharsAux_ne_nil (fuel : Nat) :
    ∀ n, n < fuel → natCharsAux fuel n ≠ [] := by
  induction fuel with
  | zero => intro n h; omega
  | succ fuel ih =>
    intro n h
    unfold natCharsAux
    by_cases h10 : n < 10
    · rw [if_pos h10]
      simp
    · rw [if_neg h10]
      simp

theorem parseDigits_append1 (l : List Char) (c : Char) :
    parseDigits (l ++ [c]) = parseDigits l * 10 + digitVal c := by
  unfold parseDigits
  rw [List.foldl_append]
  rfl

theorem parseDigits_natCharsAux (fuel : Nat) :
    ∀ n, n < fuel → parseDigits (natCharsAux fuel n) = n := by
  induction fuel with
  | zero => intro n h; omega
  | succ fuel ih =>
    intro n h
    unfold natCharsAux
    by_cases h10 : n < 10
    · rw [if_pos h10]
      show 0 * 10 + digitVal (digitChar n) = n
      rw [digitVal_digitChar n h10]
      omega
    · rw [if_neg h10, parseDigits_append1, ih (n / 10) (by omega),
        digitVal_digitChar (n % 10) (by omega)]
      omega

theorem natChars_digits (n : Nat) : ∀ c ∈ natChars n, c.isDigit = true :=
  natCharsAux_digits (n + 1) n (by omega)

theorem natChars_ne_nil (n : Nat) : natChars n ≠ [] :=
  natCharsAux_ne_nil (n + 1) n (by omega)

theorem parseDigits_natChars (n : Nat) : parseDigits (natChars n) = n :=
  parseDigits_natCharsAux (n + 1) n (by omega)

theorem takeWhile_all (p : Char → Bool) (l : List Char)
    (h : ∀ c ∈ l, p c = true) : l.takeWhile p = l := by
  induction l with
  | nil => rfl
  | cons c l ih =>
    rw [List.takeWhile_cons, if_pos (h c (by simp))]
    rw [ih (fun x hx => h x (by simp [hx]))]

theorem parseUnsigned_digits (l : List Char) (hne : l ≠ [])
    (hdig : ∀ c ∈ l, c.isDigit = true) :
    parseUnsigned l = some (parseDigits l) := by
  have htw : l.takeWhile Char.isDigit = l := takeWhile_all Char.isDigit l hdig
  unfold parseUnsigned
  split
  · rename_i c2 rest2
    have hcd : c2.isDigit = true := hdig c2 (by simp)
    have hx : c2 ≠ 'x' := by
      rintro rfl
      cases hcd
    have hX : c2 ≠ 'X' := by
      rintro rfl
      cases hcd
    rw [if_neg (by simp [hx, hX])]
    simp only [htw]
    simp
  · simp only [htw]
    cases l with
    | nil => exact absurd rfl hne
    | cons c l => simp

theorem isJsSpace_digit_false (c : Char) (h : c.isDigit = true) :
    isJsSpace c = false := by
  have h2 : 48 ≤ c.toNat ∧ c.toNat ≤ 57 := by
    simp only [Char.isDigit, Bool.and_eq_true, decide_eq_true_eq] at h
    exact ⟨h.1, h.2⟩
  unfold isJsSpace
  have e1 : (c = ' ') = False := by
    simp only [eq_iff_iff, iff_false]
    intro hc
    subst hc
    revert h2
    decide
  have e2 : (c = '\t') = False := by
    simp only [eq_iff_iff, iff_false]
    intro hc
    subst hc
    revert h2
    decide
  have e3 : (c = '\n') = False := by
    simp only [eq_iff_iff, iff_false]
    intro hc
    subst hc
    revert h2
    decide
  have e4 : (c = '\r') = False := by
    simp only [eq_iff_iff, iff_false]
    intro hc
    subst hc
    revert h2
    decide
  simp [e1, e2, e3, e4]
  omega

theorem parseIntJS_natChars (n : Nat) : parseIntJS (natChars n) = some (n : Int) := by
  obtain ⟨c, rest, heq⟩ : ∃ c rest, natChars n = c :: rest := by
    cases h : natChars n with
    | nil => exact absurd h (natChars_ne_nil n)
    | cons c rest => exact ⟨c, rest, rfl⟩
  have hcd : c.isDigit = true := natChars_digits n c (by rw [heq]; simp)
  have hdw : (natChars n).dropWhile isJsSpace = natChars n := by
    rw [heq, List.dropWhile_cons, if_neg (by rw [isJsSpace_digit_false c hcd]; simp)]
  have hcm : c ≠ '-' := by
    rintro rfl
    cases hcd
  have hcp : c ≠ '+' := by
    rintro rfl
    cases hcd
  have harm : parseIntJS (natChars n) =
      (parseUnsigned (natChars n)).map (fun k => (k : Int)) := by
    unfold parseIntJS
    rw [hdw, heq]
    dsimp only
    split
    · rename_i rest2 heq2
      injection heq2 with h1 h2
      exact absurd h1 hcm
    · rename_i rest2 heq2
      injection heq2 with h1 h2
      exact absurd h1 hcp
    · rfl
  rw [harm, parseUnsigned_digits (natChars n) (natChars_ne_nil n) (natChars_digits n),
    parseDigits_natChars]
  rfl

theorem parseIntJS_neg_natChars (m : Nat) :
    parseIntJS ('-' :: natChars m) = some (-(m : Int)) := by
  have harm : parseIntJS ('-' :: natChars m) =
      (parseUnsigned (natChars m)).map (fun k => -(k : Int)) := by
    unfold parseIntJS
    rw [List.dropWhile_cons, if_neg (by decide)]
    dsimp only
    split
    · rename_i rest2 heq2
      injection heq2 with h1 h2
      rw [h2]
    · rename_i rest2 heq2
      injection heq2 with h1 h2
      exact absurd h1 (by decide)
    · rename_i h3 h4
      exact (h3 (natChars m) rfl).elim
  rw [harm, parseUnsigned_digits (natChars m) (natChars_ne_nil m) (natChars_digits m),
    parseDigits_natChars]
  rfl

theorem parseIntJS_intChars (b : Int) : parseIntJS (intChars b) = some b := by
  unfold intChars
  by_cases hb : b < 0
  · rw [if_pos hb, parseIntJS_neg_natChars]
    congr 1
    omega
  · rw [if_neg hb, parseIntJS_natChars]
    congr 1
    omega

theorem intChars_chars (b : Int) :
    ∀ c ∈ intChars b, c.isDigit = true ∨ c = '-' := by
  unfold intChars
  by_cases hb : b < 0
  · rw [if_pos hb]
    intro c hc
    rcases List.mem_cons.mp hc with rfl | hc
    · exact Or.inr rfl
    · exact Or.inl (natChars_digits _ c hc)
  · rw [if_neg hb]
    intro c hc
    exact Or.inl (natChars_digits _ c hc)

theorem intChars_ne_nil (b : Int) : intChars b ≠ [] := by
  unfold intChars
  by_cases hb : b < 0
  · rw [if_pos hb]
    simp
  · rw [if_neg hb]
    exact natChars_ne_nil _

end SharedId

namespace SharedId

theorem prefix_iff_forall (pat t : List Char) :
    pat.isPrefixOf t = true ↔ ∀ k < pat.length, t[k]? = pat[k]? := by
  induction pat generalizing t with
  | nil => simp [List.isPrefixOf]
  | cons a pat ih =>
    cases t with
    | nil =>
      simp only [List.isPrefixOf]
      constructor
      · intro h
        cases h
      · intro h
        have h0 := h 0 (by simp)
        simp at h0
    | cons b t =>
      rw [show List.isPrefixOf (a :: pat) (b :: t) =
        ((a == b) && List.isPrefixOf pat t) from rfl]
      rw [Bool.and_eq_true, beq_iff_eq, ih]
      constructor
      · rintro ⟨rfl, h⟩ k hk
        cases k with
        | zero => simp
        | succ k =>
          simp only [List.getElem?_cons_succ]
          exact h k (by simpa using hk)
      · intro h
        constructor
        · have h0 := h 0 (by simp)
          simpa using h0.symm
        · intro k hk
          have hk1 := h (k + 1) (by simpa using hk)
          simpa using hk1

theorem occurs_iff (pat s : List Char) (i : Nat) :
    occurs pat s i = true ↔
      ∀ k < pat.length, s[i + k]? = pat[k]? := by
  unfold occurs
  rw [prefix_iff_forall]
  constructor
  · intro h k hk
    rw [← List.getElem?_drop]
    exact h k hk
  · intro h k hk
    rw [List.getElem?_drop]
    exact h k hk

theorem occurs_ge_length (pat s : List Char) (i : Nat) (hpat : pat ≠ [])
    (hi : s.length ≤ i) : occurs pat s i = false := by
  rw [Bool.eq_false_iff]
  intro h
  rw [occurs_iff] at h
  cases pat with
  | nil => exact hpat rfl
  | cons a pat =>
    have h0 := h 0 (by simp)
    rw [List.getElem?_eq_none (by omega)] at h0
    simp at h0

theorem not_occursIn_of_forall (pat s : List Char)
    (h : ∀ i < s.length + 1, occurs pat s i = false) : ¬occursIn pat s := by
  rintro ⟨i, hilt, hi⟩
  rw [h i hilt] at hi
  cases hi

theorem lastSuch_succ (n : Nat) (P : Nat → Bool) :
    lastSuch (n + 1) P = if P n then some n else lastSuch n P := by
  unfold lastSuch
  rw [List.range_succ, List.foldl_append]
  rfl

theorem lastSuch_eq_some (n j : Nat) (P : Nat → Bool) (hj : j < n) (hP : P j = true)
    (hmax : ∀ k, j < k → k < n → P k = false) : lastSuch n P = some j := by
  induction n with
  | zero => omega
  | succ n ih =>
    rw [lastSuch_succ]
    by_cases hn : j = n
    · subst hn
      rw [if_pos hP]
    · rw [hmax n (by omega) (by omega)]
      simp only [Bool.false_eq_true, if_false]
      exact ih (by omega) (fun k h1 h2 => hmax k h1 (by omega))

theorem lastSuch_eq_none (n : Nat) (P : Nat → Bool)
    (h : ∀ k < n, P k = false) : lastSuch n P = none := by
  induction n with
  | zero => rfl
  | succ n ih =>
    rw [lastSuch_succ, h n (by omega)]
    simp only [Bool.false_eq_true, if_false]
    exact ih (fun k hk => h k (by omega))

theorem find?_range_zero (n : Nat) (P : Nat → Bool) (h : P 0 = true) :
    (List.range (n + 1)).find? P = some 0 := by
  rw [List.range_succ_eq_map]
  rw [List.find?_cons_of_pos _ h]

end SharedId

namespace SharedId

theorem sget (f d g : List Char) (n : Nat) :
    (fDot ++ f ++ dotD ++ d ++ dotE ++ g)[n]? =
      if n < 2 then fDot[n]?
      else if n < 2 + f.length then f[n - 2]?
      else if n < 2 + f.length + 3 then dotD[n - (2 + f.length)]?
      else if n < 2 + f.length + 3 + d.length then d[n - (2 + f.length + 3)]?
      else if n < 2 + f.length + 3 + d.length + 3 then
        dotE[n - (2 + f.length + 3 + d.length)]?
      else g[n - (2 + f.length + 3 + d.length + 3)]? := by
  have hf2 : fDot.length = 2 := rfl
  have hd3 : dotD.length = 3 := rfl
  have he3 : dotE.length = 3 := rfl
  simp only [List.append_assoc]
  by_cases h1 : n < 2
  · rw [if_pos h1, List.getElem?_append, if_pos (by omega)]
  · rw [if_neg h1, List.getElem?_append_right (by omega), hf2]
    by_cases h2 : n < 2 + f.length
    · rw [if_pos h2, List.getElem?_append, if_pos (by omega)]
    · rw [if_neg h2, List.getElem?_append_right (by omega)]
      by_cases h3 : n < 2 + f.length + 3
      · rw [if_pos h3, List.getElem?_append, if_pos (by omega)]
        congr 1
        omega
      · rw [if_neg h3, List.getElem?_append_right (by omega), hd3]
        by_cases h4 : n < 2 + f.length + 3 + d.length
        · rw [if_pos h4, List.getElem?_append, if_pos (by omega)]
          congr 1
          omega
        · rw [if_neg h4, List.getElem?_append_right (by omega)]
          by_cases h5 : n < 2 + f.length + 3 + d.length + 3
          · rw [if_pos h5, List.getElem?_append, if_pos (by omega)]
            congr 1
            omega
          · rw [if_neg h5, List.getElem?_append_right (by omega), he3]
            congr 1
            omega

theorem lget (d tail : List Char) (n : Nat) :
    (d ++ elemPat ++ tail)[n]? =
      if n < d.length then d[n]?
      else if n < d.length + 9 then elemPat[n - d.length]?
      else tail[n - (d.length + 9)]? := by
  have he9 : elemPat.length = 9 := rfl
  simp only [List.append_assoc]
  by_cases h1 : n < d.length
  · rw [if_pos h1, List.getElem?_append, if_pos (by omega)]
  · rw [if_neg h1, List.getElem?_append_right (by omega)]
    by_cases h2 : n < d.length + 9
    · rw [if_pos h2, List.getElem?_append, if_pos (by omega)]
    · rw [if_neg h2, List.getElem?_append_right (by omega), he9]
      congr 1

theorem slen (f d g : List Char) :
    (fDot ++ f ++ dotD ++ d ++ dotE ++ g).length =
      2 + f.length + 3 + d.length + 3 + g.length := by
  simp only [List.length_append]
  have hf2 : fDot.length = 2 := rfl
  have hd3 : dotD.length = 3 := rfl
  have he3 : dotE.length = 3 := rfl
  omega

theorem llen (d tail : List Char) :
    (d ++ elemPat ++ tail).length = d.length + 9 + tail.length := by
  simp only [List.length_append]
  have he9 : elemPat.length = 9 := rfl
  omega

theorem occurs_fDot_zero (f d g : List Char) :
    occurs fDot (fDot ++ f ++ dotD ++ d ++ dotE ++ g) 0 = true := by
  unfold occurs
  rw [List.drop_zero, List.isPrefixOf_iff_prefix]
  simp only [List.append_assoc]
  exact List.prefix_append fDot _

theorem occurs_dotD_p (f d g : List Char) :
    occurs dotD (fDot ++ f ++ dotD ++ d ++ dotE ++ g) (2 + f.length) = true := by
  unfold occurs
  have hs : fDot ++ f ++ dotD ++ d ++ dotE ++ g =
      (fDot ++ f) ++ (dotD ++ (d ++ (dotE ++ g))) := by
    simp [List.append_assoc]
  rw [hs, show 2 + f.length = (fDot ++ f).length by simp [fDot]; omega, List.drop_left,
    List.isPrefixOf_iff_prefix]
  exact List.prefix_append dotD _

theorem occurs_dotE_q (f d g : List Char) :
    occurs dotE (fDot ++ f ++ dotD ++ d ++ dotE ++ g)
      (2 + f.length + 3 + d.length) = true := by
  unfold occurs
  have hs : fDot ++ f ++ dotD ++ d ++ dotE ++ g =
      (fDot ++ f ++ dotD ++ d) ++ (dotE ++ g) := by
    simp [List.append_assoc]
  rw [hs, show 2 + f.length + 3 + d.length = (fDot ++ f ++ dotD ++ d).length by
      simp [fDot, dotD]; omega,
    List.drop_left, List.isPrefixOf_iff_prefix]
  exact List.prefix_append dotE _

theorem occurs_elemPat_len (d tail : List Char) :
    occurs elemPat (d ++ elemPat ++ tail) d.length = true := by
  unfold occurs
  have hs : d ++ elemPat ++ tail = d ++ (elemPat ++ tail) := by
    simp [List.append_assoc]
  rw [hs, show d.length = d.length from rfl]
  rw [List.drop_left, List.isPrefixOf_iff_prefix]
  exact List.prefix_append elemPat _

theorem take_group1 (f d g : List Char) :
    (((fDot ++ f ++ dotD ++ d ++ dotE ++ g).take (2 + f.length)).drop 2) = f := by
  have hs : fDot ++ f ++ dotD ++ d ++ dotE ++ g =
      (fDot ++ f) ++ (dotD ++ (d ++ (dotE ++ g))) := by
    simp [List.append_assoc]
  rw [hs, List.take_left' (by simp [fDot]; omega), show (2 : Nat) = fDot.length from rfl,
    List.drop_left]

theorem take_group2 (f d g : List Char) :
    (((fDot ++ f ++ dotD ++ d ++ dotE ++ g).take (2 + f.length + 3 + d.length)).drop
      (2 + f.length + 3)) = d := by
  have hs : fDot ++ f ++ dotD ++ d ++ dotE ++ g =
      ((fDot ++ f ++ dotD) ++ d) ++ (dotE ++ g) := by
    simp [List.append_assoc]
  rw [hs, List.take_left' (by simp [fDot, dotD]; omega),
    show 2 + f.length + 3 = (fDot ++ f ++ dotD).length by simp [fDot, dotD]; omega,
    List.drop_left]

theorem drop_group3 (f d g : List Char) :
    (fDot ++ f ++ dotD ++ d ++ dotE ++ g).drop (2 + f.length + 3 + d.length + 3) =
      g := by
  have hs : fDot ++ f ++ dotD ++ d ++ dotE ++ g =
      (fDot ++ f ++ dotD ++ d ++ dotE) ++ g := by
    simp [List.append_assoc]
  rw [hs, show 2 + f.length + 3 + d.length + 3 =
      (fDot ++ f ++ dotD ++ d ++ dotE).length by simp [fDot, dotD, dotE]; omega,
    List.drop_left]

theorem take_legacy (d tail : List Char) :
    (d ++ elemPat ++ tail).take d.length = d := by
  have hs : d ++ elemPat ++ tail = d ++ (elemPat ++ tail) := by
    simp [List.append_assoc]
  rw [hs, List.take_left]

theorem drop_legacy (d tail : List Char) :
    (d ++ elemPat ++ tail).drop (d.length + 9) = tail := by
  have hs : d ++ elemPat ++ tail = (d ++ elemPat) ++ tail := rfl
  rw [hs, show d.length + 9 = (d ++ elemPat).length by simp [elemPat],
    List.drop_left]

end SharedId

namespace SharedId

theorem mem_of_getq {l : List Char} {n : Nat} {c : Char} (h : l[n]? = some c) :
    c ∈ l := by
  induction l generalizing n with
  | nil => cases h
  | cons a l ih =>
    cases n with
    | zero =>
      simp at h
      rw [h]
      simp
    | succ n =>
      simp only [List.getElem?_cons_succ] at h
      exact List.mem_cons_of_mem a (ih h)

theorem no_elemPat_occ (f d g : List Char) (hg : ∀ c ∈ g, c.isDigit = true)
    (hf : ¬occursIn elemPat f) (hd : ¬occursIn elemPat d) (m : Nat) :
    occurs elemPat (fDot ++ f ++ dotD ++ d ++ dotE ++ g) m = false := by
  have he9 : elemPat.length = 9 := rfl
  have hLen := slen f d g
  rw [Bool.eq_false_iff]
  intro hocc
  rw [occurs_iff, he9] at hocc
  have hdotfun : ∀ t, m ≤ t → t < m + 9 →
      (fDot ++ f ++ dotD ++ d ++ dotE ++ g)[t]? = some '.' → False := by
    intro t h1 h2 hdot
    have h3 := hocc (t - m) (by omega)
    rw [show m + (t - m) = t by omega, hdot] at h3
    have h4 : ∀ k < 9, elemPat[k]? ≠ some '.' := by decide
    exact h4 (t - m) (by omega) h3.symm
  have hdot1 : (fDot ++ f ++ dotD ++ d ++ dotE ++ g)[1]? = some '.' := by
    rw [sget, if_pos (by omega)]
    rfl
  have hdotp0 : (fDot ++ f ++ dotD ++ d ++ dotE ++ g)[2 + f.length]? = some '.' := by
    rw [sget, if_neg (by omega), if_neg (by omega), if_pos (by omega),
      show 2 + f.length - (2 + f.length) = 0 by omega]
    rfl
  have hdotp2 : (fDot ++ f ++ dotD ++ d ++ dotE ++ g)[2 + f.length + 2]? =
      some '.' := by
    rw [sget, if_neg (by omega), if_neg (by omega), if_pos (by omega),
      show 2 + f.length + 2 - (2 + f.length) = 2 by omega]
    rfl
  have hdotq0 : (fDot ++ f ++ dotD ++ d ++ dotE ++ g)[2 + f.length + 3 + d.length]? =
      some '.' := by
    rw [sget, if_neg (by omega), if_neg (by omega), if_neg (by omega),
      if_neg (by omega), if_pos (by omega),
      show 2 + f.length + 3 + d.length - (2 + f.length + 3 + d.length) = 0 by omega]
    rfl
  have hdotq2 : (fDot ++ f ++ dotD ++ d ++ dotE ++
      g)[2 + f.length + 3 + d.length + 2]? = some '.' := by
    rw [sget, if_neg (by omega), if_neg (by omega), if_neg (by omega),
      if_neg (by omega), if_pos (by omega),
      show 2 + f.length + 3 + d.length + 2 - (2 + f.length + 3 + d.length) = 2
        by omega]
    rfl
  by_cases hend : m + 8 < (fDot ++ f ++ dotD ++ d ++ dotE ++ g).length
  · by_cases hm2 : m < 2
    · exact hdotfun 1 (by omega) (by omega) hdot1
    · by_cases hinf : m + 8 < 2 + f.length
      · apply hf
        refine ⟨m - 2, by omega, ?_⟩
        rw [occurs_iff, he9]
        intro k hk
        have h3 := hocc k (by omega)
        rw [sget, if_neg (by omega), if_pos (by omega),
          show m + k - 2 = m - 2 + k by omega] at h3
        exact h3
      · by_cases hmp : m ≤ 2 + f.length
        · exact hdotfun (2 + f.length) (by omega) (by omega) hdotp0
        · by_cases hmp1 : m ≤ 2 + f.length + 2
          · exact hdotfun (2 + f.length + 2) (by omega) (by omega) hdotp2
          · by_cases hind : m + 8 < 2 + f.length + 3 + d.length
            · apply hd
              refine ⟨m - (2 + f.length + 3), by omega, ?_⟩
              rw [occurs_iff, he9]
              intro k hk
              have h3 := hocc k (by omega)
              rw [sget, if_neg (by omega), if_neg (by omega), if_neg (by omega),
                if_pos (by omega),
                show m + k - (2 + f.length + 3) = m - (2 + f.length + 3) + k
                  by omega] at h3
              exact h3
            · by_cases hmq : m ≤ 2 + f.length + 3 + d.length
              · exact hdotfun (2 + f.length + 3 + d.length) (by omega) (by omega)
                  hdotq0
              · by_cases hmq1 : m ≤ 2 + f.length + 3 + d.length + 2
                · exact hdotfun (2 + f.length + 3 + d.length + 2) (by omega)
                    (by omega) hdotq2
                · have h0 := hocc 0 (by omega)
                  rw [Nat.add_zero, sget, if_neg (by omega), if_neg (by omega),
                    if_neg (by omega), if_neg (by omega), if_neg (by omega)] at h0
                  rcases hgi : g[m - (2 + f.length + 3 + d.length + 3)]? with _ | c
                  · rw [hgi] at h0
                    exact absurd h0.symm (by decide)
                  · rw [hgi] at h0
                    have hc : c = '_' := by
                      have h5 : elemPat[0]? = some '_' := rfl
                      rw [h5] at h0
                      exact Option.some.inj h0
                    have h6 := hg c (mem_of_getq hgi)
                    rw [hc] at h6
                    exact absurd h6 (by decide)
  · have h8 := hocc 8 (by omega)
    rw [List.getElem?_eq_none (by omega)] at h8
    exact absurd h8.symm (by decide)

theorem dotE_occ_le (f d g : List Char) (hg : ∀ c ∈ g, c.isDigit = true) (k : Nat)
    (h : occurs dotE (fDot ++ f ++ dotD ++ d ++ dotE ++ g) k = true) :
    k ≤ 2 + f.length + 3 + d.length := by
  have he3 : dotE.length = 3 := rfl
  have hLen := slen f d g
  rw [occurs_iff, he3] at h
  by_contra hgt
  push_neg at hgt
  by_cases hk1 : k = 2 + f.length + 3 + d.length + 1
  · subst hk1
    have h0 := h 0 (by omega)
    rw [Nat.add_zero, sget, if_neg (by omega), if_neg (by omega), if_neg (by omega),
      if_neg (by omega), if_pos (by omega),
      show 2 + f.length + 3 + d.length + 1 - (2 + f.length + 3 + d.length) = 1
        by omega] at h0
    exact absurd h0 (by decide)
  · by_cases hk2 : k = 2 + f.length + 3 + d.length + 2
    · subst hk2
      have h1 := h 1 (by omega)
      rw [sget, if_neg (by omega), if_neg (by omega), if_neg (by omega),
        if_neg (by omega), if_neg (by omega)] at h1
      rcases hgi : g[2 + f.length + 3 + d.length + 2 + 1 -
          (2 + f.length + 3 + d.length + 3)]? with _ | c
      · rw [hgi] at h1
        exact absurd h1.symm (by decide)
      · rw [hgi] at h1
        have hc : c = 'e' := by
          have h5 : dotE[1]? = some 'e' := rfl
          rw [h5] at h1
          exact Option.some.inj h1
        have h6 := hg c (mem_of_getq hgi)
        rw [hc] at h6
        exact absurd h6 (by decide)
    · have h0 := h 0 (by omega)
      rw [Nat.add_zero, sget, if_neg (by omega), if_neg (by omega), if_neg (by omega),
        if_neg (by omega), if_neg (by omega)] at h0
      rcases hgi : g[k - (2 + f.length + 3 + d.length + 3)]? with _ | c
      · rw [hgi] at h0
        exact absurd h0.symm (by decide)
      · rw [hgi] at h0
        have hc : c = '.' := by
          have h5 : dotE[0]? = some '.' := rfl
          rw [h5] at h0
          exact Option.some.inj h0
        have h6 := hg c (mem_of_getq hgi)
        rw [hc] at h6
        exact absurd h6 (by decide)

theorem dotD_occ_bound (f d g : List Char) (hd1 : ¬occursIn dotD d)
    (hd2 : d.take 2 ≠ ['d', '.']) (j : Nat)
    (h : occurs dotD (fDot ++ f ++ dotD ++ d ++ dotE ++ g) j = true) :
    j ≤ 2 + f.length ∨ 2 + f.length + 3 + d.length ≤ j + 2 := by
  have hd3 : dotD.length = 3 := rfl
  have hLen := slen f d g
  rw [occurs_iff, hd3] at h
  by_contra hcon
  push_neg at hcon
  obtain ⟨hjp, hjq⟩ := hcon
  by_cases hj1 : j = 2 + f.length + 1
  · subst hj1
    have h0 := h 0 (by omega)
    rw [Nat.add_zero, sget, if_neg (by omega), if_neg (by omega), if_pos (by omega),
      show 2 + f.length + 1 - (2 + f.length) = 1 by omega] at h0
    exact absurd h0 (by decide)
  · by_cases hj2 : j = 2 + f.length + 2
    · subst hj2
      have hdlen : 2 ≤ d.length := by omega
      have h1 := h 1 (by omega)
      rw [sget, if_neg (by omega), if_neg (by omega), if_neg (by omega),
        if_pos (by omega),
        show 2 + f.length + 2 + 1 - (2 + f.length + 3) = 0 by omega] at h1
      have h2 := h 2 (by omega)
      rw [sget, if_neg (by omega), if_neg (by omega), if_neg (by omega),
        if_pos (by omega),
        show 2 + f.length + 2 + 2 - (2 + f.length + 3) = 1 by omega] at h2
      apply hd2
      cases d with
      | nil => simp at hdlen
      | cons c0 d2 =>
        cases d2 with
        | nil => simp at hdlen
        | cons c1 d3 =>
          simp only [List.getElem?_cons_zero, List.getElem?_cons_succ] at h1 h2
          have hc0 : c0 = 'd' := by
            have h5 : dotD[1]? = some 'd' := rfl
            rw [h5] at h1
            exact Option.some.inj h1
          have hc1 : c1 = '.' := by
            have h5 : dotD[2]? = some '.' := rfl
            rw [h5] at h2
            exact Option.some.inj h2
          rw [hc0, hc1]
          rfl
    · apply hd1
      refine ⟨j - (2 + f.length + 3), by omega, ?_⟩
      rw [occurs_iff, hd3]
      intro k hk
      have h3 := h k (by omega)
      rw [sget, if_neg (by omega), if_neg (by omega), if_neg (by omega),
        if_pos (by omega),
        show j + k - (2 + f.length + 3) = j - (2 + f.length + 3) + k by omega] at h3
      exact h3

end SharedId

namespace SharedId

theorem isLineTerm_digit_false (c : Char) (h : c.isDigit = true) :
    isLineTerm c = false := by
  have h2 : 48 ≤ c.toNat ∧ c.toNat ≤ 57 := by
    simp only [Char.isDigit, Bool.and_eq_true, decide_eq_true_eq] at h
    exact ⟨h.1, h.2⟩
  unfold isLineTerm
  have e1 : (c = '\n') = False := by
    simp only [eq_iff_iff, iff_false]
    intro hc
    subst hc
    revert h2
    decide
  have e2 : (c = '\r') = False := by
    simp only [eq_iff_iff, iff_false]
    intro hc
    subst hc
    revert h2
    decide
  simp [e1, e2]
  omega

theorem intChars_noLT (b : Int) : ∀ c ∈ intChars b, isLineTerm c = false := by
  intro c hc
  rcases intChars_chars b c hc with h | rfl
  · exact isLineTerm_digit_false c h
  · rfl

theorem noLT_group1 (f d g : List Char) (hf : ∀ c ∈ f, isLineTerm c = false) :
    noLT (fDot ++ f ++ dotD ++ d ++ dotE ++ g) 2 (2 + f.length) = true := by
  unfold noLT
  rw [take_group1, List.all_eq_true]
  intro c hc
  rw [hf c hc]
  rfl

theorem noLT_group2 (f d g : List Char) (hd : ∀ c ∈ d, isLineTerm c = false) :
    noLT (fDot ++ f ++ dotD ++ d ++ dotE ++ g) (2 + f.length + 3)
      (2 + f.length + 3 + d.length) = true := by
  unfold noLT
  rw [take_group2, List.all_eq_true]
  intro c hc
  rw [hd c hc]
  rfl

theorem noLT_legacy (d tail : List Char) (hd : ∀ c ∈ d, isLineTerm c = false) :
    noLT (d ++ elemPat ++ tail) 0 d.length = true := by
  unfold noLT
  rw [List.drop_zero, take_legacy, List.all_eq_true]
  intro c hc
  rw [hd c hc]
  rfl

theorem newFormatMatch_canonical (f d g : List Char)
    (hg : ∀ c ∈ g, c.isDigit = true) (hd1 : ¬occursIn dotD d)
    (hd2 : d.take 2 ≠ ['d', '.'])
    (hfLT : ∀ c ∈ f, isLineTerm c = false)
    (hdLT : ∀ c ∈ d, isLineTerm c = false) :
    newFormatMatch (fDot ++ f ++ dotD ++ d ++ dotE ++ g) =
      some (f, d, g.takeWhile Char.isDigit) := by
  have hLen := slen f d g
  have hq_occ := occurs_dotE_q f d g
  have hp_occ := occurs_dotD_p f d g
  have hnl1 := noLT_group1 f d g hfLT
  have hnl2 := noLT_group2 f d g hdLT
  have heA : eAfter (fDot ++ f ++ dotD ++ d ++ dotE ++ g) (2 + f.length + 3) =
      true := by
    unfold eAfter
    rw [List.any_eq_true]
    refine ⟨2 + f.length + 3 + d.length, ?_, ?_⟩
    · rw [List.mem_range]
      omega
    · rw [Bool.and_eq_true, Bool.and_eq_true]
      exact ⟨⟨decide_eq_true (by omega), hq_occ⟩, hnl2⟩
  have hcand_p : dCandidate (fDot ++ f ++ dotD ++ d ++ dotE ++ g) 0
      (2 + f.length) = true := by
    unfold dCandidate
    rw [Bool.and_eq_true, Bool.and_eq_true, Bool.and_eq_true]
    exact ⟨⟨⟨decide_eq_true (by omega), hp_occ⟩, hnl1⟩, heA⟩
  have hviable0 : startViable (fDot ++ f ++ dotD ++ d ++ dotE ++ g) 0 = true := by
    unfold startViable
    rw [Bool.and_eq_true]
    refine ⟨occurs_fDot_zero f d g, ?_⟩
    rw [List.any_eq_true]
    refine ⟨2 + f.length, ?_, hcand_p⟩
    rw [List.mem_range]
    omega
  have hfind := find?_range_zero (fDot ++ f ++ dotD ++ d ++ dotE ++ g).length
    (startViable (fDot ++ f ++ dotD ++ d ++ dotE ++ g)) hviable0
  have hlastD : lastSuch ((fDot ++ f ++ dotD ++ d ++ dotE ++ g).length + 1)
      (dCandidate (fDot ++ f ++ dotD ++ d ++ dotE ++ g) 0) =
      some (2 + f.length) := by
    apply lastSuch_eq_some
    · omega
    · exact hcand_p
    · intro k hk1 hk2
      rw [Bool.eq_false_iff]
      intro hcand
      unfold dCandidate at hcand
      rw [Bool.and_eq_true, Bool.and_eq_true, Bool.and_eq_true] at hcand
      obtain ⟨⟨⟨_, hocck⟩, _⟩, hea⟩ := hcand
      rcases dotD_occ_bound f d g hd1 hd2 k hocck with hle | hge
      · omega
      · unfold eAfter at hea
        rw [List.any_eq_true] at hea
        obtain ⟨k2, hk2mem, hk2p⟩ := hea
        rw [Bool.and_eq_true, Bool.and_eq_true, decide_eq_true_eq] at hk2p
        have h6 := dotE_occ_le f d g hg k2 hk2p.1.2
        omega
  have hlastE : lastSuch ((fDot ++ f ++ dotD ++ d ++ dotE ++ g).length + 1)
      (fun k => decide (2 + f.length + 3 ≤ k) &&
        occurs dotE (fDot ++ f ++ dotD ++ d ++ dotE ++ g) k &&
        noLT (fDot ++ f ++ dotD ++ d ++ dotE ++ g) (2 + f.length + 3) k) =
      some (2 + f.length + 3 + d.length) := by
    apply lastSuch_eq_some
    · omega
    · rw [Bool.and_eq_true, Bool.and_eq_true]
      exact ⟨⟨decide_eq_true (by omega), hq_occ⟩, hnl2⟩
    · intro k hk1 hk2
      rw [Bool.eq_false_iff]
      intro hP
      rw [Bool.and_eq_true, Bool.and_eq_true] at hP
      have h6 := dotE_occ_le f d g hg k hP.1.2
      omega
  unfold newFormatMatch
  rw [hfind]
  dsimp only
  rw [hlastD]
  dsimp only
  rw [hlastE]
  dsimp only
  rw [take_group1, take_group2, drop_group3]

theorem parse_none (s : List Char) (h1 : parseLegacySharedId s = none)
    (h2 : newFormatMatch s = none) : parseSharedId s = none := by
  unfold parseSharedId
  rw [h1, h2]

theorem parse_getSharedId (f d : List Char) (b : Int) (hb : 0 ≤ b)
    (hd1 : ¬occursIn dotD d) (hd2 : d.take 2 ≠ ['d', '.'])
    (hf : ¬occursIn elemPat f) (hd : ¬occursIn elemPat d)
    (hfLT : ∀ c ∈ f, isLineTerm c = false)
    (hdLT : ∀ c ∈ d, isLineTerm c = false) :
    parseSharedId (getSharedId f d b) =
      some { frameId := some f, documentId := d, backendNodeId := b } := by
  have hICeq : intChars b = natChars b.toNat := by
    unfold intChars
    rw [if_neg (by omega)]
  have hg : ∀ c ∈ intChars b, c.isDigit = true := by
    rw [hICeq]
    exact natChars_digits _
  have hfindnone : (List.range
      ((fDot ++ f ++ dotD ++ d ++ dotE ++ intChars b).length + 1)).find?
      (legacyStartViable (fDot ++ f ++ dotD ++ d ++ dotE ++ intChars b)) =
      none := by
    rw [List.find?_eq_none]
    intro i _
    unfold legacyStartViable
    rw [Bool.not_eq_true, List.any_eq_false]
    intro m _
    intro hp
    rw [Bool.and_eq_true, Bool.and_eq_true] at hp
    have hocc := no_elemPat_occ f d (intChars b) hg hf hd m
    rw [hocc] at hp
    exact Bool.noConfusion hp.1.2
  have hlegacy : parseLegacySharedId (getSharedId f d b) = none := by
    unfold getSharedId parseLegacySharedId
    rw [hfindnone]
  have hnew : newFormatMatch (getSharedId f d b) =
      some (f, d, (intChars b).takeWhile Char.isDigit) := by
    unfold getSharedId
    exact newFormatMatch_canonical f d (intChars b) hg hd1 hd2 hfLT hdLT
  unfold parseSharedId
  rw [hlegacy, hnew]
  dsimp only
  rw [takeWhile_all Char.isDigit (intChars b) hg, parseIntJS_intChars b]

theorem parse_legacy (d : List Char) (b : Int)
    (hdLT : ∀ c ∈ d, isLineTerm c = false) :
    parseSharedId (d ++ elemPat ++ intChars b) =
      some { frameId := none, documentId := d, backendNodeId := b } := by
  have he9 : elemPat.length = 9 := rfl
  have hnoLT0 := noLT_legacy d (intChars b) hdLT
  have hviable0 : legacyStartViable (d ++ elemPat ++ intChars b) 0 = true := by
    unfold legacyStartViable
    rw [List.any_eq_true]
    refine ⟨d.length, ?_, ?_⟩
    · rw [List.mem_range, llen]
      omega
    · rw [Bool.and_eq_true, Bool.and_eq_true]
      exact ⟨⟨decide_eq_true (by omega), occurs_elemPat_len d (intChars b)⟩, hnoLT0⟩
  have hfind0 := find?_range_zero (d ++ elemPat ++ intChars b).length
    (legacyStartViable (d ++ elemPat ++ intChars b)) hviable0
  have hlast : lastSuch ((d ++ elemPat ++ intChars b).length + 1)
      (fun m => decide (0 ≤ m) &&
        occurs elemPat (d ++ elemPat ++ intChars b) m &&
        noLT (d ++ elemPat ++ intChars b) 0 m) = some d.length := by
    apply lastSuch_eq_some
    · rw [llen]
      omega
    · rw [Bool.and_eq_true, Bool.and_eq_true]
      exact ⟨⟨decide_eq_true (by omega), occurs_elemPat_len d (intChars b)⟩, hnoLT0⟩
    · intro m hm1 hm2
      have hLen := llen d (intChars b)
      rw [Bool.eq_false_iff]
      intro hP
      rw [Bool.and_eq_true, Bool.and_eq_true] at hP
      have h := hP.1.2
      rw [occurs_iff, he9] at h
      by_cases hm8 : m ≤ d.length + 7
      · have h0 := h 0 (by omega)
        rw [Nat.add_zero, lget, if_neg (by omega), if_pos (by omega)] at h0
        have hfin : ∀ t < 8, 1 ≤ t → elemPat[t]? ≠ elemPat[0]? := by decide
        exact hfin (m - d.length) (by omega) (by omega) h0
      · by_cases hm9 : m = d.length + 8
        · subst hm9
          have h1 := h 1 (by omega)
          rw [lget, if_neg (by omega), if_neg (by omega),
            show d.length + 8 + 1 - (d.length + 9) = 0 by omega] at h1
          rcases hgi : (intChars b)[0]? with _ | c
          · rw [hgi] at h1
            exact absurd h1.symm (by decide)
          · rw [hgi] at h1
            have hc : c = 'e' := by
              have h5 : elemPat[1]? = some 'e' := rfl
              rw [h5] at h1
              exact Option.some.inj h1
            rcases intChars_chars b c (mem_of_getq hgi) with hdig | hmin
            · rw [hc] at hdig
              exact absurd hdig (by decide)
            · rw [hc] at hmin
              exact absurd hmin (by decide)
        · have h0 := h 0 (by omega)
          rw [Nat.add_zero, lget, if_neg (by omega), if_neg (by omega)] at h0
          rcases hgi : (intChars b)[m - (d.length + 9)]? with _ | c
          · rw [hgi] at h0
            exact absurd h0.symm (by decide)
          · rw [hgi] at h0
            have hc : c = '_' := by
              have h5 : elemPat[0]? = some '_' := rfl
              rw [h5] at h0
              exact Option.some.inj h0
            rcases intChars_chars b c (mem_of_getq hgi) with hdig | hmin
            · rw [hc] at hdig
              exact absurd hdig (by decide)
            · rw [hc] at hmin
              exact absurd hmin (by decide)
  have htw : (intChars b).takeWhile (fun c => !isLineTerm c) = intChars b := by
    apply takeWhile_all
    intro c hc
    rw [intChars_noLT b c hc]
    rfl
  unfold parseSharedId parseLegacySharedId
  rw [hfind0]
  dsimp only
  rw [hlast]
  dsimp only
  rw [show d.length + elemPat.length = d.length + 9 from rfl, drop_legacy, htw,
    parseIntJS_intChars]
  dsimp only
  rw [List.drop_zero, take_legacy]

end SharedId

namespace SharedId

/-- C7 (amended): the getSharedId/parseSharedId round trip holds whenever
the backend node id is non-negative, the document id neither contains
`.d.` nor starts with `d.`, neither the frame id nor the document id
contains `_element_`, and neither contains a line terminator (otherwise
the legacy parser or the greedy dot-excluding-newline groups of the
shared-id regex pick a different decomposition, or no match exists at
all); a legacy `<documentId>_element_<id>` string parses to an undefined
frameId for every line-terminator-free document id and every integer id;
and a string matching neither format parses to null. -/
theorem c7_sharedId_roundtrip :
    (∀ (f d : List Char) (b : Int), 0 ≤ b → ¬occursIn dotD d →
      d.take 2 ≠ ['d', '.'] → ¬occursIn elemPat f → ¬occursIn elemPat d →
      (∀ c ∈ f, isLineTerm c = false) → (∀ c ∈ d, isLineTerm c = false) →
      parseSharedId (getSharedId f d b) =
        some { frameId := some f, documentId := d, backendNodeId := b }) ∧
    (∀ (d : List Char) (b : Int), (∀ c ∈ d, isLineTerm c = false) →
      parseSharedId (d ++ elemPat ++ intChars b) =
        some { frameId := none, documentId := d, backendNodeId := b }) ∧
    (∀ s : List Char, parseLegacySharedId s = none → newFormatMatch s = none →
      parseSharedId s = none) :=
  ⟨parse_getSharedId, parse_legacy, parse_none⟩

/-- C7 counterexample to the unconditional round-trip claim: a document id
containing `.d.` shifts the greedy first group; a frame id containing
`_element_` makes the legacy parser fire first; a negative backend node id
leaves the digit group empty, so parseInt yields NaN and the parse is
null; a newline in the frame id prevents the regex (whose `.` does not
match line terminators) from matching at all; and a newline in the
document id of a legacy shared id moves the match start past it. -/
theorem c7_roundtrip_counterexample :
    parseSharedId (getSharedId ['F'] ['a', '.', 'd', '.', 'b'] 1) =
      some (ParsedSharedId.mk (some ['F', '.', 'd', '.', 'a']) ['b'] 1) ∧
    parseSharedId
        (getSharedId ['x', '_', 'e', 'l', 'e', 'm', 'e', 'n', 't', '_', '9']
          ['D'] 5) =
      some (ParsedSharedId.mk none ['f', '.', 'x'] 9) ∧
    parseSharedId (getSharedId ['F'] ['D'] (-1)) = none ∧
    parseSharedId (getSharedId ['\n'] ['D'] 5) = none ∧
    parseSharedId (['a', '\n', 'b'] ++ elemPat ++ intChars 5) =
      some (ParsedSharedId.mk none ['b'] 5) := by
  refine ⟨?_, ?_, ?_, ?_, ?_⟩ <;> rfl

/-- Witness for the amended C7 at concrete inputs satisfying its hypotheses. -/
theorem c7_sharedId_roundtrip_witness :
    parseSharedId (getSharedId ['F'] ['D'] 7) =
      some (ParsedSharedId.mk (some ['F']) ['D'] 7) ∧
    parseSharedId (['D'] ++ elemPat ++ intChars 5) =
      some (ParsedSharedId.mk none ['D'] 5) :=
  ⟨c7_sharedId_roundtrip.1 ['F'] ['D'] 7 (by decide)
      (not_occursIn_of_forall dotD ['D'] (by decide))
      (by decide)
      (not_occursIn_of_forall elemPat ['F'] (by decide))
      (not_occursIn_of_forall elemPat ['D'] (by decide))
      (by decide) (by decide),
    c7_sharedId_roundtrip.2.1 ['D'] 5 (by decide)⟩

end SharedId
